import Mathlib

/-!
Shallow embedding of `src/video/drivers/join.cpp` (class `pangolin::VideoJoiner`).

Each joined child source is modelled as an oracle state (`SrcState`): a call to the
child's `GrabNext`/`GrabNewest` consumes the head of a behaviour `script`, which fixes
the call's boolean result and the `FrameProperties` reception-time entry visible after
the call.  The joiner's observable actions (child grab calls with their offsets and
wait flags, drop requests, error prints, the desync warning) are recorded in an event
log, so that claims about "exactly one re-grab" or "exactly backlog blocking grabs"
become statements about event counts.

The unchecked `dynamic_cast<VideoPropertiesInterface*>` dereference performed inside
the grab loops when sync is enabled is undefined behaviour in C++ when a source lacks
the capability; the model makes this observable by returning `none` from the grab
functions in that case.  Reachable joiner states never produce it (see the C10
theorem).
-/

/-- Smallest signed 64-bit value: initializer of the `newest` accumulator
(`std::numeric_limits<int64_t>::min()`). -/
def I64_MIN : Int := -(2 : Int) ^ 63

/-- Largest signed 64-bit value: initializer of the `oldest` accumulator
(`std::numeric_limits<int64_t>::max()`). -/
def I64_MAX : Int := (2 : Int) ^ 63 - 1

/-- Largest `uint32_t` value: initializer of `minN` in the buffer-aware path
(`std::numeric_limits<uint32_t>::max()`). -/
def UINT32_MAX : Nat := 2 ^ 32 - 1

/-- Modelled from the spec: the fixed attempt-budget constant stored by a successful
sync request ("on success resets the attempt budget to a fixed constant").  It is
declared in `pangolin/video/drivers/join.h`, which is not under `src/`; the upstream
header sets it to 10.  No theorem below depends on the particular value, only the
concrete witnesses evaluate it. -/
def MAX_SYNC_ATTEMPTS : Int := 10

/-- Outcome of one capture call on a child source, as chosen by the environment:
the boolean result of the call and the `PANGO_HOST_RECEPTION_TIME_US` entry of the
source's `FrameProperties()` map as visible after the call (`none` = key absent). -/
structure GrabEntry where
  ok : Bool
  props : Option Int
deriving DecidableEq

/-- Oracle state of one joined child source: its static interface data (frame size,
its own sub-stream base offsets, whether `dynamic_cast<VideoPropertiesInterface*>`
and `dynamic_cast<BufferAwareVideoInterface*>` succeed) and its dynamic behaviour
(remaining capture script, current `FrameProperties` reception time, the value
returned by `AvailableFrames()`, and whether `DropNFrames` succeeds). -/
structure SrcState where
  sizeBytes : Nat
  streamOffsets : List Nat
  hasProps : Bool
  bufferAware : Bool
  script : List GrabEntry
  curProps : Option Int
  avail : Nat
  dropOk : Bool
deriving DecidableEq

/-- Observable actions of the joiner during one call. -/
inductive Event where
  | grab (s : Nat) (off : Nat) (wait : Bool) (ok : Bool)
  | grabNewestChild (s : Nat) (off : Nat) (ok : Bool)
  | drop (s : Nat) (n : Nat) (ok : Bool)
  | errNoTimestamp (s : Nat)
  | errGrabAll
  | errDropFailed (s : Nat)
  | warnDesync
deriving DecidableEq

/-- The joiner's persistent state: the member fields of `VideoJoiner`
(`src`, `streams`, `size_bytes`, `sync_attempts_to_go`, `sync_tolerance_us`,
`sync_continuously`).  Joint stream descriptors are reduced to their byte offsets. -/
structure JoinerState where
  srcs : List SrcState
  streams : List Nat
  size_bytes : Nat
  sync_attempts_to_go : Int
  sync_tolerance_us : Int
  sync_continuously : Bool
deriving DecidableEq

/-- One capture call on a child source (used for both the child's `GrabNext` and
`GrabNewest` methods): consume the head of the script; an empty script means the
call fails and leaves the properties map untouched. -/
def srcGrab (v : SrcState) : Bool × SrcState :=
  match v.script with
  | [] => (false, v)
  | e :: rest => (e.ok, { v with script := rest, curProps := e.props })

/-- The child's `DropNFrames(n)`: success as scripted; on success the available
count shrinks by `n`. -/
def srcDrop (v : SrcState) (n : Nat) : Bool × SrcState :=
  (v.dropOk, if v.dropOk then { v with avail := v.avail - n } else v)

/-- Layout construction of the `VideoJoiner` constructor: each source's sub-stream
offsets are rebased by the running `size_bytes` accumulated over the preceding
sources. -/
def buildStreams : List SrcState → Nat → List Nat
  | [], _ => []
  | v :: rest, base => v.streamOffsets.map (fun o => o + base) ++ buildStreams rest (base + v.sizeBytes)

/-- Sum of the sources' `SizeBytes()`, the final value of the constructor's
`size_bytes` accumulator. -/
def sumSizes : List SrcState → Nat
  | [] => 0
  | v :: rest => v.sizeBytes + sumSizes rest

/-- The `VideoJoiner` constructor: builds the flattened offset list and the total
size, and initializes sync as disabled (`sync_attempts_to_go = -1`,
`sync_continuously = false`).  `sync_tolerance_us` is left uninitialized in the
source and is never read before `Sync` assigns it (the desync check short-circuits
while sync is disabled and continuous is false); the model picks 0. -/
def mkVideoJoiner (src : List SrcState) : JoinerState :=
  { srcs := src, streams := buildStreams src 0, size_bytes := sumSizes src,
    sync_attempts_to_go := -1, sync_tolerance_us := 0, sync_continuously := false }

/-- Member function `VideoJoiner::SizeBytes`. -/
def SizeBytesJ (st : JoinerState) : Nat := st.size_bytes

/-- Member function `VideoJoiner::Streams` (offsets only). -/
def StreamsJ (st : JoinerState) : List Nat := st.streams

/-- Member function `VideoJoiner::Sync(tolerance_us, continuous)`: the loop returns
false at the first source whose `dynamic_cast<VideoPropertiesInterface*>` is null,
before any member is written; otherwise the three sync members are assigned. -/
def SyncJ (st : JoinerState) (tolerance_us : Int) (continuous : Bool) : Bool × JoinerState :=
  if st.srcs.all (fun v => v.hasProps) then
    (true, { st with sync_attempts_to_go := MAX_SYNC_ATTEMPTS,
                     sync_tolerance_us := tolerance_us, sync_continuously := continuous })
  else (false, st)

/-- Accumulator of the per-source loop of `VideoJoiner::GrabNext`: the local
variables `offset`, `offsets`, `reception_times`, `newest`, `oldest`, `grabbed_all`,
the member `sync_attempts_to_go` (mutable during the loop), the updated source
states and the event log. -/
structure NextAcc where
  offset : Nat
  offsets : List Nat
  rts : List Int
  newest : Int
  oldest : Int
  grabbedAll : Int
  attempts : Int
  procd : List SrcState
  log : List Event
deriving DecidableEq

/-- The per-source loop of `VideoJoiner::GrabNext` (join.cpp lines 106-125).
`none` models the undefined behaviour of dereferencing the unchecked
`dynamic_cast<VideoPropertiesInterface*>` when sync is enabled but the source
lacks the capability. -/
def grabNextLoop (w : Bool) : List SrcState → Nat → NextAcc → Option NextAcc
  | [], _, acc => some acc
  | v :: rest, s, acc =>
    let g := srcGrab v
    let ga : Int := if g.1 then acc.grabbedAll - 1 else acc.grabbedAll
    let log1 := acc.log ++ [Event.grab s acc.offset w g.1]
    let offs := acc.offsets ++ [acc.offset]
    let off1 := acc.offset + v.sizeBytes
    if 0 ≤ acc.attempts then
      if v.hasProps then
        match (g.2).curProps with
        | some rt =>
          grabNextLoop w rest (s + 1)
            { offset := off1, offsets := offs, rts := acc.rts ++ [rt],
              newest := max acc.newest rt, oldest := min acc.oldest rt,
              grabbedAll := ga, attempts := acc.attempts,
              procd := acc.procd ++ [g.2], log := log1 }
        | none =>
          grabNextLoop w rest (s + 1)
            { offset := off1, offsets := offs, rts := acc.rts,
              newest := acc.newest, oldest := acc.oldest,
              grabbedAll := ga, attempts := -1,
              procd := acc.procd ++ [g.2],
              log := log1 ++ [Event.errNoTimestamp s] }
      else none
    else
      grabNextLoop w rest (s + 1)
        { offset := off1, offsets := offs, rts := acc.rts,
          newest := acc.newest, oldest := acc.oldest,
          grabbedAll := ga, attempts := acc.attempts,
          procd := acc.procd ++ [g.2], log := log1 }

/-- The catch-up pass of `VideoJoiner::GrabNext` (join.cpp lines 136-141): every
source whose reception time is strictly below `newest - sync_tolerance_us` gets one
extra non-blocking `GrabNext` at its recorded offset.  The three per-source vectors
are zipped; when the pass runs they all have one entry per source. -/
def catchup : Nat → Int → List (SrcState × Nat × Int) → List SrcState × List Event
  | _, _, [] => ([], [])
  | s, limit, (v, off, rt) :: rest =>
    if rt < limit then
      let g := srcGrab v
      let r := catchup (s + 1) limit rest
      (g.2 :: r.1, Event.grab s off false g.1 :: r.2)
    else
      let r := catchup (s + 1) limit rest
      (v :: r.1, r.2)

/-- Member function `VideoJoiner::GrabNext(image, wait)` (join.cpp lines 97-146). -/
def GrabNextJ (st : JoinerState) (w : Bool) : Option (Bool × JoinerState × List Event) :=
  match grabNextLoop w st.srcs 0
      { offset := 0, offsets := [], rts := [], newest := I64_MIN, oldest := I64_MAX,
        grabbedAll := (st.srcs.length : Int), attempts := st.sync_attempts_to_go,
        procd := [], log := [] } with
  | none => none
  | some acc =>
    let log1 := if acc.grabbedAll ≠ 0 then acc.log ++ [Event.errGrabAll] else acc.log
    let log2 := if (st.sync_continuously || acc.attempts == 0)
                   && decide (st.sync_tolerance_us < acc.newest - acc.oldest)
                then log1 ++ [Event.warnDesync] else log1
    if 0 ≤ acc.attempts then
      let cu := catchup 0 (acc.newest - st.sync_tolerance_us)
                  (acc.procd.zip (acc.offsets.zip acc.rts))
      let att1 := if st.sync_continuously then acc.attempts else acc.attempts - 1
      some ((acc.grabbedAll == 0),
        { st with srcs := cu.1, sync_attempts_to_go := att1 }, log2 ++ cu.2)
    else
      some ((acc.grabbedAll == 0),
        { st with srcs := acc.procd, sync_attempts_to_go := acc.attempts }, log2)

/-- Free function `AllInterfacesAreBufferAware` (join.cpp lines 148-154). -/
def AllInterfacesAreBufferAware (src : List SrcState) : Bool :=
  src.all (fun v => v.bufferAware)

/-- Result of the backlog-draining loop on source 0 in the fallback path of
`VideoJoiner::GrabNewest` (join.cpp lines 192-207): remaining script and current
properties of source 0, the member `sync_attempts_to_go`, the locals
`first_stream_backlog` and `rt`, and the event log. -/
structure Drain0Out where
  script : List GrabEntry
  cur : Option Int
  attempts : Int
  backlog : Nat
  rt : Int
  log : List Event
deriving DecidableEq

/-- The do-while loop draining source 0 with non-blocking `GrabNext` calls at
offset 0 until one fails (join.cpp lines 192-207).  Structural recursion on the
script: every successful grab consumes one entry. -/
def drain0 (hp : Bool) : List GrabEntry → Option Int → Int → Nat → Int → List Event →
    Option Drain0Out
  | [], cp, att, bl, rt, log =>
      some { script := [], cur := cp, attempts := att, backlog := bl, rt := rt,
             log := log ++ [Event.grab 0 0 false false] }
  | e :: rest, _, att, bl, rt, log =>
      let log1 := log ++ [Event.grab 0 0 false e.ok]
      if e.ok then
        if 0 ≤ att then
          if hp then
            match e.props with
            | some t => drain0 hp rest e.props att (bl + 1) t log1
            | none => drain0 hp rest e.props (-1) (bl + 1) rt (log1 ++ [Event.errNoTimestamp 0])
          else none
        else drain0 hp rest e.props att (bl + 1) rt log1
      else
        some { script := rest, cur := e.props, attempts := att, backlog := bl, rt := rt,
               log := log1 }

/-- Result of the inner blocking-grab loop over one later source in the fallback
path (join.cpp lines 217-228). -/
structure DrainKOut where
  src : SrcState
  any : Bool
  attempts : Int
  rt : Int
  log : List Event
deriving DecidableEq

/-- exactly `first_stream_backlog` blocking grabs on source `s` at offset `off`;
unlike the drain loop, the properties map is read after every grab, successful or
not (join.cpp lines 217-228). -/
def drainOther (s : Nat) (off : Nat) : Nat → SrcState → Bool → Int → Int → List Event →
    Option DrainKOut
  | 0, v, ga, att, rt, log => some { src := v, any := ga, attempts := att, rt := rt, log := log }
  | k + 1, v, ga, att, rt, log =>
      let g := srcGrab v
      let ga1 := ga || g.1
      let log1 := log ++ [Event.grab s off true g.1]
      if 0 ≤ att then
        if v.hasProps then
          match (g.2).curProps with
          | some t => drainOther s off k g.2 ga1 att t log1
          | none => drainOther s off k g.2 ga1 (-1) rt (log1 ++ [Event.errNoTimestamp s])
        else none
      else drainOther s off k g.2 ga1 att rt log1

/-- Accumulator of the outer loop over sources 1..N-1 in the fallback path
(join.cpp lines 216-236). -/
structure NewestAcc where
  offset : Nat
  offsets : List Nat
  rts : List Int
  newest : Int
  oldest : Int
  any : Bool
  attempts : Int
  rt : Int
  procd : List SrcState
  log : List Event
deriving DecidableEq

/-- The outer loop over sources 1..N-1 in the fallback path (join.cpp lines
216-236): each source receives `bl` blocking grabs, then its offset is recorded
and, while sync is still enabled, the last `rt` is appended to the reception
times. -/
def newestOuter (bl : Nat) : Nat → List SrcState → NewestAcc → Option NewestAcc
  | _, [], acc => some acc
  | s, v :: rest, acc =>
      match drainOther s acc.offset bl v acc.any acc.attempts acc.rt acc.log with
      | none => none
      | some d =>
        let offs := acc.offsets ++ [acc.offset]
        let off1 := acc.offset + v.sizeBytes
        if 0 ≤ d.attempts then
          newestOuter bl (s + 1) rest
            { offset := off1, offsets := offs, rts := acc.rts ++ [d.rt],
              newest := max acc.newest d.rt, oldest := min acc.oldest d.rt,
              any := d.any, attempts := d.attempts, rt := d.rt,
              procd := acc.procd ++ [d.src], log := d.log }
        else
          newestOuter bl (s + 1) rest
            { offset := off1, offsets := offs, rts := acc.rts,
              newest := acc.newest, oldest := acc.oldest,
              any := d.any, attempts := d.attempts, rt := d.rt,
              procd := acc.procd ++ [d.src], log := d.log }

/-- The catch-up pass of the fallback path (join.cpp lines 242-247): lagging
sources receive one non-blocking `GrabNewest` call (on the child). -/
def catchupNewest : Nat → Int → List (SrcState × Nat × Int) → List SrcState × List Event
  | _, _, [] => ([], [])
  | s, limit, (v, off, rt) :: rest =>
    if rt < limit then
      let g := srcGrab v
      let r := catchupNewest (s + 1) limit rest
      (g.2 :: r.1, Event.grabNewestChild s off g.1 :: r.2)
    else
      let r := catchupNewest (s + 1) limit rest
      (v :: r.1, r.2)

/-- The drop loop of the buffer-aware path (join.cpp lines 169-175): request
`DropNFrames(n)` from each source in order, returning false at the first failure. -/
def dropLoop (n : Nat) : Nat → List SrcState → Bool × List SrcState × List Event
  | _, [] => (true, [], [])
  | s, v :: rest =>
    let d := srcDrop v n
    if d.1 then
      let r := dropLoop n (s + 1) rest
      (r.1, d.2 :: r.2.1, Event.drop s n true :: r.2.2)
    else
      (false, d.2 :: rest, [Event.drop s n false, Event.errDropFailed s])

/-- Member function `VideoJoiner::GrabNewest(image, wait)` (join.cpp lines
156-254).  The empty-source case of the fallback branch is unreachable because an
empty join is vacuously buffer-aware. -/
def GrabNewestJ (st : JoinerState) (w : Bool) : Option (Bool × JoinerState × List Event) :=
  if AllInterfacesAreBufferAware st.srcs then
    let minN := st.srcs.foldl (fun m v => min v.avail m) UINT32_MAX
    if 1 < minN then
      let d := dropLoop (minN - 1) 0 st.srcs
      if d.1 then
        match GrabNextJ { st with srcs := d.2.1 } w with
        | none => none
        | some r => some (r.1, r.2.1, d.2.2 ++ r.2.2)
      else some (false, { st with srcs := d.2.1 }, d.2.2)
    else GrabNextJ st w
  else
    match st.srcs with
    | [] => some (false, st, [])
    | v0 :: rest =>
      match drain0 v0.hasProps v0.script v0.curProps st.sync_attempts_to_go 0 0 [] with
      | none => none
      | some d =>
        let v0' : SrcState := { v0 with script := d.script, curProps := d.cur }
        let acc0 : NewestAcc :=
          if 0 ≤ d.attempts then
            { offset := v0.sizeBytes, offsets := [0], rts := [d.rt],
              newest := max I64_MIN d.rt, oldest := min I64_MAX d.rt,
              any := decide (0 < d.backlog), attempts := d.attempts, rt := d.rt,
              procd := [v0'], log := d.log }
          else
            { offset := v0.sizeBytes, offsets := [0], rts := [],
              newest := I64_MIN, oldest := I64_MAX,
              any := decide (0 < d.backlog), attempts := d.attempts, rt := d.rt,
              procd := [v0'], log := d.log }
        match newestOuter d.backlog 1 rest acc0 with
        | none => none
        | some a =>
          let log2 := if (st.sync_continuously || a.attempts == 0)
                         && decide (st.sync_tolerance_us < a.newest - a.oldest)
                      then a.log ++ [Event.warnDesync] else a.log
          if 0 ≤ a.attempts then
            let cu := catchupNewest 0 (a.newest - st.sync_tolerance_us)
                        (a.procd.zip (a.offsets.zip a.rts))
            let att1 := if st.sync_continuously then a.attempts else a.attempts - 1
            some (a.any, { st with srcs := cu.1, sync_attempts_to_go := att1 }, log2 ++ cu.2)
          else
            some (a.any, { st with srcs := a.procd, sync_attempts_to_go := a.attempts }, log2)

/-- Member function `VideoJoiner::InputStreams`. -/
def InputStreamsJ (st : JoinerState) : List SrcState := st.srcs

/-- Result of one source's main grab this call. -/
def grabOk (v : SrcState) : Bool := (srcGrab v).1

/-- Source state after one grab call. -/
def afterGrab (v : SrcState) : SrcState := (srcGrab v).2

/-- Reception time visible in the properties map right after one grab call. -/
def grabTime (v : SrcState) : Option Int := (afterGrab v).curProps

/-- Reception times of all sources for the current call, when every source
exposes one. -/
def grabTimes : List SrcState → Option (List Int)
  | [] => some []
  | v :: rest =>
    match grabTime v, grabTimes rest with
    | some t, some ts => some (t :: ts)
    | _, _ => none

/-- Every source's main grab succeeds this call. -/
def allOk (vs : List SrcState) : Bool := vs.all grabOk

/-- Number of sources whose main grab succeeds this call. -/
def countSucc (vs : List SrcState) : Nat := (vs.filter grabOk).length

/-- Length of the leading run of successful entries of a script: the
`first_stream_backlog` counted by the fallback drain loop. -/
def leadTrue : List GrabEntry → Nat
  | [] => 0
  | e :: rest => if e.ok then leadTrue rest + 1 else 0

/-- Maximum of a list of reception times, folded from the int64 sentinel. -/
def newestOf (ts : List Int) : Int := ts.foldl max I64_MIN

/-- Minimum of a list of reception times, folded from the int64 sentinel. -/
def oldestOf (ts : List Int) : Int := ts.foldl min I64_MAX

/-- The grab events of the main per-source loop of `GrabNext`. -/
def mainLog (w : Bool) : Nat → Nat → List SrcState → List Event
  | _, _, [] => []
  | s, off, v :: rest => Event.grab s off w (grabOk v) :: mainLog w (s + 1) (off + v.sizeBytes) rest

/-- Offsets recorded for each source: running prefix sums of frame sizes. -/
def offsetsList : Nat → List SrcState → List Nat
  | _, [] => []
  | off, v :: rest => off :: offsetsList (off + v.sizeBytes) rest

/-- Byte offset reserved for source `s`: the sum of the frame sizes of the
sources before it. -/
def prefixSize (vs : List SrcState) (s : Nat) : Nat := sumSizes (vs.take s)

/-- Recognizer for a child `GrabNext` call on source `s` (any offset, wait flag or
result). -/
def isGrabAt (s : Nat) : Event → Bool
  | Event.grab s1 _ _ _ => s1 == s
  | _ => false

/-- Number of child `GrabNext` calls issued to source `s` during a call. -/
def cntGrab (log : List Event) (s : Nat) : Nat := (log.filter (isGrabAt s)).length

/-- Recognizer for a child `GrabNext` call on source `s` with wait flag `w`. -/
def isGrabAtW (s : Nat) (w : Bool) : Event → Bool
  | Event.grab s1 _ w1 _ => s1 == s && w1 == w
  | _ => false

/-- Number of child `GrabNext` calls with wait flag `w` issued to source `s`. -/
def cntGrabW (log : List Event) (s : Nat) (w : Bool) : Nat := (log.filter (isGrabAtW s w)).length

/-- Recognizer for a child `GrabNewest` call on source `s` (the catch-up call of
the fallback path). -/
def isNewestAt (s : Nat) : Event → Bool
  | Event.grabNewestChild s1 _ _ => s1 == s
  | _ => false

/-- Number of child `GrabNewest` calls issued to source `s`. -/
def cntNewestC (log : List Event) (s : Nat) : Nat := (log.filter (isNewestAt s)).length

/-- Recognizer for a `DropNFrames` request on source `s`. -/
def isDropAt (s : Nat) : Event → Bool
  | Event.drop s1 _ _ => s1 == s
  | _ => false

/-- Number of `DropNFrames` requests issued to source `s`. -/
def cntDrop (log : List Event) (s : Nat) : Nat := (log.filter (isDropAt s)).length

/-- Static interface data of a source, unchanged by every grab or drop. -/
def statics (v : SrcState) : Nat × List Nat × Bool × Bool :=
  (v.sizeBytes, v.streamOffsets, v.hasProps, v.bufferAware)

theorem srcGrab_eq (v : SrcState) : srcGrab v = (grabOk v, afterGrab v) := rfl

theorem countSucc_cons (v : SrcState) (rest : List SrcState) :
    countSucc (v :: rest) = (if grabOk v then 1 else 0) + countSucc rest := by
  by_cases h : grabOk v <;> simp [countSucc, List.filter_cons, h] <;> omega

/-- While sync is disabled, the `GrabNext` loop merely grabs each source once in
order, collecting no timestamps. -/
theorem grabNextLoop_disabled (w : Bool) (vs : List SrcState) (s : Nat) (acc : NextAcc)
    (ha : acc.attempts < 0) :
    grabNextLoop w vs s acc = some
      { offset := acc.offset + sumSizes vs,
        offsets := acc.offsets ++ offsetsList acc.offset vs,
        rts := acc.rts, newest := acc.newest, oldest := acc.oldest,
        grabbedAll := acc.grabbedAll - countSucc vs,
        attempts := acc.attempts,
        procd := acc.procd ++ vs.map afterGrab,
        log := acc.log ++ mainLog w s acc.offset vs } := by
  induction vs generalizing s acc with
  | nil =>
    simp [grabNextLoop, sumSizes, offsetsList, countSucc, mainLog]
  | cons v rest ih =>
    simp only [grabNextLoop]
    rw [if_neg (by omega)]
    rw [ih (s + 1) _ (by simpa using ha)]
    simp only [srcGrab_eq, Option.some.injEq, NextAcc.mk.injEq, countSucc_cons,
      sumSizes, offsetsList, mainLog, List.map_cons]
    and_intros <;> first
      | rfl
      | trivial
      | omega
      | (split <;> omega)
      | simp

/-- While sync is enabled and every source exposes a reception time, the
`GrabNext` loop grabs each source once, collects exactly one timestamp per source
and folds the newest/oldest accumulators over them, leaving the attempt counter
untouched. -/
theorem grabNextLoop_golden (w : Bool) (vs : List SrcState) (ts : List Int) (s : Nat)
    (acc : NextAcc) (hp : ∀ v ∈ vs, v.hasProps = true) (ha : 0 ≤ acc.attempts)
    (hts : grabTimes vs = some ts) :
    grabNextLoop w vs s acc = some
      { offset := acc.offset + sumSizes vs,
        offsets := acc.offsets ++ offsetsList acc.offset vs,
        rts := acc.rts ++ ts,
        newest := ts.foldl max acc.newest,
        oldest := ts.foldl min acc.oldest,
        grabbedAll := acc.grabbedAll - countSucc vs,
        attempts := acc.attempts,
        procd := acc.procd ++ vs.map afterGrab,
        log := acc.log ++ mainLog w s acc.offset vs } := by
  induction vs generalizing ts s acc with
  | nil =>
    simp only [grabTimes, Option.some.injEq] at hts
    subst hts
    simp [grabNextLoop, sumSizes, offsetsList, countSucc, mainLog]
  | cons v rest ih =>
    have hv : v.hasProps = true := hp v (List.mem_cons_self v rest)
    have hrest : ∀ u ∈ rest, u.hasProps = true := fun u hu => hp u (List.mem_cons_of_mem v hu)
    simp only [grabTimes] at hts
    rcases h1 : grabTime v with _ | t
    · rw [h1] at hts; rcases grabTimes rest <;> simp at hts
    rcases h2 : grabTimes rest with _ | ts1
    · rw [h1, h2] at hts; simp at hts
    rw [h1, h2] at hts
    simp only [Option.some.injEq] at hts
    subst hts
    simp only [grabNextLoop]
    rw [if_pos ha, if_pos hv]
    have hcur : (srcGrab v).2.curProps = some t := h1
    rw [hcur]
    dsimp only []
    rw [ih ts1 (s + 1)
      { offset := acc.offset + v.sizeBytes, offsets := acc.offsets ++ [acc.offset],
        rts := acc.rts ++ [t], newest := max acc.newest t, oldest := min acc.oldest t,
        grabbedAll := if (srcGrab v).1 = true then acc.grabbedAll - 1 else acc.grabbedAll,
        attempts := acc.attempts, procd := acc.procd ++ [(srcGrab v).2],
        log := acc.log ++ [Event.grab s acc.offset w (srcGrab v).1] } hrest (by simpa using ha) h2]
    simp only [srcGrab_eq, Option.some.injEq, NextAcc.mk.injEq, countSucc_cons,
      sumSizes, offsetsList, mainLog, List.map_cons, List.foldl_cons]
    and_intros <;> first
      | rfl
      | trivial
      | omega
      | (split <;> omega)
      | simp

theorem countSucc_le (vs : List SrcState) : countSucc vs ≤ vs.length :=
  List.length_filter_le _ _

theorem allOk_iff (vs : List SrcState) : allOk vs = true ↔ countSucc vs = vs.length := by
  induction vs with
  | nil => simp [allOk, countSucc]
  | cons v rest ih =>
    have hle := countSucc_le rest
    simp only [allOk, List.all_cons, Bool.and_eq_true, countSucc_cons] at ih ⊢
    rcases Bool.eq_false_or_eq_true (grabOk v) with h | h
    · rw [ih]; simp [h]; omega
    · simp [h]; omega

theorem grabbedAll_beq (vs : List SrcState) :
    (((vs.length : Int) - (countSucc vs : Int)) == 0) = allOk vs := by
  have hle := countSucc_le vs
  by_cases h : allOk vs = true
  · rw [h]
    have hc := (allOk_iff vs).1 h
    simp [hc]
  · have hc : ¬ countSucc vs = vs.length := fun hcc => h ((allOk_iff vs).2 hcc)
    simp only [Bool.not_eq_true] at h
    rw [h]
    rw [beq_eq_false_iff_ne]
    intro hx
    omega

/-- While sync is disabled, `GrabNext` grabs each source once in order and returns
true iff every grab succeeded; the sync members are untouched and no timestamps
are collected. -/
theorem GrabNextJ_disabled (st : JoinerState) (w : Bool) (ha : st.sync_attempts_to_go < 0) :
    GrabNextJ st w = some (allOk st.srcs,
      { st with srcs := st.srcs.map afterGrab },
      (if allOk st.srcs then mainLog w 0 0 st.srcs else mainLog w 0 0 st.srcs ++ [Event.errGrabAll]) ++
      (if st.sync_continuously && decide (st.sync_tolerance_us < I64_MIN - I64_MAX)
       then [Event.warnDesync] else [])) := by
  unfold GrabNextJ
  rw [grabNextLoop_disabled w st.srcs 0 _ (by simpa using ha)]
  dsimp only []
  have hbeq0 : (st.sync_attempts_to_go == (0 : Int)) = false := by
    rw [beq_eq_false_iff_ne]; omega
  rw [if_neg (by simpa using ha)]
  have hg := grabbedAll_beq st.srcs
  by_cases hall : allOk st.srcs = true
  · have hz : (st.srcs.length : Int) - (countSucc st.srcs : Int) = 0 := by
      have := (allOk_iff st.srcs).1 hall; omega
    rw [hz]
    simp [hall, hbeq0]
    split <;> simp
  · have hz : ¬ ((st.srcs.length : Int) - (countSucc st.srcs : Int)) = 0 := by
      have hle := countSucc_le st.srcs
      have : ¬ countSucc st.srcs = st.srcs.length := fun hcc => hall ((allOk_iff st.srcs).2 hcc)
      omega
    rw [if_pos hz]
    simp only [Bool.not_eq_true] at hall
    simp [hall, hbeq0, hz]
    split <;> simp

/-- The catch-up input list of `GrabNext`: updated sources zipped with their
offsets and collected reception times. -/
def cuList (vs : List SrcState) (ts : List Int) : List (SrcState × Nat × Int) :=
  (vs.map afterGrab).zip ((offsetsList 0 vs).zip ts)

/-- While sync is enabled and every source exposes a reception time, `GrabNext`
grabs each source once, emits the desync warning exactly when the spread check
fires, runs the catch-up pass with limit `newest - tolerance`, and decrements the
attempt counter unless in continuous mode. -/
theorem GrabNextJ_golden (st : JoinerState) (w : Bool) (ts : List Int)
    (hp : ∀ v ∈ st.srcs, v.hasProps = true) (ha : 0 ≤ st.sync_attempts_to_go)
    (hts : grabTimes st.srcs = some ts) :
    GrabNextJ st w = some (allOk st.srcs,
      { st with srcs := (catchup 0 (newestOf ts - st.sync_tolerance_us) (cuList st.srcs ts)).1,
                sync_attempts_to_go := if st.sync_continuously then st.sync_attempts_to_go
                                       else st.sync_attempts_to_go - 1 },
      ((if allOk st.srcs then mainLog w 0 0 st.srcs
        else mainLog w 0 0 st.srcs ++ [Event.errGrabAll]) ++
       (if (st.sync_continuously || (st.sync_attempts_to_go == 0))
           && decide (st.sync_tolerance_us < newestOf ts - oldestOf ts)
        then [Event.warnDesync] else [])) ++
      (catchup 0 (newestOf ts - st.sync_tolerance_us) (cuList st.srcs ts)).2) := by
  unfold GrabNextJ
  rw [grabNextLoop_golden w st.srcs ts 0 _ hp (by simpa using ha) hts]
  dsimp only []
  rw [if_pos (show (0:Int) ≤ st.sync_attempts_to_go from ha)]
  have hg := grabbedAll_beq st.srcs
  have hnew : List.foldl max I64_MIN ts = newestOf ts := rfl
  have hold : List.foldl min I64_MAX ts = oldestOf ts := rfl
  rw [hnew, hold]
  by_cases hall : allOk st.srcs = true
  · have hz : (st.srcs.length : Int) - (countSucc st.srcs : Int) = 0 := by
      have := (allOk_iff st.srcs).1 hall; omega
    rw [hz]
    simp only [hall, if_true, if_pos rfl, ne_eq, not_true_eq_false, if_false,
      cuList, List.nil_append]
    split <;> (split <;> simp)
  · have hz : ¬ ((st.srcs.length : Int) - (countSucc st.srcs : Int)) = 0 := by
      have hle := countSucc_le st.srcs
      have : ¬ countSucc st.srcs = st.srcs.length := fun hcc => hall ((allOk_iff st.srcs).2 hcc)
      omega
    rw [if_pos hz]
    simp only [Bool.not_eq_true] at hall
    simp only [hall, if_false, cuList, List.nil_append]
    have hb : ((st.srcs.length : Int) - (countSucc st.srcs : Int) == 0) = false := by
      rw [beq_eq_false_iff_ne]; exact hz
    rw [hb]
    split <;> (split <;> simp)

theorem cntGrab_cons (e : Event) (l : List Event) (s : Nat) :
    cntGrab (e :: l) s = (if isGrabAt s e then 1 else 0) + cntGrab l s := by
  by_cases h : isGrabAt s e = true <;> simp [cntGrab, List.filter_cons, h] <;> omega

theorem cntGrab_append (a b : List Event) (s : Nat) :
    cntGrab (a ++ b) s = cntGrab a s + cntGrab b s := by
  simp [cntGrab, List.filter_append]

theorem cntGrab_nil (s : Nat) : cntGrab [] s = 0 := rfl

theorem mainLog_length (w : Bool) (vs : List SrcState) (s0 off : Nat) :
    (mainLog w s0 off vs).length = vs.length := by
  induction vs generalizing s0 off with
  | nil => rfl
  | cons v rest ih => simp [mainLog, ih]

/-- Each source in range receives exactly one grab event from the main loop. -/
theorem cntGrab_mainLog (w : Bool) (vs : List SrcState) (s0 off s : Nat) :
    cntGrab (mainLog w s0 off vs) s = if s0 ≤ s ∧ s < s0 + vs.length then 1 else 0 := by
  induction vs generalizing s0 off with
  | nil =>
    simp only [mainLog, cntGrab, List.filter_nil, List.length_nil, List.length_cons]
    split <;> omega
  | cons v rest ih =>
    rw [mainLog, cntGrab_cons, ih (s0 + 1) (off + v.sizeBytes)]
    by_cases h : s0 = s
    · subst h
      have h1 : isGrabAt s0 (Event.grab s0 off w (grabOk v)) = true := by simp [isGrabAt]
      rw [h1, if_pos rfl, if_neg (by omega),
        if_pos (by refine ⟨le_refl s0, ?_⟩; simp only [List.length_cons]; omega)]
    · have h1 : isGrabAt s (Event.grab s0 off w (grabOk v)) = false := by
        simp [isGrabAt]; omega
      rw [h1]
      simp only [Bool.false_eq_true, if_false, Nat.zero_add, List.length_cons]
      exact if_congr (by omega) rfl rfl

theorem cntGrab_catchup_out (limit : Int) (l : List (SrcState × Nat × Int)) (s0 s : Nat)
    (h : s < s0 ∨ s0 + l.length ≤ s) : cntGrab (catchup s0 limit l).2 s = 0 := by
  induction l generalizing s0 with
  | nil => simp [catchup, cntGrab]
  | cons p rest ih =>
    rcases p with ⟨v, off, rt⟩
    rw [catchup]
    have hne : isGrabAt s (Event.grab s0 off false (srcGrab v).1) = false := by
      simp [isGrabAt]; simp [List.length_cons] at h; omega
    by_cases hlt : rt < limit
    · rw [if_pos hlt]
      dsimp only []
      rw [cntGrab_cons, hne]
      simp only [Bool.false_eq_true, if_false, Nat.zero_add]
      exact ih (s0 + 1) (by simp [List.length_cons] at h; omega)
    · rw [if_neg hlt]
      dsimp only []
      exact ih (s0 + 1) (by simp [List.length_cons] at h; omega)

/-- The catch-up pass issues exactly one non-blocking grab to each lagging source
and none to the others. -/
theorem cntGrab_catchup (limit : Int) (l : List (SrcState × Nat × Int)) (s0 i : Nat)
    (hi : i < l.length) :
    cntGrab (catchup s0 limit l).2 (s0 + i) =
      if (l.get ⟨i, hi⟩).2.2 < limit then 1 else 0 := by
  induction l generalizing s0 i with
  | nil => simp at hi
  | cons p rest ih =>
    rcases p with ⟨v, off, rt⟩
    rw [catchup]
    rcases i with _ | j
    · have hgot : ((⟨v, off, rt⟩ : SrcState × Nat × Int) :: rest).get ⟨0, hi⟩ = ⟨v, off, rt⟩ := rfl
      rw [hgot]
      by_cases hlt : rt < limit
      · rw [if_pos hlt]
        dsimp only []
        rw [cntGrab_cons]
        have h1 : isGrabAt (s0 + 0) (Event.grab s0 off false (srcGrab v).1) = true := by
          simp [isGrabAt]
        rw [h1, if_pos rfl, cntGrab_catchup_out limit rest (s0 + 1) (s0 + 0) (by omega),
          if_pos hlt]
      · rw [if_neg hlt]
        dsimp only []
        rw [cntGrab_catchup_out limit rest (s0 + 1) (s0 + 0) (by omega), if_neg hlt]
    · have hj : j < rest.length := by simpa using Nat.lt_of_succ_lt_succ hi
      have hgot : ((⟨v, off, rt⟩ : SrcState × Nat × Int) :: rest).get ⟨j + 1, hi⟩ =
          rest.get ⟨j, hj⟩ := rfl
      rw [hgot]
      have hrec := ih (s0 + 1) j hj
      rw [show s0 + (j + 1) = (s0 + 1) + j from by omega]
      by_cases hlt : rt < limit
      · rw [if_pos hlt]
        dsimp only []
        rw [cntGrab_cons]
        have h1 : isGrabAt (s0 + 1 + j) (Event.grab s0 off false (srcGrab v).1) = false := by
          simp [isGrabAt]; omega
        rw [h1]
        simp only [Bool.false_eq_true, if_false, Nat.zero_add]
        exact hrec
      · rw [if_neg hlt]
        dsimp only []
        exact hrec

instance : Inhabited SrcState :=
  ⟨{ sizeBytes := 0, streamOffsets := [], hasProps := false, bufferAware := false,
     script := [], curProps := none, avail := 0, dropOk := true }⟩

/-- Source at position `s` of the join (defaulting out of range). -/
def srcAt (src : List SrcState) (s : Nat) : SrcState := src.getD s default

/-- The grab functions never hit the unchecked-cast dereference from this state:
either sync is disabled or every source exposes the properties capability. -/
def SyncSafe (st : JoinerState) : Prop :=
  0 ≤ st.sync_attempts_to_go → ∀ v ∈ st.srcs, v.hasProps = true

theorem sub_countSucc_cons (x : Int) (v : SrcState) (rest : List SrcState) :
    (if grabOk v = true then x - 1 else x) - (countSucc rest : Int) =
      x - (countSucc (v :: rest) : Int) := by
  rw [countSucc_cons]
  rcases Bool.eq_false_or_eq_true (grabOk v) with h | h
  · simp [h]; omega
  · simp [h]

/-- The `GrabNext` loop from any non-dereferencing configuration: it completes,
decrements `grabbed_all` once per successful grab, never raises the attempt
counter, and appends the grabbed source states in order. -/
theorem grabNextLoop_some (w : Bool) (vs : List SrcState) (s : Nat) (acc : NextAcc)
    (hsafe : 0 ≤ acc.attempts → ∀ v ∈ vs, v.hasProps = true) :
    ∃ acc2, grabNextLoop w vs s acc = some acc2 ∧
      acc2.grabbedAll = acc.grabbedAll - countSucc vs ∧
      (acc2.attempts = acc.attempts ∨ acc2.attempts = -1) ∧
      acc2.procd = acc.procd ++ vs.map afterGrab := by
  induction vs generalizing s acc with
  | nil =>
    refine ⟨acc, by simp [grabNextLoop], by simp [countSucc], Or.inl rfl, by simp⟩
  | cons v rest ih =>
    simp only [grabNextLoop]
    by_cases ha : 0 ≤ acc.attempts
    · have hv : v.hasProps = true := hsafe ha v (List.mem_cons_self v rest)
      rw [if_pos ha, if_pos hv]
      rcases hcur : (srcGrab v).2.curProps with _ | t
      · rcases ih (s + 1)
          { offset := acc.offset + v.sizeBytes, offsets := acc.offsets ++ [acc.offset],
            rts := acc.rts, newest := acc.newest, oldest := acc.oldest,
            grabbedAll := if (srcGrab v).1 = true then acc.grabbedAll - 1 else acc.grabbedAll,
            attempts := -1,
            procd := acc.procd ++ [(srcGrab v).2],
            log := (acc.log ++ [Event.grab s acc.offset w (srcGrab v).1]) ++
              [Event.errNoTimestamp s] }
          (by intro hh; exact absurd hh (by simp)) with ⟨acc2, hrun, hga, hat, hpr⟩
        refine ⟨acc2, hrun, ?_, ?_, ?_⟩
        · rw [hga]; dsimp only []; rw [show (srcGrab v).1 = grabOk v from rfl]
          exact sub_countSucc_cons acc.grabbedAll v rest
        · rcases hat with h | h <;> right <;> simpa using h
        · rw [hpr, show (srcGrab v).2 = afterGrab v from rfl]; simp
      · rcases ih (s + 1)
          { offset := acc.offset + v.sizeBytes, offsets := acc.offsets ++ [acc.offset],
            rts := acc.rts ++ [t], newest := max acc.newest t, oldest := min acc.oldest t,
            grabbedAll := if (srcGrab v).1 = true then acc.grabbedAll - 1 else acc.grabbedAll,
            attempts := acc.attempts,
            procd := acc.procd ++ [(srcGrab v).2],
            log := acc.log ++ [Event.grab s acc.offset w (srcGrab v).1] }
          (by intro hh u hu; exact hsafe ha u (List.mem_cons_of_mem v hu)) with
          ⟨acc2, hrun, hga, hat, hpr⟩
        refine ⟨acc2, hrun, ?_, ?_, ?_⟩
        · rw [hga]; dsimp only []; rw [show (srcGrab v).1 = grabOk v from rfl]
          exact sub_countSucc_cons acc.grabbedAll v rest
        · rcases hat with h | h
          · left; simpa using h
          · right; exact h
        · rw [hpr, show (srcGrab v).2 = afterGrab v from rfl]; simp
    · rw [if_neg ha]
      rcases ih (s + 1)
        { offset := acc.offset + v.sizeBytes, offsets := acc.offsets ++ [acc.offset],
          rts := acc.rts, newest := acc.newest, oldest := acc.oldest,
          grabbedAll := if (srcGrab v).1 = true then acc.grabbedAll - 1 else acc.grabbedAll,
          attempts := acc.attempts,
          procd := acc.procd ++ [(srcGrab v).2],
          log := acc.log ++ [Event.grab s acc.offset w (srcGrab v).1] }
        (by intro hh; exact absurd hh (by simpa using ha)) with ⟨acc2, hrun, hga, hat, hpr⟩
      refine ⟨acc2, hrun, ?_, ?_, ?_⟩
      · rw [hga]; dsimp only []; rw [show (srcGrab v).1 = grabOk v from rfl]
        exact sub_countSucc_cons acc.grabbedAll v rest
      · rcases hat with h | h
        · left; simpa using h
        · right; exact h
      · rw [hpr, show (srcGrab v).2 = afterGrab v from rfl]; simp

/-- From any safe state, `GrabNext` completes and returns exactly the all-grabs
flag computed by the main loop. -/
theorem GrabNextJ_some (st : JoinerState) (w : Bool) (hsafe : SyncSafe st) :
    ∃ st2 log, GrabNextJ st w = some (allOk st.srcs, st2, log) := by
  unfold GrabNextJ
  rcases grabNextLoop_some w st.srcs 0
      { offset := 0, offsets := [], rts := [], newest := I64_MIN, oldest := I64_MAX,
        grabbedAll := (st.srcs.length : Int), attempts := st.sync_attempts_to_go,
        procd := [], log := [] } (fun h => hsafe (by simpa using h)) with
    ⟨acc, hrun, hga, hat, hpr⟩
  rw [hrun]
  dsimp only []
  have hga2 : (acc.grabbedAll == 0) = allOk st.srcs := by
    rw [hga]; dsimp only []; exact grabbedAll_beq st.srcs
  by_cases hcu : 0 ≤ acc.attempts
  · rw [if_pos hcu, hga2]
    exact ⟨_, _, rfl⟩
  · rw [if_neg hcu, hga2]
    exact ⟨_, _, rfl⟩

/-- Any completed `GrabNext` call leaves the layout and the tolerance/continuous
members untouched. -/
theorem GrabNextJ_preserves (st : JoinerState) (w : Bool) (r : Bool) (st2 : JoinerState)
    (log : List Event) (h : GrabNextJ st w = some (r, st2, log)) :
    st2.streams = st.streams ∧ st2.size_bytes = st.size_bytes ∧
    st2.sync_tolerance_us = st.sync_tolerance_us ∧
    st2.sync_continuously = st.sync_continuously := by
  unfold GrabNextJ at h
  rcases hL : grabNextLoop w st.srcs 0
      { offset := 0, offsets := [], rts := [], newest := I64_MIN, oldest := I64_MAX,
        grabbedAll := (st.srcs.length : Int), attempts := st.sync_attempts_to_go,
        procd := [], log := [] } with _ | acc
  · rw [hL] at h; exact absurd h (by simp)
  · rw [hL] at h
    dsimp only [] at h
    split at h <;>
      (simp only [Option.some.injEq, Prod.mk.injEq] at h;
       rcases h with ⟨h1, h2, h3⟩; rw [← h2]; exact ⟨rfl, rfl, rfl, rfl⟩)

instance (st : JoinerState) : Decidable (SyncSafe st) := by
  unfold SyncSafe; infer_instance

/-- Script-driven mock source used by the concrete witnesses. -/
def mockSrc (sz : Nat) (hp : Bool) (ba : Bool) (sc : List GrabEntry) : SrcState :=
  { sizeBytes := sz, streamOffsets := [0], hasProps := hp, bufferAware := ba,
    script := sc, curProps := none, avail := 0, dropOk := true }

/-- C1: `GrabNext(image, wait)` returns true if and only if every joined source's
grab returned true during that call.  The returned flag is `allOk st.srcs`, a
function of the main per-source loop grabs alone, so the catch-up re-grabs issued
afterwards cannot affect it. -/
theorem grabNext_true_iff_all_sources_grabbed (st : JoinerState) (w : Bool)
    (hsafe : SyncSafe st) :
    ∃ st2 log, GrabNextJ st w = some (allOk st.srcs, st2, log) ∧
      (allOk st.srcs = true ↔ ∀ v ∈ st.srcs, grabOk v = true) := by
  rcases GrabNextJ_some st w hsafe with ⟨st2, log, h⟩
  exact ⟨st2, log, h, by simp [allOk, List.all_eq_true]⟩

/-- Witness for C1: three always-succeeding mock sources; the call returns true. -/
theorem grabNext_true_iff_all_sources_grabbed_witness :
    SyncSafe (mkVideoJoiner [mockSrc 4 false false [⟨true, none⟩],
      mockSrc 2 false false [⟨true, none⟩], mockSrc 3 false false [⟨true, none⟩]]) ∧
    ∃ st2 log, GrabNextJ (mkVideoJoiner [mockSrc 4 false false [⟨true, none⟩],
      mockSrc 2 false false [⟨true, none⟩], mockSrc 3 false false [⟨true, none⟩]]) true =
      some (allOk (mkVideoJoiner [mockSrc 4 false false [⟨true, none⟩],
        mockSrc 2 false false [⟨true, none⟩], mockSrc 3 false false [⟨true, none⟩]]).srcs,
        st2, log) ∧
      (allOk (mkVideoJoiner [mockSrc 4 false false [⟨true, none⟩],
        mockSrc 2 false false [⟨true, none⟩],
        mockSrc 3 false false [⟨true, none⟩]]).srcs = true ↔
       ∀ v ∈ (mkVideoJoiner [mockSrc 4 false false [⟨true, none⟩],
        mockSrc 2 false false [⟨true, none⟩],
        mockSrc 3 false false [⟨true, none⟩]]).srcs, grabOk v = true) :=
  ⟨by decide, grabNext_true_iff_all_sources_grabbed _ true (by decide)⟩

/-- C3: `Sync` fails and leaves the whole joiner state unchanged when some source
lacks the Timestamped-Properties capability; when all sources have it, it returns
true, resets the attempt budget to `MAX_SYNC_ATTEMPTS` and stores the tolerance
and the continuous flag. -/
theorem sync_requires_all_timestamped (st : JoinerState) (tol : Int) (cont : Bool) :
    ((¬ ∀ v ∈ st.srcs, v.hasProps = true) → SyncJ st tol cont = (false, st)) ∧
    ((∀ v ∈ st.srcs, v.hasProps = true) →
      SyncJ st tol cont = (true,
        { st with sync_attempts_to_go := MAX_SYNC_ATTEMPTS,
                  sync_tolerance_us := tol, sync_continuously := cont })) := by
  constructor
  · intro h; unfold SyncJ; rw [if_neg (by simpa [List.all_eq_true] using h)]
  · intro h; unfold SyncJ; rw [if_pos (by simpa [List.all_eq_true] using h)]

/-- Witness for C3, exercising both branches: a join with one non-timestamped
source rejects sync with no state change; a fully timestamped join accepts it. -/
theorem sync_requires_all_timestamped_witness :
    ((¬ ∀ v ∈ (mkVideoJoiner [mockSrc 4 true false [], mockSrc 2 false false []]).srcs,
        v.hasProps = true) ∧
      SyncJ (mkVideoJoiner [mockSrc 4 true false [], mockSrc 2 false false []]) 30 false =
        (false, mkVideoJoiner [mockSrc 4 true false [], mockSrc 2 false false []])) ∧
    ((∀ v ∈ (mkVideoJoiner [mockSrc 4 true false [], mockSrc 2 true false []]).srcs,
        v.hasProps = true) ∧
      SyncJ (mkVideoJoiner [mockSrc 4 true false [], mockSrc 2 true false []]) 30 false =
        (true, { mkVideoJoiner [mockSrc 4 true false [], mockSrc 2 true false []] with
          sync_attempts_to_go := MAX_SYNC_ATTEMPTS,
          sync_tolerance_us := 30, sync_continuously := false })) :=
  ⟨⟨by decide, (sync_requires_all_timestamped _ 30 false).1 (by decide)⟩,
   ⟨by decide, (sync_requires_all_timestamped _ 30 false).2 (by decide)⟩⟩

/-- The constructor layout in closed form: source `s` contributes its own
sub-stream offsets shifted by `base` plus the sizes of the sources before it. -/
theorem buildStreams_spec (src : List SrcState) (base : Nat) :
    buildStreams src base = (List.range src.length).flatMap
      (fun s => (srcAt src s).streamOffsets.map (fun o => o + (base + prefixSize src s))) := by
  induction src generalizing base with
  | nil => simp [buildStreams]
  | cons v rest ih =>
    rw [buildStreams, ih (base + v.sizeBytes)]
    simp only [List.length_cons, List.range_succ_eq_map, List.flatMap_cons, List.flatMap_map]
    have h0 : srcAt (v :: rest) 0 = v := rfl
    have hp0 : prefixSize (v :: rest) 0 = 0 := rfl
    have hf : (fun s => List.map (fun o => o + (base + v.sizeBytes + prefixSize rest s))
          (srcAt rest s).streamOffsets)
        = (fun s => List.map (fun o => o + (base + prefixSize (v :: rest) (Nat.succ s)))
          (srcAt (v :: rest) (Nat.succ s)).streamOffsets) := by
      funext s
      have h1 : srcAt (v :: rest) (Nat.succ s) = srcAt rest s := rfl
      have h2 : prefixSize (v :: rest) (Nat.succ s) = v.sizeBytes + prefixSize rest s := rfl
      rw [h1, h2]
      exact List.map_congr_left (fun o _ => by omega)
    rw [h0, hp0, hf]
    simp

/-- Any completed `GrabNewest` call leaves the layout and the tolerance/continuous
members untouched. -/
theorem GrabNewestJ_preserves (st : JoinerState) (w : Bool) (r : Bool) (st2 : JoinerState)
    (log : List Event) (h : GrabNewestJ st w = some (r, st2, log)) :
    st2.streams = st.streams ∧ st2.size_bytes = st.size_bytes ∧
    st2.sync_tolerance_us = st.sync_tolerance_us ∧
    st2.sync_continuously = st.sync_continuously := by
  unfold GrabNewestJ at h
  repeat'
    first
    | split at h
    | simp only [] at h
  all_goals
    first
    | exact Option.noConfusion h
    | exact GrabNextJ_preserves _ _ _ _ _ h
    | (simp only [Option.some.injEq, Prod.mk.injEq] at h
       rcases h with ⟨h1, h2, h3⟩
       rw [← h2]
       first
       | exact ⟨rfl, rfl, rfl, rfl⟩
       | (rcases GrabNextJ_preserves _ w _ _ _ (by assumption) with ⟨p1, p2, p3, p4⟩
          exact ⟨p1, p2, p3, p4⟩))

/-- C2: the constructor assigns each source's sub-stream descriptors the offset
equal to the sum of the preceding sources' frame sizes, and the composite size is
the sum of all frame sizes; Sync, GrabNext and GrabNewest never change either. -/
theorem join_layout_offsets (src : List SrcState) (st : JoinerState) (w : Bool)
    (tol : Int) (cont : Bool) :
    (StreamsJ (mkVideoJoiner src) = (List.range src.length).flatMap
        (fun s => (srcAt src s).streamOffsets.map (fun o => o + prefixSize src s)) ∧
     SizeBytesJ (mkVideoJoiner src) = sumSizes src) ∧
    ((SyncJ st tol cont).2.streams = st.streams ∧
     (SyncJ st tol cont).2.size_bytes = st.size_bytes) ∧
    (∀ r st2 log, GrabNextJ st w = some (r, st2, log) →
       st2.streams = st.streams ∧ st2.size_bytes = st.size_bytes) ∧
    (∀ r st2 log, GrabNewestJ st w = some (r, st2, log) →
       st2.streams = st.streams ∧ st2.size_bytes = st.size_bytes) := by
  refine ⟨⟨?_, rfl⟩, ?_, ?_, ?_⟩
  · show buildStreams src 0 = _
    rw [buildStreams_spec src 0]
    simp
  · unfold SyncJ
    split <;> exact ⟨rfl, rfl⟩
  · intro r st2 log h
    rcases GrabNextJ_preserves st w r st2 log h with ⟨p1, p2, _, _⟩
    exact ⟨p1, p2⟩
  · intro r st2 log h
    rcases GrabNewestJ_preserves st w r st2 log h with ⟨p1, p2, _, _⟩
    exact ⟨p1, p2⟩

/-- Post-state of the witness grab for C2. -/
def c2Post : JoinerState :=
  { srcs := [{ sizeBytes := 4, streamOffsets := [0], hasProps := false, bufferAware := false,
               script := [], curProps := none, avail := 0, dropOk := true }],
    streams := [0], size_bytes := 4, sync_attempts_to_go := -1,
    sync_tolerance_us := 0, sync_continuously := false }

/-- Witness for C2: a two-source join has offsets 0 and 4 and size 6, and a
completed grab leaves the layout of a one-source join unchanged. -/
theorem join_layout_offsets_witness :
    (StreamsJ (mkVideoJoiner [mockSrc 4 false false [], mockSrc 2 false false []]) =
      (List.range 2).flatMap (fun s =>
        (srcAt [mockSrc 4 false false [], mockSrc 2 false false []] s).streamOffsets.map
          (fun o => o + prefixSize [mockSrc 4 false false [], mockSrc 2 false false []] s)) ∧
     GrabNextJ (mkVideoJoiner [mockSrc 4 false false [⟨true, none⟩]]) true =
       some (true, c2Post, [Event.grab 0 0 true true]) ∧
     c2Post.streams = (mkVideoJoiner [mockSrc 4 false false [⟨true, none⟩]]).streams ∧
     c2Post.size_bytes = (mkVideoJoiner [mockSrc 4 false false [⟨true, none⟩]]).size_bytes) :=
  ⟨(join_layout_offsets [mockSrc 4 false false [], mockSrc 2 false false []]
      (mkVideoJoiner []) true 0 false).1.1,
   by decide,
   (join_layout_offsets [] (mkVideoJoiner [mockSrc 4 false false [⟨true, none⟩]]) true 0
      false).2.2.1 true c2Post [Event.grab 0 0 true true] (by decide)⟩

theorem foldl_max_init_le (a : Int) (l : List Int) : a ≤ l.foldl max a := by
  induction l generalizing a with
  | nil => exact le_refl a
  | cons x xs ih => exact le_trans (le_max_left a x) (ih (max a x))

theorem le_foldl_max (a : Int) (l : List Int) : ∀ t ∈ l, t ≤ l.foldl max a := by
  induction l generalizing a with
  | nil => intro t ht; simp at ht
  | cons x xs ih =>
    intro t ht
    rcases List.mem_cons.1 ht with h | h
    · subst h
      exact le_trans (le_max_right a t) (foldl_max_init_le (max a t) xs)
    · exact ih (max a x) t h

theorem foldl_max_mem (a : Int) (l : List Int) : l.foldl max a = a ∨ l.foldl max a ∈ l := by
  induction l generalizing a with
  | nil => exact Or.inl rfl
  | cons x xs ih =>
    rcases ih (max a x) with h | h
    · rcases max_choice a x with hm | hm
      · left; rw [List.foldl_cons, h, hm]
      · right; rw [List.foldl_cons, h, hm]; exact List.mem_cons_self x xs
    · right; exact List.mem_cons_of_mem x h

theorem foldl_min_le_init (a : Int) (l : List Int) : l.foldl min a ≤ a := by
  induction l generalizing a with
  | nil => exact le_refl a
  | cons x xs ih => exact le_trans (ih (min a x)) (min_le_left a x)

theorem foldl_min_le (a : Int) (l : List Int) : ∀ t ∈ l, l.foldl min a ≤ t := by
  induction l generalizing a with
  | nil => intro t ht; simp at ht
  | cons x xs ih =>
    intro t ht
    rcases List.mem_cons.1 ht with h | h
    · subst h
      exact le_trans (foldl_min_le_init (min a t) xs) (min_le_right a t)
    · exact ih (min a x) t h

theorem foldl_min_mem (a : Int) (l : List Int) : l.foldl min a = a ∨ l.foldl min a ∈ l := by
  induction l generalizing a with
  | nil => exact Or.inl rfl
  | cons x xs ih =>
    rcases ih (min a x) with h | h
    · rcases min_choice a x with hm | hm
      · left; rw [List.foldl_cons, h, hm]
      · right; rw [List.foldl_cons, h, hm]; exact List.mem_cons_self x xs
    · right; exact List.mem_cons_of_mem x h

/-- With every collected time at least the int64 sentinel, the folded `newest`
is a genuine maximum of the collected times. -/
theorem newestOf_spec (ts : List Int) (hne : ts ≠ []) (hlo : ∀ t ∈ ts, I64_MIN ≤ t) :
    (∀ t ∈ ts, t ≤ newestOf ts) ∧ newestOf ts ∈ ts := by
  refine ⟨le_foldl_max I64_MIN ts, ?_⟩
  rcases foldl_max_mem I64_MIN ts with h | h
  · rcases List.exists_mem_of_ne_nil ts hne with ⟨x, hx⟩
    have h1 : x ≤ newestOf ts := le_foldl_max I64_MIN ts x hx
    have h2 : I64_MIN ≤ x := hlo x hx
    have hh : newestOf ts = I64_MIN := h
    have : newestOf ts = x := by omega
    rw [this]; exact hx
  · exact h

/-- With every collected time at most the int64 sentinel, the folded `oldest`
is a genuine minimum of the collected times. -/
theorem oldestOf_spec (ts : List Int) (hne : ts ≠ []) (hhi : ∀ t ∈ ts, t ≤ I64_MAX) :
    (∀ t ∈ ts, oldestOf ts ≤ t) ∧ oldestOf ts ∈ ts := by
  refine ⟨foldl_min_le I64_MAX ts, ?_⟩
  rcases foldl_min_mem I64_MAX ts with h | h
  · rcases List.exists_mem_of_ne_nil ts hne with ⟨x, hx⟩
    have h1 : oldestOf ts ≤ x := foldl_min_le I64_MAX ts x hx
    have h2 : x ≤ I64_MAX := hhi x hx
    have hh : oldestOf ts = I64_MAX := h
    have : oldestOf ts = x := by omega
    rw [this]; exact hx
  · exact h

theorem warn_not_mem_mainLog (w : Bool) (vs : List SrcState) (s0 off : Nat) :
    Event.warnDesync ∉ mainLog w s0 off vs := by
  induction vs generalizing s0 off with
  | nil => simp [mainLog]
  | cons v rest ih => simp [mainLog, ih (s0 + 1) (off + v.sizeBytes)]

theorem warn_not_mem_catchup (limit : Int) (l : List (SrcState × Nat × Int)) (s0 : Nat) :
    Event.warnDesync ∉ (catchup s0 limit l).2 := by
  induction l generalizing s0 with
  | nil => simp [catchup]
  | cons p rest ih =>
    rcases p with ⟨v, off, rt⟩
    rw [catchup]
    by_cases hlt : rt < limit
    · rw [if_pos hlt]; simp [ih (s0 + 1)]
    · rw [if_neg hlt]; simpa using ih (s0 + 1)

/-- Sync-enabled two-source joiner used by the C9 witness. -/
def c9St : JoinerState :=
  (SyncJ (mkVideoJoiner [mockSrc 4 true false [⟨true, some 1000⟩],
    mockSrc 2 true false [⟨true, some 2000⟩]]) 30 false).2

theorem grabTimes_length (vs : List SrcState) (ts : List Int) (h : grabTimes vs = some ts) :
    ts.length = vs.length := by
  induction vs generalizing ts with
  | nil => simp only [grabTimes, Option.some.injEq] at h; subst h; rfl
  | cons v rest ih =>
    simp only [grabTimes] at h
    rcases h1 : grabTime v with _ | t
    · rw [h1] at h; rcases grabTimes rest <;> simp at h
    rcases h2 : grabTimes rest with _ | ts1
    · rw [h1, h2] at h; simp at h
    rw [h1, h2] at h
    simp only [Option.some.injEq] at h
    subst h
    simpa using ih ts1 h2

theorem offsetsList_length (off : Nat) (vs : List SrcState) :
    (offsetsList off vs).length = vs.length := by
  induction vs generalizing off with
  | nil => rfl
  | cons v rest ih => simp [offsetsList, ih (off + v.sizeBytes)]

theorem offsetsList_getD (off : Nat) (vs : List SrcState) (i : Nat) (hi : i < vs.length) :
    (offsetsList off vs).getD i 0 = off + prefixSize vs i := by
  induction vs generalizing off i with
  | nil => simp at hi
  | cons v rest ih =>
    rcases i with _ | j
    · rfl
    · have hj : j < rest.length := by simpa using Nat.lt_of_succ_lt_succ hi
      have : (offsetsList off (v :: rest)).getD (j + 1) 0 =
          (offsetsList (off + v.sizeBytes) rest).getD j 0 := rfl
      rw [this, ih (off + v.sizeBytes) j hj]
      have hpre : prefixSize (v :: rest) (j + 1) = v.sizeBytes + prefixSize rest j := rfl
      omega

theorem cntGrab_single_err (s : Nat) : cntGrab [Event.errGrabAll] s = 0 := rfl

theorem cntGrab_single_warn (s : Nat) : cntGrab [Event.warnDesync] s = 0 := rfl

theorem cuList_length (vs : List SrcState) (ts : List Int) (hlen : ts.length = vs.length) :
    (cuList vs ts).length = vs.length := by
  unfold cuList
  rw [List.length_zip, List.length_zip, List.length_map, offsetsList_length]
  omega

theorem cuList_get (vs : List SrcState) (ts : List Int) (hlen : ts.length = vs.length)
    (i : Nat) (hi : i < (cuList vs ts).length) :
    (cuList vs ts).get ⟨i, hi⟩ = (afterGrab (srcAt vs i), prefixSize vs i, ts.getD i 0) := by
  have hin : i < vs.length := by rw [cuList_length vs ts hlen] at hi; exact hi
  have h1 : i < (vs.map afterGrab).length := by simpa using hin
  have h2 : i < (offsetsList 0 vs).length := by rw [offsetsList_length]; exact hin
  have h3 : i < ts.length := by omega
  have h4 : i < ((offsetsList 0 vs).zip ts).length := by rw [List.length_zip]; omega
  have h5 : i < ((vs.map afterGrab).zip ((offsetsList 0 vs).zip ts)).length := by
    simpa [cuList] using hi
  unfold cuList
  rw [List.get_eq_getElem]
  have hz : ((vs.map afterGrab).zip ((offsetsList 0 vs).zip ts))[i] =
      ((vs.map afterGrab)[i], ((offsetsList 0 vs).zip ts)[i]) := List.getElem_zip
  rw [hz]
  have hz2 : ((offsetsList 0 vs).zip ts)[i] =
      ((offsetsList 0 vs)[i], ts[i]) := List.getElem_zip
  rw [hz2]
  have hm : (vs.map afterGrab)[i] = afterGrab vs[i] := List.getElem_map afterGrab
  rw [hm]
  have ho : (offsetsList 0 vs)[i] = prefixSize vs i := by
    rw [← List.getD_eq_getElem (offsetsList 0 vs) 0 h2, offsetsList_getD 0 vs i hin]
    omega
  rw [ho]
  have hs : vs[i] = srcAt vs i := by
    rw [srcAt, List.getD_eq_getElem vs default hin]
  have hd : ts[i] = ts.getD i 0 := by rw [List.getD_eq_getElem ts 0 h3]
  rw [hs, hd]

/-- Every event of the main loop is the grab of some source in range, with the
composite wait flag, at its running offset. -/
theorem mainLog_mem_shape (w : Bool) (vs : List SrcState) :
    ∀ s0 off e, e ∈ mainLog w s0 off vs →
      ∃ i, i < vs.length ∧
        e = Event.grab (s0 + i) (off + prefixSize vs i) w (grabOk (srcAt vs i)) := by
  induction vs with
  | nil => intro s0 off e he; simp [mainLog] at he
  | cons v rest ih =>
    intro s0 off e he
    rcases List.mem_cons.1 he with h | h
    · refine ⟨0, by simp, ?_⟩
      subst h
      rfl
    · rcases ih (s0 + 1) (off + v.sizeBytes) e h with ⟨i, hi, hsh⟩
      refine ⟨i + 1, by simpa using Nat.succ_lt_succ hi, ?_⟩
      rw [hsh]
      have e1 : s0 + 1 + i = s0 + (i + 1) := by omega
      have e2 : off + v.sizeBytes + prefixSize rest i = off + prefixSize (v :: rest) (i + 1) := by
        have : prefixSize (v :: rest) (i + 1) = v.sizeBytes + prefixSize rest i := rfl
        omega
      have e3 : srcAt rest i = srcAt (v :: rest) (i + 1) := rfl
      rw [e1, e2, e3]

/-- Every event of the catch-up pass is the non-blocking grab of a lagging source
in range, at the recorded offset of its zip entry. -/
theorem catchup_mem_shape (limit : Int) (l : List (SrcState × Nat × Int)) :
    ∀ s0 e, e ∈ (catchup s0 limit l).2 →
      ∃ i, i < l.length ∧ (l.getD i default).2.2 < limit ∧
        e = Event.grab (s0 + i) (l.getD i default).2.1 false (grabOk (l.getD i default).1) := by
  induction l with
  | nil => intro s0 e he; simp [catchup] at he
  | cons p rest ih =>
    rcases p with ⟨v, off, rt⟩
    intro s0 e he
    rw [catchup] at he
    by_cases hlt : rt < limit
    · rw [if_pos hlt] at he
      dsimp only [] at he
      rcases List.mem_cons.1 he with h | h
      · refine ⟨0, by simp, hlt, ?_⟩
        subst h
        rfl
      · rcases ih (s0 + 1) e h with ⟨i, hi, hl, hsh⟩
        refine ⟨i + 1, by simpa using Nat.succ_lt_succ hi, hl, ?_⟩
        rw [hsh]
        have e1 : s0 + 1 + i = s0 + (i + 1) := by omega
        rw [e1]
        rfl
    · rw [if_neg hlt] at he
      dsimp only [] at he
      rcases ih (s0 + 1) e he with ⟨i, hi, hl, hsh⟩
      refine ⟨i + 1, by simpa using Nat.succ_lt_succ hi, hl, ?_⟩
      rw [hsh]
      have e1 : s0 + 1 + i = s0 + (i + 1) := by omega
      rw [e1]
      rfl

/-- Sync-enabled joiner with timestamps 1000 and 1050 and tolerance 30, the
catch-up scenario of the spec. -/
def c4St : JoinerState :=
  (SyncJ (mkVideoJoiner [mockSrc 4 true false [⟨true, some 1000⟩, ⟨true, some 1000⟩],
    mockSrc 2 true false [⟨true, some 1050⟩]]) 30 false).2

/-- Iterated composite grabs (each with wait=true), used by the C7 counterexample. -/
def iterGrabNext : Nat → JoinerState → JoinerState
  | 0, st => st
  | n + 1, st =>
    match GrabNextJ st true with
    | none => st
    | some r => iterGrabNext n r.2.1

/-- Sync-enabled joiner whose source 0 always lags by 1000us (tolerance 30),
used by the C7 counterexample. -/
def c7St : JoinerState :=
  (SyncJ (mkVideoJoiner [mockSrc 4 true false (List.replicate 30 ⟨true, some 0⟩),
    mockSrc 2 true false (List.replicate 30 ⟨true, some 1000⟩)]) 30 false).2

/-- Counterexample for C7: with the attempt budget K = MAX_SYNC_ATTEMPTS = 10 set
by Sync, the counter reads 0 (not negative) at the start of grab K+1, so the
catch-up pass still runs there: the lagging source receives a re-grab (two grab
calls) on grab K+1, and only afterwards does the counter become -1. -/
theorem bounded_attempts_counterexample :
    MAX_SYNC_ATTEMPTS = 10 ∧
    c7St.sync_attempts_to_go = 10 ∧ c7St.sync_continuously = false ∧
    (iterGrabNext 10 c7St).sync_attempts_to_go = 0 ∧
    (GrabNextJ (iterGrabNext 10 c7St) true).map (fun r => cntGrab r.2.2 0) = some 2 ∧
    (GrabNextJ (iterGrabNext 10 c7St) true).map
      (fun r => r.2.1.sync_attempts_to_go) = some (-1) ∧
    (GrabNextJ (iterGrabNext 11 c7St) true).map (fun r => cntGrab r.2.2 0) = some 1 := by
  decide

/-- C7 amended: in bounded mode the counter decrements once per composite grab
while it is non-negative, and the catch-up pass runs whenever the counter is
non-negative at its check, so with budget K re-grabs may still be issued on grab
K+1; once the counter is negative no catch-up runs (each source receives exactly
its single main grab) and the counter stays put; in continuous mode the counter
never changes while every source keeps supplying timestamps. -/
theorem bounded_attempts_amended (st : JoinerState) (w : Bool) (ts : List Int)
    (hp : ∀ v ∈ st.srcs, v.hasProps = true) (hts : grabTimes st.srcs = some ts) :
    (0 ≤ st.sync_attempts_to_go → st.sync_continuously = false →
      ∃ st2 log, GrabNextJ st w = some (allOk st.srcs, st2, log) ∧
        st2.sync_attempts_to_go = st.sync_attempts_to_go - 1) ∧
    (0 ≤ st.sync_attempts_to_go → st.sync_continuously = true →
      ∃ st2 log, GrabNextJ st w = some (allOk st.srcs, st2, log) ∧
        st2.sync_attempts_to_go = st.sync_attempts_to_go) ∧
    (st.sync_attempts_to_go < 0 →
      ∃ st2 log, GrabNextJ st w = some (allOk st.srcs, st2, log) ∧
        st2.sync_attempts_to_go = st.sync_attempts_to_go ∧
        (∀ i, i < st.srcs.length → cntGrab log i = 1)) := by
  refine ⟨?_, ?_, ?_⟩
  · intro ha hcont
    refine ⟨_, _, GrabNextJ_golden st w ts hp ha hts, ?_⟩
    simp [hcont]
  · intro ha hcont
    refine ⟨_, _, GrabNextJ_golden st w ts hp ha hts, ?_⟩
    simp [hcont]
  · intro ha
    refine ⟨_, _, GrabNextJ_disabled st w ha, rfl, ?_⟩
    intro i hi
    rw [cntGrab_append]
    have h1 : cntGrab (if allOk st.srcs = true then mainLog w 0 0 st.srcs
        else mainLog w 0 0 st.srcs ++ [Event.errGrabAll]) i = 1 := by
      split
      · rw [cntGrab_mainLog]; rw [if_pos (by omega)]
      · rw [cntGrab_append, cntGrab_mainLog, cntGrab_single_err, if_pos (by omega)]
    have h2 : cntGrab (if (st.sync_continuously
        && decide (st.sync_tolerance_us < I64_MIN - I64_MAX)) = true
        then [Event.warnDesync] else []) i = 0 := by
      split
      · exact cntGrab_single_warn i
      · rfl
    omega

/-- Witness for the amended C7 at a sync-enabled one-source joiner. -/
theorem bounded_attempts_amended_witness :
    (∀ v ∈ c7St.srcs, v.hasProps = true) ∧
    grabTimes c7St.srcs = some [0, 1000] ∧
    ((0 ≤ c7St.sync_attempts_to_go → c7St.sync_continuously = false →
      ∃ st2 log, GrabNextJ c7St true = some (allOk c7St.srcs, st2, log) ∧
        st2.sync_attempts_to_go = c7St.sync_attempts_to_go - 1) ∧
     (0 ≤ c7St.sync_attempts_to_go → c7St.sync_continuously = true →
      ∃ st2 log, GrabNextJ c7St true = some (allOk c7St.srcs, st2, log) ∧
        st2.sync_attempts_to_go = c7St.sync_attempts_to_go) ∧
     (c7St.sync_attempts_to_go < 0 →
      ∃ st2 log, GrabNextJ c7St true = some (allOk c7St.srcs, st2, log) ∧
        st2.sync_attempts_to_go = c7St.sync_attempts_to_go ∧
        (∀ i, i < c7St.srcs.length → cntGrab log i = 1))) :=
  ⟨by decide, by decide, bounded_attempts_amended c7St true [0, 1000] (by decide) (by decide)⟩

/-- The `GrabNext` loop splits over list append. -/
theorem grabNextLoop_append (w : Bool) (xs ys : List SrcState) :
    ∀ s acc, grabNextLoop w (xs ++ ys) s acc =
      Option.bind (grabNextLoop w xs s acc)
        (fun acc1 => grabNextLoop w ys (s + xs.length) acc1) := by
  induction xs with
  | nil => intro s acc; simp [grabNextLoop]
  | cons v rest ih =>
    intro s acc
    simp only [List.cons_append, grabNextLoop]
    by_cases ha : 0 ≤ acc.attempts
    · rw [if_pos ha, if_pos ha]
      by_cases hv : v.hasProps = true
      · rw [if_pos hv, if_pos hv]
        rcases hcur : (srcGrab v).2.curProps with _ | t
        · dsimp only []
          simp only [List.append_eq]
          rw [ih (s + 1) _]
          simp only [List.length_cons]
          rw [show s + 1 + rest.length = s + (rest.length + 1) from by omega]
        · dsimp only []
          simp only [List.append_eq]
          rw [ih (s + 1) _]
          simp only [List.length_cons]
          rw [show s + 1 + rest.length = s + (rest.length + 1) from by omega]
      · rw [if_neg hv, if_neg hv]
        rfl
    · rw [if_neg ha, if_neg ha]
      simp only [List.append_eq]
      rw [ih (s + 1) _]
      simp only [List.length_cons]
      rw [show s + 1 + rest.length = s + (rest.length + 1) from by omega]

theorem countSucc_append (a b : List SrcState) :
    countSucc (a ++ b) = countSucc a + countSucc b := by
  simp [countSucc, List.filter_append]

/-- The minimum available-frame count computed by the buffer-aware path. -/
def minAvail (srcs : List SrcState) : Nat :=
  srcs.foldl (fun m v => min v.avail m) UINT32_MAX

theorem foldl_minA_le_init (a : Nat) (l : List SrcState) :
    l.foldl (fun m v => min v.avail m) a ≤ a := by
  induction l generalizing a with
  | nil => exact le_refl a
  | cons x xs ih => exact le_trans (ih (min x.avail a)) (min_le_right x.avail a)

theorem foldl_minA_le (a : Nat) (l : List SrcState) :
    ∀ v ∈ l, l.foldl (fun m v => min v.avail m) a ≤ v.avail := by
  induction l generalizing a with
  | nil => intro v hv; simp at hv
  | cons x xs ih =>
    intro v hv
    rcases List.mem_cons.1 hv with h | h
    · subst h
      exact le_trans (foldl_minA_le_init (min v.avail a) xs) (min_le_left v.avail a)
    · exact ih (min x.avail a) v h

theorem foldl_minA_mem (a : Nat) (l : List SrcState) :
    l.foldl (fun m v => min v.avail m) a = a ∨
      ∃ v ∈ l, l.foldl (fun m v => min v.avail m) a = v.avail := by
  induction l generalizing a with
  | nil => exact Or.inl rfl
  | cons x xs ih =>
    rcases ih (min x.avail a) with h | h
    · rcases min_choice x.avail a with hm | hm
      · right
        exact ⟨x, List.mem_cons_self x xs, by rw [List.foldl_cons, h, hm]⟩
      · left; rw [List.foldl_cons, h, hm]
    · rcases h with ⟨v, hv, he⟩
      exact Or.inr ⟨v, List.mem_cons_of_mem x hv, by rw [List.foldl_cons]; exact he⟩

/-- Drop events issued by a fully successful drop pass. -/
def dropEvts (n : Nat) : Nat → List SrcState → List Event
  | _, [] => []
  | s, v :: rest => Event.drop s n true :: dropEvts n (s + 1) rest

theorem dropLoop_all_ok (n : Nat) (vs : List SrcState) (hok : ∀ v ∈ vs, v.dropOk = true) :
    ∀ s, dropLoop n s vs = (true, vs.map (fun v => (srcDrop v n).2), dropEvts n s vs) := by
  induction vs with
  | nil => intro s; rfl
  | cons v rest ih =>
    intro s
    have hv : v.dropOk = true := hok v (List.mem_cons_self v rest)
    rw [dropLoop]
    have hd : (srcDrop v n).1 = true := hv
    rw [hd]
    dsimp only []
    rw [ih (fun u hu => hok u (List.mem_cons_of_mem v hu)) (s + 1)]
    rfl

theorem dropLoop_fst_false (n : Nat) (vs : List SrcState)
    (hex : ∃ v ∈ vs, v.dropOk = false) : ∀ s, (dropLoop n s vs).1 = false := by
  induction vs with
  | nil => rcases hex with ⟨v, hv, _⟩; simp at hv
  | cons v rest ih =>
    intro s
    rw [dropLoop]
    by_cases hv : v.dropOk = true
    · have hd : (srcDrop v n).1 = true := hv
      rw [hd]
      dsimp only []
      rcases hex with ⟨u, hu, hue⟩
      rcases List.mem_cons.1 hu with h | h
      · subst h; rw [hv] at hue; exact absurd hue (by simp)
      · exact ih ⟨u, h, hue⟩ (s + 1)
    · have hd : (srcDrop v n).1 = false := by
        simpa using hv
      rw [hd]
      dsimp only []
      rfl

theorem dropEvts_shape (n : Nat) (vs : List SrcState) :
    ∀ s e, e ∈ dropEvts n s vs → ∃ i, i < vs.length ∧ e = Event.drop (s + i) n true := by
  induction vs with
  | nil => intro s e he; simp [dropEvts] at he
  | cons v rest ih =>
    intro s e he
    rcases List.mem_cons.1 he with h | h
    · exact ⟨0, by simp, by rw [h, Nat.add_zero]⟩
    · rcases ih (s + 1) e h with ⟨i, hi, hsh⟩
      refine ⟨i + 1, by simpa using Nat.succ_lt_succ hi, ?_⟩
      rw [hsh, show s + 1 + i = s + (i + 1) from by omega]

theorem cntDrop_cons (e : Event) (l : List Event) (i : Nat) :
    cntDrop (e :: l) i = (if isDropAt i e then 1 else 0) + cntDrop l i := by
  by_cases h : isDropAt i e = true <;> simp [cntDrop, List.filter_cons, h] <;> omega

theorem cntDrop_append (a b : List Event) (i : Nat) :
    cntDrop (a ++ b) i = cntDrop a i + cntDrop b i := by
  simp [cntDrop, List.filter_append]

theorem cntDrop_dropEvts (n : Nat) (vs : List SrcState) (s i : Nat) :
    cntDrop (dropEvts n s vs) i = if s ≤ i ∧ i < s + vs.length then 1 else 0 := by
  induction vs generalizing s with
  | nil =>
    simp only [dropEvts, cntDrop, List.filter_nil, List.length_nil]
    split <;> omega
  | cons v rest ih =>
    rw [dropEvts, cntDrop_cons, ih (s + 1)]
    by_cases h : s = i
    · subst h
      have h1 : isDropAt s (Event.drop s n true) = true := by simp [isDropAt]
      rw [h1, if_pos rfl, if_neg (by omega),
        if_pos (by refine ⟨le_refl s, ?_⟩; simp only [List.length_cons]; omega)]
    · have h1 : isDropAt i (Event.drop s n true) = false := by
        simp [isDropAt]; omega
      rw [h1]
      simp only [Bool.false_eq_true, if_false, Nat.zero_add, List.length_cons]
      exact if_congr (by omega) rfl rfl

theorem grabNextLoop_cntDrop (w : Bool) (vs : List SrcState) :
    ∀ s acc acc2, grabNextLoop w vs s acc = some acc2 →
      ∀ i, cntDrop acc2.log i = cntDrop acc.log i := by
  induction vs with
  | nil =>
    intro s acc acc2 h i
    simp only [grabNextLoop, Option.some.injEq] at h
    rw [← h]
  | cons v rest ih =>
    intro s acc acc2 h i
    simp only [grabNextLoop] at h
    by_cases ha : 0 ≤ acc.attempts
    · rw [if_pos ha] at h
      by_cases hv : v.hasProps = true
      · rw [if_pos hv] at h
        rcases hcur : (srcGrab v).2.curProps with _ | t <;> rw [hcur] at h <;>
          dsimp only [] at h
        · rw [ih (s + 1) _ acc2 h i]
          dsimp only []
          rw [cntDrop_append, cntDrop_append]
          rfl
        · rw [ih (s + 1) _ acc2 h i]
          dsimp only []
          rw [cntDrop_append]
          rfl
      · rw [if_neg hv] at h
        exact absurd h (by simp)
    · rw [if_neg ha] at h
      rw [ih (s + 1) _ acc2 h i]
      dsimp only []
      rw [cntDrop_append]
      rfl

theorem cntDrop_catchup (limit : Int) (l : List (SrcState × Nat × Int)) :
    ∀ s0 i, cntDrop (catchup s0 limit l).2 i = 0 := by
  induction l with
  | nil => intro s0 i; rfl
  | cons p rest ih =>
    intro s0 i
    rcases p with ⟨v, off, rt⟩
    rw [catchup]
    by_cases hlt : rt < limit
    · rw [if_pos hlt]
      dsimp only []
      rw [cntDrop_cons]
      have : isDropAt i (Event.grab s0 off false (srcGrab v).1) = false := rfl
      rw [this]
      simpa using ih (s0 + 1) i
    · rw [if_neg hlt]
      dsimp only []
      exact ih (s0 + 1) i

theorem cntDrop_single_errG (i : Nat) : cntDrop [Event.errGrabAll] i = 0 := rfl

theorem cntDrop_single_warn (i : Nat) : cntDrop [Event.warnDesync] i = 0 := rfl

theorem cntDrop_pair_ew (i : Nat) :
    cntDrop [Event.errGrabAll, Event.warnDesync] i = 0 := rfl

/-- A `GrabNext` call never issues a drop request. -/
theorem cntDrop_GrabNextJ (st : JoinerState) (w : Bool) (r : Bool) (st2 : JoinerState)
    (log : List Event) (h : GrabNextJ st w = some (r, st2, log)) (i : Nat) :
    cntDrop log i = 0 := by
  unfold GrabNextJ at h
  rcases hL : grabNextLoop w st.srcs 0
      { offset := 0, offsets := [], rts := [], newest := I64_MIN, oldest := I64_MAX,
        grabbedAll := (st.srcs.length : Int), attempts := st.sync_attempts_to_go,
        procd := [], log := [] } with _ | acc
  · rw [hL] at h; exact absurd h (by simp)
  · rw [hL] at h
    have hacc : cntDrop acc.log i = 0 := grabNextLoop_cntDrop w st.srcs 0 _ acc hL i
    dsimp only [] at h
    split at h <;>
      (simp only [Option.some.injEq, Prod.mk.injEq] at h;
       rcases h with ⟨hh1, hh2, hh3⟩; rw [← hh3])
    · rw [cntDrop_append, cntDrop_catchup]
      have : cntDrop (if ((st.sync_continuously || acc.attempts == 0)
          && decide (st.sync_tolerance_us < acc.newest - acc.oldest)) = true
          then (if acc.grabbedAll ≠ 0 then acc.log ++ [Event.errGrabAll] else acc.log)
            ++ [Event.warnDesync]
          else (if acc.grabbedAll ≠ 0 then acc.log ++ [Event.errGrabAll] else acc.log)) i
          = 0 := by
        split <;> split <;>
          simp [cntDrop_append, hacc, cntDrop_single_errG, cntDrop_single_warn, cntDrop_pair_ew]
      omega
    · split <;> split <;>
        simp [cntDrop_append, hacc, cntDrop_single_errG, cntDrop_single_warn, cntDrop_pair_ew]

theorem cntGrab_dropLoop (n : Nat) (vs : List SrcState) :
    ∀ s i, cntGrab (dropLoop n s vs).2.2 i = 0 := by
  induction vs with
  | nil => intro s i; rfl
  | cons v rest ih =>
    intro s i
    rw [dropLoop]
    by_cases hv : (srcDrop v n).1 = true
    · rw [hv, if_pos rfl]
      dsimp only []
      rw [cntGrab_cons, show isGrabAt i (Event.drop s n true) = false from rfl]
      simpa using ih (s + 1) i
    · rw [show (srcDrop v n).1 = false from by simpa using hv]
      dsimp only []
      rfl

theorem cntNewestC_dropLoop (n : Nat) (vs : List SrcState) :
    ∀ s i, cntNewestC (dropLoop n s vs).2.2 i = 0 := by
  induction vs with
  | nil => intro s i; rfl
  | cons v rest ih =>
    intro s i
    rw [dropLoop]
    by_cases hv : (srcDrop v n).1 = true
    · rw [hv, if_pos rfl]
      dsimp only []
      have hstep : cntNewestC (Event.drop s n true :: (dropLoop n (s + 1) rest).2.2) i =
          cntNewestC (dropLoop n (s + 1) rest).2.2 i := by
        simp [cntNewestC, List.filter_cons, isNewestAt]
      rw [hstep]
      exact ih (s + 1) i
    · rw [show (srcDrop v n).1 = false from by simpa using hv]
      dsimp only []
      rfl

theorem drop_not_mem_of_cnt_zero (log : List Event) (s1 : Nat) (h : cntDrop log s1 = 0)
    (n1 : Nat) (b : Bool) : Event.drop s1 n1 b ∉ log := by
  intro hmem
  have hfil : Event.drop s1 n1 b ∈ log.filter (isDropAt s1) :=
    List.mem_filter.2 ⟨hmem, by simp [isDropAt]⟩
  unfold cntDrop at h
  rw [List.length_eq_zero] at h
  rw [h] at hfil
  simp at hfil

/-- C5: with every source Buffer-Aware, `GrabNewest` computes `minN` as the
minimum of the sources' available-frame counts; if `minN > 1` it requests a drop
of exactly `minN - 1` frames from every source in order (the same count for
all), returns false at the first failed drop without issuing any grab, and
otherwise delegates the final grab to `GrabNext` on the dropped sources; if
`minN ≤ 1` it delegates directly. -/
theorem bufferaware_grabNewest_drop (st : JoinerState) (w : Bool)
    (hba : AllInterfacesAreBufferAware st.srcs = true)
    (hr : ∀ v ∈ st.srcs, v.avail ≤ UINT32_MAX) :
    ((∀ v ∈ st.srcs, minAvail st.srcs ≤ v.avail) ∧
     (st.srcs ≠ [] → ∃ v ∈ st.srcs, v.avail = minAvail st.srcs)) ∧
    (1 < minAvail st.srcs → (∀ v ∈ st.srcs, v.dropOk = true) →
      ∀ r2 st2 log2,
        GrabNextJ
          { st with srcs := st.srcs.map (fun v => (srcDrop v (minAvail st.srcs - 1)).2) }
          w = some (r2, st2, log2) →
        GrabNewestJ st w =
          some (r2, st2, dropEvts (minAvail st.srcs - 1) 0 st.srcs ++ log2) ∧
        (∀ i, i < st.srcs.length →
          cntDrop (dropEvts (minAvail st.srcs - 1) 0 st.srcs ++ log2) i = 1) ∧
        (∀ s1 n1 b, Event.drop s1 n1 b ∈ dropEvts (minAvail st.srcs - 1) 0 st.srcs ++ log2 →
          n1 = minAvail st.srcs - 1 ∧ b = true)) ∧
    (1 < minAvail st.srcs → (∃ v ∈ st.srcs, v.dropOk = false) →
      ∃ st2 log, GrabNewestJ st w = some (false, st2, log) ∧
        (∀ i, cntGrab log i = 0 ∧ cntNewestC log i = 0)) ∧
    (minAvail st.srcs ≤ 1 → GrabNewestJ st w = GrabNextJ st w) := by
  refine ⟨⟨foldl_minA_le UINT32_MAX st.srcs, ?_⟩, ?_, ?_, ?_⟩
  · intro hne
    rcases foldl_minA_mem UINT32_MAX st.srcs with h | h
    · rcases List.exists_mem_of_ne_nil st.srcs hne with ⟨x, hx⟩
      have h1 : minAvail st.srcs ≤ x.avail := foldl_minA_le UINT32_MAX st.srcs x hx
      have h2 : x.avail ≤ UINT32_MAX := hr x hx
      have h3 : minAvail st.srcs = UINT32_MAX := h
      exact ⟨x, hx, by omega⟩
    · rcases h with ⟨v, hv, he⟩
      exact ⟨v, hv, he.symm⟩
  · intro hmin hok r2 st2 log2 hnext
    have hrun : GrabNewestJ st w =
        some (r2, st2, dropEvts (minAvail st.srcs - 1) 0 st.srcs ++ log2) := by
      unfold GrabNewestJ
      rw [if_pos hba]
      dsimp only []
      rw [show st.srcs.foldl (fun m v => min v.avail m) UINT32_MAX = minAvail st.srcs
        from rfl]
      rw [if_pos hmin]
      rw [dropLoop_all_ok (minAvail st.srcs - 1) st.srcs hok 0]
      dsimp only []
      rw [hnext]
      rw [if_pos rfl]
    refine ⟨hrun, ?_, ?_⟩
    · intro i hi
      rw [cntDrop_append, cntDrop_dropEvts, cntDrop_GrabNextJ _ _ _ _ _ hnext i,
        if_pos (by omega)]
    · intro s1 n1 b hmem
      rcases List.mem_append.1 hmem with hmem | hmem
      · rcases dropEvts_shape (minAvail st.srcs - 1) st.srcs 0 _ hmem with ⟨j, hj, hsh⟩
        simp only [Event.drop.injEq] at hsh
        exact ⟨hsh.2.1, hsh.2.2⟩
      · exact absurd hmem (drop_not_mem_of_cnt_zero log2 s1
          (cntDrop_GrabNextJ _ _ _ _ _ hnext s1) n1 b)
  · intro hmin hex
    have hfalse : (dropLoop (minAvail st.srcs - 1) 0 st.srcs).1 = false :=
      dropLoop_fst_false (minAvail st.srcs - 1) st.srcs hex 0
    refine ⟨{ st with srcs := (dropLoop (minAvail st.srcs - 1) 0 st.srcs).2.1 },
      (dropLoop (minAvail st.srcs - 1) 0 st.srcs).2.2, ?_,
      fun i => ⟨cntGrab_dropLoop (minAvail st.srcs - 1) st.srcs 0 i,
        cntNewestC_dropLoop (minAvail st.srcs - 1) st.srcs 0 i⟩⟩
    unfold GrabNewestJ
    rw [if_pos hba]
    dsimp only []
    rw [show st.srcs.foldl (fun m v => min v.avail m) UINT32_MAX = minAvail st.srcs
      from rfl]
    rw [if_pos hmin]
    rw [if_neg (show ¬ (dropLoop (minAvail st.srcs - 1) 0 st.srcs).1 = true from by
      rw [hfalse]; simp)]
  · intro hle
    unfold GrabNewestJ
    rw [if_pos hba]
    dsimp only []
    rw [show st.srcs.foldl (fun m v => min v.avail m) UINT32_MAX = minAvail st.srcs
      from rfl]
    rw [if_neg (by omega)]

/-- Buffer-aware mock source with a given available count. -/
def baSrc (sz av : Nat) (dk : Bool) : SrcState :=
  { sizeBytes := sz, streamOffsets := [0], hasProps := false, bufferAware := true,
    script := [⟨true, none⟩], curProps := none, avail := av, dropOk := dk }

/-- The two-source buffer-aware joiner of the C5 witness (5 and 3 frames). -/
def c5St : JoinerState := mkVideoJoiner [baSrc 4 5 true, baSrc 2 3 true]

/-- Witness for C5 at two buffer-aware sources with 5 and 3 available frames. -/
theorem bufferaware_grabNewest_drop_witness :
    AllInterfacesAreBufferAware c5St.srcs = true ∧
    (∀ v ∈ c5St.srcs, v.avail ≤ UINT32_MAX) ∧
    minAvail c5St.srcs = 3 ∧
    (((∀ v ∈ c5St.srcs, minAvail c5St.srcs ≤ v.avail) ∧
      (c5St.srcs ≠ [] → ∃ v ∈ c5St.srcs, v.avail = minAvail c5St.srcs)) ∧
     (1 < minAvail c5St.srcs → (∀ v ∈ c5St.srcs, v.dropOk = true) →
      ∀ r2 st2 log2,
        GrabNextJ
          { c5St with srcs := c5St.srcs.map (fun v => (srcDrop v (minAvail c5St.srcs - 1)).2) }
          true = some (r2, st2, log2) →
        GrabNewestJ c5St true =
          some (r2, st2, dropEvts (minAvail c5St.srcs - 1) 0 c5St.srcs ++ log2) ∧
        (∀ i, i < c5St.srcs.length →
          cntDrop (dropEvts (minAvail c5St.srcs - 1) 0 c5St.srcs ++ log2) i = 1) ∧
        (∀ s1 n1 b, Event.drop s1 n1 b ∈ dropEvts (minAvail c5St.srcs - 1) 0 c5St.srcs ++ log2 →
          n1 = minAvail c5St.srcs - 1 ∧ b = true)) ∧
     (1 < minAvail c5St.srcs → (∃ v ∈ c5St.srcs, v.dropOk = false) →
      ∃ st2 log, GrabNewestJ c5St true = some (false, st2, log) ∧
        (∀ i, cntGrab log i = 0 ∧ cntNewestC log i = 0)) ∧
     (minAvail c5St.srcs ≤ 1 → GrabNewestJ c5St true = GrabNextJ c5St true)) :=
  ⟨by decide, by decide, by decide,
   bufferaware_grabNewest_drop c5St true (by decide) (by decide)⟩

theorem srcGrab_hasProps (v : SrcState) : (srcGrab v).2.hasProps = v.hasProps := by
  cases hs : v.script <;> simp [srcGrab, hs]

theorem cntGrabW_cons (e : Event) (l : List Event) (s : Nat) (w1 : Bool) :
    cntGrabW (e :: l) s w1 = (if isGrabAtW s w1 e then 1 else 0) + cntGrabW l s w1 := by
  by_cases h : isGrabAtW s w1 e = true <;> simp [cntGrabW, List.filter_cons, h] <;> omega

theorem cntGrabW_append (a b : List Event) (s : Nat) (w1 : Bool) :
    cntGrabW (a ++ b) s w1 = cntGrabW a s w1 + cntGrabW b s w1 := by
  simp [cntGrabW, List.filter_append]

theorem cntGrab_split (log : List Event) (i : Nat) :
    cntGrab log i = cntGrabW log i true + cntGrabW log i false := by
  induction log with
  | nil => rfl
  | cons e rest ih =>
    rw [cntGrab_cons, cntGrabW_cons, cntGrabW_cons, ih]
    cases e with
    | grab s1 off w1 ok =>
      simp only [isGrabAt, isGrabAtW]
      rcases w1 with _ | _ <;> by_cases hs : (s1 == i) = true <;> simp [hs] <;> omega
    | grabNewestChild s1 off ok => simp [isGrabAt, isGrabAtW]; try omega
    | drop s1 n ok => simp [isGrabAt, isGrabAtW]; try omega
    | errNoTimestamp s1 => simp [isGrabAt, isGrabAtW]; try omega
    | errGrabAll => simp [isGrabAt, isGrabAtW]; try omega
    | errDropFailed s1 => simp [isGrabAt, isGrabAtW]; try omega
    | warnDesync => simp [isGrabAt, isGrabAtW]; try omega

theorem cntGrabW_catchupNewest (limit : Int) (l : List (SrcState × Nat × Int)) :
    ∀ s0 i w1, cntGrabW (catchupNewest s0 limit l).2 i w1 = 0 := by
  induction l with
  | nil => intro s0 i w1; rfl
  | cons p rest ih =>
    intro s0 i w1
    rcases p with ⟨v, off, rt⟩
    rw [catchupNewest]
    by_cases hlt : rt < limit
    · rw [if_pos hlt]
      dsimp only []
      rw [cntGrabW_cons, show isGrabAtW i w1 (Event.grabNewestChild s0 off (srcGrab v).1)
        = false from rfl]
      simpa using ih (s0 + 1) i w1
    · rw [if_neg hlt]
      dsimp only []
      exact ih (s0 + 1) i w1

theorem cntGrabW_single_warn (i : Nat) (w1 : Bool) : cntGrabW [Event.warnDesync] i w1 = 0 := rfl

theorem cntGrabW_single_errNT (k i : Nat) (w1 : Bool) :
    cntGrabW [Event.errNoTimestamp k] i w1 = 0 := rfl

/-- The drain loop on source 0: it always completes when the source has the
properties capability or sync is disabled, counts exactly the leading successes
of the script as backlog, and issues exactly backlog+1 non-blocking grab calls
at offset 0 on source 0. -/
theorem drain0_spec (hp : Bool) (script : List GrabEntry) :
    ∀ cp att bl rt log, (hp = true ∨ att < 0) →
      ∃ d, drain0 hp script cp att bl rt log = some d ∧
        d.backlog = bl + leadTrue script ∧
        (d.attempts = att ∨ d.attempts = -1) ∧
        (∀ i w1, cntGrabW d.log i w1 = cntGrabW log i w1 +
          (if i = 0 ∧ w1 = false then leadTrue script + 1 else 0)) := by
  induction script with
  | nil =>
    intro cp att bl rt log hh
    refine ⟨_, rfl, by simp [leadTrue], Or.inl rfl, ?_⟩
    intro i w1
    rw [cntGrabW_append, cntGrabW_cons]
    rcases w1 with _ | _ <;> by_cases hi : i = 0 <;>
      simp [isGrabAtW, hi, leadTrue, cntGrabW] <;> omega
  | cons e rest ih =>
    intro cp att bl rt log hh
    rw [drain0]
    by_cases hok : e.ok = true
    · rw [if_pos hok]
      by_cases ha : 0 ≤ att
      · rw [if_pos ha]
        rcases hh with hh | hh
        · rw [if_pos hh]
          rcases hpr : e.props with _ | t
          · dsimp only []
            rcases ih none (-1) (bl + 1) rt
              ((log ++ [Event.grab 0 0 false e.ok]) ++ [Event.errNoTimestamp 0])
              (Or.inr (by norm_num)) with ⟨d, hrun, hbl, hat, hcnt⟩
            refine ⟨d, hrun, ?_, ?_, ?_⟩
            · rw [hbl, leadTrue, if_pos hok]; omega
            · rcases hat with h | h <;> right <;> omega
            · intro i w1
              rw [hcnt i w1, cntGrabW_append, cntGrabW_append, cntGrabW_single_errNT,
                cntGrabW_cons, leadTrue, if_pos hok]
              rcases w1 with _ | _ <;> by_cases hi : i = 0 <;>
                simp [isGrabAtW, hi, cntGrabW, hok] <;> omega
          · dsimp only []
            rcases ih (some t) att (bl + 1) t
              (log ++ [Event.grab 0 0 false e.ok]) (Or.inl hh) with ⟨d, hrun, hbl, hat, hcnt⟩
            refine ⟨d, hrun, ?_, hat, ?_⟩
            · rw [hbl, leadTrue, if_pos hok]; omega
            · intro i w1
              rw [hcnt i w1, cntGrabW_append, cntGrabW_cons, leadTrue, if_pos hok]
              rcases w1 with _ | _ <;> by_cases hi : i = 0 <;>
                simp [isGrabAtW, hi, cntGrabW, hok] <;> omega
        · exact absurd ha (by omega)
      · rw [if_neg ha]
        rcases ih e.props att (bl + 1) rt
          (log ++ [Event.grab 0 0 false e.ok]) (Or.inr (by omega)) with ⟨d, hrun, hbl, hat, hcnt⟩
        refine ⟨d, hrun, ?_, hat, ?_⟩
        · rw [hbl, leadTrue, if_pos hok]; omega
        · intro i w1
          rw [hcnt i w1, cntGrabW_append, cntGrabW_cons, leadTrue, if_pos hok]
          rcases w1 with _ | _ <;> by_cases hi : i = 0 <;>
            simp [isGrabAtW, hi, cntGrabW, hok] <;> omega
    · rw [if_neg hok]
      refine ⟨_, rfl, by rw [leadTrue, if_neg hok]; rfl, Or.inl rfl, ?_⟩
      intro i w1
      rw [cntGrabW_append, cntGrabW_cons, leadTrue, if_neg hok]
      rcases w1 with _ | _ <;> by_cases hi : i = 0 <;>
        simp [isGrabAtW, hi, cntGrabW] <;> omega

/-- The inner blocking loop issues exactly `k` blocking grab calls on source `s`
and no non-blocking ones. -/
theorem drainOther_spec (s off : Nat) (k : Nat) :
    ∀ v ga att rt log, (v.hasProps = true ∨ att < 0) →
      ∃ d, drainOther s off k v ga att rt log = some d ∧
        (d.attempts = att ∨ d.attempts = -1) ∧
        (∀ i, cntGrabW d.log i true = cntGrabW log i true + (if i = s then k else 0)) ∧
        (∀ i, cntGrabW d.log i false = cntGrabW log i false) := by
  induction k with
  | zero =>
    intro v ga att rt log hh
    exact ⟨_, rfl, Or.inl rfl, fun i => by simp, fun i => rfl⟩
  | succ k ih =>
    intro v ga att rt log hh
    rw [drainOther]
    have hstep : ∀ i, cntGrabW (log ++ [Event.grab s off true (srcGrab v).1]) i true =
        cntGrabW log i true + (if i = s then 1 else 0) := by
      intro i
      rw [cntGrabW_append, cntGrabW_cons]
      by_cases hi : i = s <;> simp [isGrabAtW, hi, cntGrabW] <;> omega
    have hstepf : ∀ i, cntGrabW (log ++ [Event.grab s off true (srcGrab v).1]) i false =
        cntGrabW log i false := by
      intro i
      rw [cntGrabW_append, cntGrabW_cons]
      simp [isGrabAtW, cntGrabW]
    by_cases ha : 0 ≤ att
    · rw [if_pos ha]
      rcases hh with hh | hh
      · rw [if_pos hh]
        have hh2 : (srcGrab v).2.hasProps = true := by rw [srcGrab_hasProps]; exact hh
        rcases hcur : (srcGrab v).2.curProps with _ | t
        · dsimp only []
          rcases ih (srcGrab v).2 (ga || (srcGrab v).1) (-1) rt
            ((log ++ [Event.grab s off true (srcGrab v).1]) ++ [Event.errNoTimestamp s])
            (Or.inr (by norm_num)) with ⟨d, hd, hat, hct, hcf⟩
          refine ⟨d, hd, ?_, ?_, ?_⟩
          · rcases hat with h | h <;> right <;> omega
          · intro i
            rw [hct i, cntGrabW_append, cntGrabW_single_errNT, hstep i]
            by_cases hi : i = s <;> simp [hi] <;> omega
          · intro i
            rw [hcf i, cntGrabW_append, cntGrabW_single_errNT, hstepf i]
            omega
        · dsimp only []
          rcases ih (srcGrab v).2 (ga || (srcGrab v).1) att t
            (log ++ [Event.grab s off true (srcGrab v).1])
            (Or.inl hh2) with ⟨d, hd, hat, hct, hcf⟩
          refine ⟨d, hd, hat, ?_, ?_⟩
          · intro i
            rw [hct i, hstep i]
            by_cases hi : i = s <;> simp [hi] <;> omega
          · intro i
            rw [hcf i, hstepf i]
      · exact absurd ha (by omega)
    · rw [if_neg ha]
      rcases ih (srcGrab v).2 (ga || (srcGrab v).1) att rt
        (log ++ [Event.grab s off true (srcGrab v).1])
        (Or.inr (by omega)) with ⟨d, hd, hat, hct, hcf⟩
      refine ⟨d, hd, hat, ?_, ?_⟩
      · intro i
        rw [hct i, hstep i]
        by_cases hi : i = s <;> simp [hi] <;> omega
      · intro i
        rw [hcf i, hstepf i]

/-- The outer fallback loop gives every later source exactly `bl` blocking grab
calls and no non-blocking ones. -/
theorem newestOuter_spec (bl : Nat) (rest : List SrcState) :
    ∀ s acc, (0 ≤ acc.attempts → ∀ v ∈ rest, v.hasProps = true) →
      ∃ a, newestOuter bl s rest acc = some a ∧
        (a.attempts = acc.attempts ∨ a.attempts = -1) ∧
        (∀ i, cntGrabW a.log i true = cntGrabW acc.log i true +
          (if s ≤ i ∧ i < s + rest.length then bl else 0)) ∧
        (∀ i, cntGrabW a.log i false = cntGrabW acc.log i false) := by
  induction rest with
  | nil =>
    intro s acc hsafe
    refine ⟨acc, rfl, Or.inl rfl, fun i => ?_, fun i => rfl⟩
    rw [if_neg (by simp only [List.length_nil]; omega)]
    omega
  | cons v vs ih =>
    intro s acc hsafe
    rw [newestOuter]
    have hh : v.hasProps = true ∨ acc.attempts < 0 := by
      by_cases ha : 0 ≤ acc.attempts
      · exact Or.inl (hsafe ha v (List.mem_cons_self v vs))
      · exact Or.inr (by omega)
    rcases drainOther_spec s acc.offset bl v acc.any acc.attempts acc.rt acc.log hh with
      ⟨d, hd, hat, hct, hcf⟩
    rw [hd]
    dsimp only []
    by_cases had : 0 ≤ d.attempts
    · rw [if_pos had]
      have hacc0 : 0 ≤ acc.attempts := by rcases hat with h | h <;> omega
      rcases ih (s + 1)
        { offset := acc.offset + v.sizeBytes, offsets := acc.offsets ++ [acc.offset],
          rts := acc.rts ++ [d.rt], newest := max acc.newest d.rt,
          oldest := min acc.oldest d.rt, any := d.any, attempts := d.attempts,
          rt := d.rt, procd := acc.procd ++ [d.src], log := d.log }
        (by intro h u hu
            exact hsafe hacc0 u (List.mem_cons_of_mem v hu)) with ⟨a, ha2, hat2, hct2, hcf2⟩
      refine ⟨a, ha2, ?_, ?_, ?_⟩
      · rcases hat2 with h | h
        · rcases hat with h2 | h2
          · left; rw [h]; exact h2
          · right; rw [h]; exact h2
        · right; exact h
      · intro i
        rw [hct2 i]
        dsimp only []
        rw [hct i, List.length_cons]
        repeat' split
        all_goals omega
      · intro i
        rw [hcf2 i]
        dsimp only []
        rw [hcf i]
    · rw [if_neg had]
      rcases ih (s + 1)
        { offset := acc.offset + v.sizeBytes, offsets := acc.offsets ++ [acc.offset],
          rts := acc.rts, newest := acc.newest, oldest := acc.oldest,
          any := d.any, attempts := d.attempts, rt := d.rt,
          procd := acc.procd ++ [d.src], log := d.log }
        (by intro h; exact absurd h (by simpa using had)) with
        ⟨a, ha2, hat2, hct2, hcf2⟩
      refine ⟨a, ha2, ?_, ?_, ?_⟩
      · rcases hat2 with h | h
        · rcases hat with h2 | h2
          · left; rw [h]; exact h2
          · right; rw [h]; exact h2
        · right; exact h
      · intro i
        rw [hct2 i]
        dsimp only []
        rw [hct i, List.length_cons]
        repeat' split
        all_goals omega
      · intro i
        rw [hcf2 i]
        dsimp only []
        rw [hcf i]

/-- C6: with a non-buffer-aware mix, `GrabNewest` drains source 0 with
non-blocking grabs until one fails (`backlog` successes, hence `backlog + 1`
non-blocking calls on source 0 and no blocking ones), then issues exactly
`backlog` blocking grabs on each of the other sources and no non-blocking ones;
in particular with `backlog = 0` the other sources receive no grab calls. -/
theorem fallback_backlog_drain (st : JoinerState) (w : Bool) (v0 : SrcState)
    (rest : List SrcState) (hsp : st.srcs = v0 :: rest)
    (hnba : AllInterfacesAreBufferAware st.srcs = false)
    (hsafe : SyncSafe st) :
    ∃ r st2 log, GrabNewestJ st w = some (r, st2, log) ∧
      cntGrabW log 0 false = leadTrue v0.script + 1 ∧
      cntGrabW log 0 true = 0 ∧
      (∀ i, 1 ≤ i → i < st.srcs.length → cntGrabW log i true = leadTrue v0.script) ∧
      (∀ i, 1 ≤ i → cntGrabW log i false = 0) := by
  have hlen : st.srcs.length = rest.length + 1 := by rw [hsp]; rfl
  have hprops : 0 ≤ st.sync_attempts_to_go → ∀ v ∈ v0 :: rest, v.hasProps = true := by
    intro h
    rw [← hsp]
    exact hsafe h
  unfold GrabNewestJ
  rw [hsp]
  rw [if_neg (show ¬ AllInterfacesAreBufferAware (v0 :: rest) = true from by
    rw [← hsp]; simp [hnba])]
  dsimp only []
  have hh0 : v0.hasProps = true ∨ st.sync_attempts_to_go < 0 := by
    by_cases ha : 0 ≤ st.sync_attempts_to_go
    · exact Or.inl (hprops ha v0 (List.mem_cons_self v0 rest))
    · exact Or.inr (by omega)
  rcases drain0_spec v0.hasProps v0.script v0.curProps st.sync_attempts_to_go 0 0 [] hh0 with
    ⟨d, hd, hbl, hat, hcnt⟩
  rw [hd]
  dsimp only []
  by_cases hda : 0 ≤ d.attempts
  · rw [if_pos hda]
    have hattpos : 0 ≤ st.sync_attempts_to_go := by rcases hat with h | h <;> omega
    rcases newestOuter_spec d.backlog rest 1
      { offset := v0.sizeBytes, offsets := [0], rts := [d.rt],
        newest := max I64_MIN d.rt, oldest := min I64_MAX d.rt,
        any := decide (0 < d.backlog), attempts := d.attempts, rt := d.rt,
        procd := [{ v0 with script := d.script, curProps := d.cur }], log := d.log }
      (by intro h u hu
          exact hprops hattpos u (List.mem_cons_of_mem v0 hu)) with ⟨a, ha2, hat2, hct2, hcf2⟩
    rw [ha2]
    dsimp only []
    have hA : ∀ i w1, cntGrabW a.log i w1 = cntGrabW d.log i w1 +
        (if 1 ≤ i ∧ i < 1 + rest.length ∧ w1 = true then d.backlog else 0) := by
      intro i w1
      rcases w1 with _ | _
      · rw [hcf2 i]
        simp
      · rw [hct2 i]
        simp
    have hwarn : ∀ i w1, cntGrabW (if ((st.sync_continuously || a.attempts == 0)
        && decide (st.sync_tolerance_us < a.newest - a.oldest)) = true
        then a.log ++ [Event.warnDesync] else a.log) i w1 = cntGrabW a.log i w1 := by
      intro i w1
      split
      · rw [cntGrabW_append, cntGrabW_single_warn]
        omega
      · rfl
    by_cases haa : 0 ≤ a.attempts
    · rw [if_pos haa]
      refine ⟨_, _, _, rfl, ?_, ?_, ?_, ?_⟩
      · rw [cntGrabW_append, cntGrabW_catchupNewest, hwarn, hA, hcnt]
        simp [hbl, cntGrabW]
      · rw [cntGrabW_append, cntGrabW_catchupNewest, hwarn, hA, hcnt]
        simp [cntGrabW]
      · intro i h1 h2
        rw [cntGrabW_append, cntGrabW_catchupNewest, hwarn, hA, hcnt]
        simp only [List.length_cons] at h2
        have e1 : ¬ (i = 0 ∧ (true : Bool) = false) := by simp
        rw [if_neg e1, if_pos ⟨h1, by omega, rfl⟩]
        simp [hbl, cntGrabW]
      · intro i h1
        rw [cntGrabW_append, cntGrabW_catchupNewest, hwarn, hA, hcnt]
        have e1 : ¬ (i = 0 ∧ (false : Bool) = false) := by simp; omega
        have e2 : ¬ (1 ≤ i ∧ i < 1 + rest.length ∧ (false : Bool) = true) := by simp
        rw [if_neg e1, if_neg e2]
        simp [cntGrabW]
    · rw [if_neg haa]
      refine ⟨_, _, _, rfl, ?_, ?_, ?_, ?_⟩
      · rw [hwarn, hA, hcnt]
        simp [hbl, cntGrabW]
      · rw [hwarn, hA, hcnt]
        simp [cntGrabW]
      · intro i h1 h2
        rw [hwarn, hA, hcnt]
        simp only [List.length_cons] at h2
        have e1 : ¬ (i = 0 ∧ (true : Bool) = false) := by simp
        rw [if_neg e1, if_pos ⟨h1, by omega, rfl⟩]
        simp [hbl, cntGrabW]
      · intro i h1
        rw [hwarn, hA, hcnt]
        have e1 : ¬ (i = 0 ∧ (false : Bool) = false) := by simp; omega
        have e2 : ¬ (1 ≤ i ∧ i < 1 + rest.length ∧ (false : Bool) = true) := by simp
        rw [if_neg e1, if_neg e2]
        simp [cntGrabW]
  · rw [if_neg hda]
    rcases newestOuter_spec d.backlog rest 1
      { offset := v0.sizeBytes, offsets := [0], rts := [],
        newest := I64_MIN, oldest := I64_MAX,
        any := decide (0 < d.backlog), attempts := d.attempts, rt := d.rt,
        procd := [{ v0 with script := d.script, curProps := d.cur }], log := d.log }
      (by intro h; exact absurd h (by simpa using hda)) with ⟨a, ha2, hat2, hct2, hcf2⟩
    rw [ha2]
    dsimp only []
    have hA : ∀ i w1, cntGrabW a.log i w1 = cntGrabW d.log i w1 +
        (if 1 ≤ i ∧ i < 1 + rest.length ∧ w1 = true then d.backlog else 0) := by
      intro i w1
      rcases w1 with _ | _
      · rw [hcf2 i]
        simp
      · rw [hct2 i]
        simp
    have hwarn : ∀ i w1, cntGrabW (if ((st.sync_continuously || a.attempts == 0)
        && decide (st.sync_tolerance_us < a.newest - a.oldest)) = true
        then a.log ++ [Event.warnDesync] else a.log) i w1 = cntGrabW a.log i w1 := by
      intro i w1
      split
      · rw [cntGrabW_append, cntGrabW_single_warn]
        omega
      · rfl
    have hat2a : a.attempts = d.attempts ∨ a.attempts = -1 := hat2
    have haa : ¬ 0 ≤ a.attempts := by
      rcases hat2a with h | h <;> omega
    rw [if_neg haa]
    refine ⟨_, _, _, rfl, ?_, ?_, ?_, ?_⟩
    · rw [hwarn, hA, hcnt]
      simp [hbl, cntGrabW]
    · rw [hwarn, hA, hcnt]
      simp [cntGrabW]
    · intro i h1 h2
      rw [hwarn, hA, hcnt]
      simp only [List.length_cons] at h2
      have e1 : ¬ (i = 0 ∧ (true : Bool) = false) := by simp
      rw [if_neg e1, if_pos ⟨h1, by omega, rfl⟩]
      simp [hbl, cntGrabW]
    · intro i h1
      rw [hwarn, hA, hcnt]
      have e1 : ¬ (i = 0 ∧ (false : Bool) = false) := by simp; omega
      have e2 : ¬ (1 ≤ i ∧ i < 1 + rest.length ∧ (false : Bool) = true) := by simp
      rw [if_neg e1, if_neg e2]
      simp [cntGrabW]

/-- First source of the C6 witness: four non-blocking successes, then a failure. -/
def c6V0 : SrcState := mockSrc 4 false false
  [⟨true, none⟩, ⟨true, none⟩, ⟨true, none⟩, ⟨true, none⟩, ⟨false, none⟩]

/-- Second source of the C6 witness joiner. -/
def c6R1 : SrcState := mockSrc 2 false false
  [⟨true, none⟩, ⟨true, none⟩, ⟨true, none⟩, ⟨true, none⟩]

/-- The non-buffer-aware two-source joiner of the C6 witness. -/
def c6St : JoinerState := mkVideoJoiner [c6V0, c6R1]

/-- Witness for C6: source 0 yields four successes then a failure (backlog 4), so
source 0 receives five non-blocking grabs and source 1 exactly four blocking ones. -/
theorem fallback_backlog_drain_witness :
    AllInterfacesAreBufferAware c6St.srcs = false ∧ SyncSafe c6St ∧
    (∃ r st2 log, GrabNewestJ c6St false = some (r, st2, log) ∧
      cntGrabW log 0 false = 5 ∧ cntGrabW log 0 true = 0 ∧
      (∀ i, 1 ≤ i → i < c6St.srcs.length → cntGrabW log i true = 4) ∧
      (∀ i, 1 ≤ i → cntGrabW log i false = 0)) :=
  ⟨by decide, by decide,
    fallback_backlog_drain c6St false c6V0 [c6R1] rfl (by decide) (by decide)⟩

theorem srcDrop_hasProps (v : SrcState) (n : Nat) : (srcDrop v n).2.hasProps = v.hasProps := by
  by_cases h : v.dropOk = true <;> simp [srcDrop, h]

theorem dropLoop_srcs_mem (n : Nat) : ∀ (vs : List SrcState) (s : Nat) (u : SrcState),
    u ∈ (dropLoop n s vs).2.1 → ∃ v ∈ vs, u.hasProps = v.hasProps := by
  intro vs
  induction vs with
  | nil => intro s u hu; simp [dropLoop] at hu
  | cons v rest ih =>
    intro s u hu
    rw [dropLoop] at hu
    by_cases hd : (srcDrop v n).1 = true
    · rw [if_pos hd] at hu
      dsimp only [] at hu
      rcases List.mem_cons.1 hu with h | h
      · exact ⟨v, List.mem_cons_self v rest, by rw [h, srcDrop_hasProps]⟩
      · rcases ih (s + 1) u h with ⟨v2, hv2, he⟩
        exact ⟨v2, List.mem_cons_of_mem v hv2, he⟩
    · rw [if_neg hd] at hu
      dsimp only [] at hu
      rcases List.mem_cons.1 hu with h | h
      · exact ⟨v, List.mem_cons_self v rest, by rw [h, srcDrop_hasProps]⟩
      · exact ⟨u, List.mem_cons_of_mem v h, rfl⟩

theorem catchup_srcs_mem (limit : Int) : ∀ (zs : List (SrcState × Nat × Int)) (s : Nat)
    (u : SrcState), u ∈ (catchup s limit zs).1 → ∃ z ∈ zs, u.hasProps = z.1.hasProps := by
  intro zs
  induction zs with
  | nil => intro s u hu; simp [catchup] at hu
  | cons z rest ih =>
    intro s u hu
    obtain ⟨v, off, rt⟩ := z
    rw [catchup] at hu
    by_cases hrt : rt < limit
    · rw [if_pos hrt] at hu
      dsimp only [] at hu
      rcases List.mem_cons.1 hu with h | h
      · exact ⟨(v, off, rt), List.mem_cons_self _ rest, by rw [h, srcGrab_hasProps]⟩
      · rcases ih (s + 1) u h with ⟨z2, hz2, he⟩
        exact ⟨z2, List.mem_cons_of_mem _ hz2, he⟩
    · rw [if_neg hrt] at hu
      dsimp only [] at hu
      rcases List.mem_cons.1 hu with h | h
      · exact ⟨(v, off, rt), List.mem_cons_self _ rest, by rw [h]⟩
      · rcases ih (s + 1) u h with ⟨z2, hz2, he⟩
        exact ⟨z2, List.mem_cons_of_mem _ hz2, he⟩

theorem catchupNewest_srcs_mem (limit : Int) : ∀ (zs : List (SrcState × Nat × Int)) (s : Nat)
    (u : SrcState), u ∈ (catchupNewest s limit zs).1 → ∃ z ∈ zs, u.hasProps = z.1.hasProps := by
  intro zs
  induction zs with
  | nil => intro s u hu; simp [catchupNewest] at hu
  | cons z rest ih =>
    intro s u hu
    obtain ⟨v, off, rt⟩ := z
    rw [catchupNewest] at hu
    by_cases hrt : rt < limit
    · rw [if_pos hrt] at hu
      dsimp only [] at hu
      rcases List.mem_cons.1 hu with h | h
      · exact ⟨(v, off, rt), List.mem_cons_self _ rest, by rw [h, srcGrab_hasProps]⟩
      · rcases ih (s + 1) u h with ⟨z2, hz2, he⟩
        exact ⟨z2, List.mem_cons_of_mem _ hz2, he⟩
    · rw [if_neg hrt] at hu
      dsimp only [] at hu
      rcases List.mem_cons.1 hu with h | h
      · exact ⟨(v, off, rt), List.mem_cons_self _ rest, by rw [h]⟩
      · rcases ih (s + 1) u h with ⟨z2, hz2, he⟩
        exact ⟨z2, List.mem_cons_of_mem _ hz2, he⟩

/-- Existence run of the inner blocking-grab loop keeping track of the processed
source: the capability flag survives every grab and the attempt counter can only
stay or drop to the disabled value. -/
theorem drainOther_keep (s off : Nat) : ∀ (k : Nat) (v : SrcState) (ga : Bool)
    (att rt : Int) (log : List Event), (v.hasProps = true ∨ att < 0) →
    ∃ d, drainOther s off k v ga att rt log = some d ∧
      d.src.hasProps = v.hasProps ∧ (d.attempts = att ∨ d.attempts = -1) := by
  intro k
  induction k with
  | zero =>
    intro v ga att rt log hh
    exact ⟨_, rfl, rfl, Or.inl rfl⟩
  | succ k ih =>
    intro v ga att rt log hh
    rw [drainOther]
    by_cases ha : 0 ≤ att
    · have hv : v.hasProps = true := by rcases hh with h | h; exact h; omega
      rw [if_pos ha, if_pos hv]
      rcases hcur : (srcGrab v).2.curProps with _ | t
      · rcases ih (srcGrab v).2 (ga || (srcGrab v).1) (-1) rt
          ((log ++ [Event.grab s off true (srcGrab v).1]) ++ [Event.errNoTimestamp s])
          (Or.inr (by omega)) with ⟨d, hrun, hsp, hat⟩
        refine ⟨d, hrun, by rw [hsp, srcGrab_hasProps], ?_⟩
        rcases hat with h | h
        · exact Or.inr h
        · exact Or.inr h
      · rcases ih (srcGrab v).2 (ga || (srcGrab v).1) att t
          (log ++ [Event.grab s off true (srcGrab v).1])
          (Or.inl (by rw [srcGrab_hasProps]; exact hv)) with ⟨d, hrun, hsp, hat⟩
        exact ⟨d, hrun, by rw [hsp, srcGrab_hasProps], hat⟩
    · rw [if_neg ha]
      rcases ih (srcGrab v).2 (ga || (srcGrab v).1) att rt
        (log ++ [Event.grab s off true (srcGrab v).1])
        (Or.inr (by omega)) with ⟨d, hrun, hsp, hat⟩
      exact ⟨d, hrun, by rw [hsp, srcGrab_hasProps], hat⟩

/-- Existence run of the outer fallback loop keeping track of the processed
sources: every new entry of `procd` inherits its capability flag from one of the
traversed sources, and the attempt counter can only stay or drop to disabled. -/
theorem newestOuter_keep (bl : Nat) : ∀ (vs : List SrcState) (s : Nat) (acc : NewestAcc),
    (0 ≤ acc.attempts → ∀ v ∈ vs, v.hasProps = true) →
    ∃ a, newestOuter bl s vs acc = some a ∧
      (∀ u ∈ a.procd, u ∈ acc.procd ∨ ∃ v ∈ vs, u.hasProps = v.hasProps) ∧
      (a.attempts = acc.attempts ∨ a.attempts = -1) := by
  intro vs
  induction vs with
  | nil =>
    intro s acc hsafe
    exact ⟨acc, rfl, fun u hu => Or.inl hu, Or.inl rfl⟩
  | cons v rest ih =>
    intro s acc hsafe
    rw [newestOuter]
    have hh : v.hasProps = true ∨ acc.attempts < 0 := by
      by_cases ha : 0 ≤ acc.attempts
      · exact Or.inl (hsafe ha v (List.mem_cons_self v rest))
      · exact Or.inr (by omega)
    rcases drainOther_keep s acc.offset bl v acc.any acc.attempts acc.rt acc.log hh with
      ⟨d, hrun, hsp, hat⟩
    rw [hrun]
    dsimp only []
    by_cases hda : 0 ≤ d.attempts
    · rw [if_pos hda]
      have hap : 0 ≤ acc.attempts := by rcases hat with h | h <;> omega
      rcases ih (s + 1)
        { offset := acc.offset + v.sizeBytes, offsets := acc.offsets ++ [acc.offset],
          rts := acc.rts ++ [d.rt], newest := max acc.newest d.rt,
          oldest := min acc.oldest d.rt, any := d.any, attempts := d.attempts,
          rt := d.rt, procd := acc.procd ++ [d.src], log := d.log }
        (by intro hh2 u hu; exact hsafe hap u (List.mem_cons_of_mem v hu)) with
        ⟨a, hrun2, hmem, hat2⟩
      refine ⟨a, hrun2, ?_, ?_⟩
      · intro u hu
        rcases hmem u hu with h | h
        · dsimp only [] at h
          rcases List.mem_append.1 h with h2 | h2
          · exact Or.inl h2
          · refine Or.inr ⟨v, List.mem_cons_self v rest, ?_⟩
            rw [List.mem_singleton.1 h2, hsp]
        · rcases h with ⟨v2, hv2, he⟩
          exact Or.inr ⟨v2, List.mem_cons_of_mem v hv2, he⟩
      · rcases hat2 with h | h
        · dsimp only [] at h
          rw [h]
          exact hat
        · exact Or.inr h
    · rw [if_neg hda]
      rcases ih (s + 1)
        { offset := acc.offset + v.sizeBytes, offsets := acc.offsets ++ [acc.offset],
          rts := acc.rts, newest := acc.newest, oldest := acc.oldest,
          any := d.any, attempts := d.attempts, rt := d.rt,
          procd := acc.procd ++ [d.src], log := d.log }
        (by intro hh2; exact absurd hh2 (by simpa using hda)) with
        ⟨a, hrun2, hmem, hat2⟩
      refine ⟨a, hrun2, ?_, ?_⟩
      · intro u hu
        rcases hmem u hu with h | h
        · dsimp only [] at h
          rcases List.mem_append.1 h with h2 | h2
          · exact Or.inl h2
          · refine Or.inr ⟨v, List.mem_cons_self v rest, ?_⟩
            rw [List.mem_singleton.1 h2, hsp]
        · rcases h with ⟨v2, hv2, he⟩
          exact Or.inr ⟨v2, List.mem_cons_of_mem v hv2, he⟩
      · rcases hat2 with h | h
        · dsimp only [] at h
          rw [h]
          exact hat
        · exact Or.inr h

/-- A completed `GrabNext` call preserves the safety invariant: if the attempt
budget is still non-negative afterwards, every source still carries the
Timestamped-Properties capability. -/
theorem GrabNextJ_syncSafe (st : JoinerState) (w r : Bool) (st2 : JoinerState)
    (log : List Event) (hs : SyncSafe st) (h : GrabNextJ st w = some (r, st2, log)) :
    SyncSafe st2 := by
  unfold GrabNextJ at h
  rcases grabNextLoop_some w st.srcs 0
      { offset := 0, offsets := [], rts := [], newest := I64_MIN, oldest := I64_MAX,
        grabbedAll := (st.srcs.length : Int), attempts := st.sync_attempts_to_go,
        procd := [], log := [] } (fun hh => hs (by simpa using hh)) with
    ⟨acc, hrun, hga, hat, hpr⟩
  rw [hrun] at h
  dsimp only [] at h
  dsimp only [] at hat hpr
  by_cases hcu : 0 ≤ acc.attempts
  · rw [if_pos hcu] at h
    simp only [Option.some.injEq, Prod.mk.injEq] at h
    rcases h with ⟨h1, h2, h3⟩
    rw [← h2]
    have hsa : 0 ≤ st.sync_attempts_to_go := by rcases hat with hh | hh <;> omega
    have hall : ∀ v ∈ st.srcs, v.hasProps = true := hs hsa
    intro hp2 u hu
    dsimp only [] at hu
    rcases catchup_srcs_mem (acc.newest - st.sync_tolerance_us) _ 0 u hu with ⟨z, hz, he⟩
    have hz1 : z.1 ∈ acc.procd := (List.of_mem_zip hz).1
    rw [hpr] at hz1
    simp only [List.nil_append, List.mem_map] at hz1
    rcases hz1 with ⟨v, hv, hve⟩
    rw [he, ← hve, afterGrab, srcGrab_hasProps]
    exact hall v hv
  · rw [if_neg hcu] at h
    simp only [Option.some.injEq, Prod.mk.injEq] at h
    rcases h with ⟨h1, h2, h3⟩
    rw [← h2]
    intro hp2
    exact absurd hp2 (by simpa using hcu)

/-- A completed `GrabNewest` call preserves the safety invariant. -/
theorem GrabNewestJ_syncSafe (st : JoinerState) (w r : Bool) (st2 : JoinerState)
    (log : List Event) (hs : SyncSafe st) (h : GrabNewestJ st w = some (r, st2, log)) :
    SyncSafe st2 := by
  unfold GrabNewestJ at h
  by_cases hba : AllInterfacesAreBufferAware st.srcs = true
  · rw [if_pos hba] at h
    dsimp only [] at h
    by_cases hmn : 1 < st.srcs.foldl (fun m v => min v.avail m) UINT32_MAX
    · rw [if_pos hmn] at h
      have hmid : SyncSafe { st with
          srcs := (dropLoop (st.srcs.foldl (fun m v => min v.avail m) UINT32_MAX - 1)
            0 st.srcs).2.1 } := by
        intro hp2 u hu
        dsimp only [] at hp2 hu
        rcases dropLoop_srcs_mem _ st.srcs 0 u hu with ⟨v, hv, he⟩
        rw [he]
        exact hs hp2 v hv
      by_cases hd1 : (dropLoop (st.srcs.foldl (fun m v => min v.avail m) UINT32_MAX - 1)
          0 st.srcs).1 = true
      · rw [if_pos hd1] at h
        rcases hg : GrabNextJ { st with
            srcs := (dropLoop (st.srcs.foldl (fun m v => min v.avail m) UINT32_MAX - 1)
              0 st.srcs).2.1 } w with _ | res
        · rw [hg] at h
          exact absurd h (by simp)
        · rw [hg] at h
          dsimp only [] at h
          simp only [Option.some.injEq, Prod.mk.injEq] at h
          rcases h with ⟨h1, h2, h3⟩
          rw [← h2]
          obtain ⟨r1, st2x, log1⟩ := res
          exact GrabNextJ_syncSafe _ w r1 st2x log1 hmid hg
      · rw [if_neg hd1] at h
        simp only [Option.some.injEq, Prod.mk.injEq] at h
        rcases h with ⟨h1, h2, h3⟩
        rw [← h2]
        exact hmid
    · rw [if_neg hmn] at h
      exact GrabNextJ_syncSafe st w r st2 log hs h
  · rw [if_neg hba] at h
    rcases hsrcs : st.srcs with _ | ⟨v0, rest⟩
    · rw [hsrcs] at h
      dsimp only [] at h
      simp only [Option.some.injEq, Prod.mk.injEq] at h
      rcases h with ⟨h1, h2, h3⟩
      rw [← h2]
      exact hs
    · rw [hsrcs] at h
      dsimp only [] at h
      have hh0 : v0.hasProps = true ∨ st.sync_attempts_to_go < 0 := by
        by_cases ha : 0 ≤ st.sync_attempts_to_go
        · exact Or.inl (hs ha v0 (by rw [hsrcs]; exact List.mem_cons_self v0 rest))
        · exact Or.inr (by omega)
      rcases drain0_spec v0.hasProps v0.script v0.curProps st.sync_attempts_to_go 0 0 [] hh0
        with ⟨d, hd, hbl, hat, hcnt⟩
      rw [hd] at h
      dsimp only [] at h
      have hrest : 0 ≤ d.attempts → ∀ v ∈ rest, v.hasProps = true := by
        intro hda v hv
        have hsa : 0 ≤ st.sync_attempts_to_go := by rcases hat with hh | hh <;> omega
        exact hs hsa v (by rw [hsrcs]; exact List.mem_cons_of_mem v0 hv)
      by_cases hda : 0 ≤ d.attempts
      · rw [if_pos hda] at h
        rcases newestOuter_keep d.backlog rest 1
          { offset := v0.sizeBytes, offsets := [0], rts := [d.rt],
            newest := max I64_MIN d.rt, oldest := min I64_MAX d.rt,
            any := decide (0 < d.backlog), attempts := d.attempts, rt := d.rt,
            procd := [{ v0 with script := d.script, curProps := d.cur }], log := d.log }
          (fun _ => hrest hda) with ⟨a, ha2, hmem, hat2⟩
        rw [ha2] at h
        dsimp only [] at h
        have hv0p : 0 ≤ st.sync_attempts_to_go := by rcases hat with hh | hh <;> omega
        have hall : ∀ v ∈ st.srcs, v.hasProps = true := hs hv0p
        have hprocd : ∀ u ∈ a.procd, u.hasProps = true := by
          intro u hu
          rcases hmem u hu with h2 | h2
          · rw [List.mem_singleton.1 h2]
            exact hall v0 (by rw [hsrcs]; exact List.mem_cons_self v0 rest)
          · rcases h2 with ⟨v, hv, he⟩
            rw [he]
            exact hall v (by rw [hsrcs]; exact List.mem_cons_of_mem v0 hv)
        by_cases haa : 0 ≤ a.attempts
        · rw [if_pos haa] at h
          simp only [Option.some.injEq, Prod.mk.injEq] at h
          rcases h with ⟨h1, h2, h3⟩
          rw [← h2]
          intro hp2 u hu
          dsimp only [] at hu
          rcases catchupNewest_srcs_mem (a.newest - st.sync_tolerance_us) _ 0 u hu with
            ⟨z, hz, he⟩
          rw [he]
          exact hprocd z.1 (List.of_mem_zip hz).1
        · rw [if_neg haa] at h
          simp only [Option.some.injEq, Prod.mk.injEq] at h
          rcases h with ⟨h1, h2, h3⟩
          rw [← h2]
          intro hp2
          exact absurd hp2 (by simpa using haa)
      · rw [if_neg hda] at h
        rcases newestOuter_keep d.backlog rest 1
          { offset := v0.sizeBytes, offsets := [0], rts := [],
            newest := I64_MIN, oldest := I64_MAX,
            any := decide (0 < d.backlog), attempts := d.attempts, rt := d.rt,
            procd := [{ v0 with script := d.script, curProps := d.cur }], log := d.log }
          (by intro hh2; exact absurd hh2 (by simpa using hda)) with ⟨a, ha2, hmem, hat2⟩
        rw [ha2] at h
        dsimp only [] at h
        have haa : ¬ 0 ≤ a.attempts := by
          have hat2a : a.attempts = d.attempts ∨ a.attempts = -1 := hat2
          rcases hat2a with hh | hh <;> omega
        rw [if_neg haa] at h
        simp only [Option.some.injEq, Prod.mk.injEq] at h
        rcases h with ⟨h1, h2, h3⟩
        rw [← h2]
        intro hp2
        exact absurd hp2 (by simpa using haa)

/-- From any safe state, `GrabNewest` completes: no unchecked capability query is
ever dereferenced while null. -/
theorem GrabNewestJ_total (st : JoinerState) (w : Bool) (hs : SyncSafe st) :
    ∃ r st2 log, GrabNewestJ st w = some (r, st2, log) := by
  unfold GrabNewestJ
  by_cases hba : AllInterfacesAreBufferAware st.srcs = true
  · rw [if_pos hba]
    dsimp only []
    by_cases hmn : 1 < st.srcs.foldl (fun m v => min v.avail m) UINT32_MAX
    · rw [if_pos hmn]
      have hmid : SyncSafe { st with
          srcs := (dropLoop (st.srcs.foldl (fun m v => min v.avail m) UINT32_MAX - 1)
            0 st.srcs).2.1 } := by
        intro hp2 u hu
        dsimp only [] at hp2 hu
        rcases dropLoop_srcs_mem _ st.srcs 0 u hu with ⟨v, hv, he⟩
        rw [he]
        exact hs hp2 v hv
      by_cases hd1 : (dropLoop (st.srcs.foldl (fun m v => min v.avail m) UINT32_MAX - 1)
          0 st.srcs).1 = true
      · rw [if_pos hd1]
        rcases GrabNextJ_some _ w hmid with ⟨st2, log, hg⟩
        rw [hg]
        exact ⟨_, _, _, rfl⟩
      · rw [if_neg hd1]
        exact ⟨_, _, _, rfl⟩
    · rw [if_neg hmn]
      rcases GrabNextJ_some st w hs with ⟨st2, log, hg⟩
      rw [hg]
      exact ⟨_, _, _, rfl⟩
  · rw [if_neg hba]
    rcases hsrcs : st.srcs with _ | ⟨v0, rest⟩
    · exact ⟨_, _, _, rfl⟩
    · have hh0 : v0.hasProps = true ∨ st.sync_attempts_to_go < 0 := by
        by_cases ha : 0 ≤ st.sync_attempts_to_go
        · exact Or.inl (hs ha v0 (by rw [hsrcs]; exact List.mem_cons_self v0 rest))
        · exact Or.inr (by omega)
      rcases drain0_spec v0.hasProps v0.script v0.curProps st.sync_attempts_to_go 0 0 [] hh0
        with ⟨d, hd, hbl, hat, hcnt⟩
      dsimp only []
      rw [hd]
      dsimp only []
      have hrest : 0 ≤ d.attempts → ∀ v ∈ rest, v.hasProps = true := by
        intro hda v hv
        have hsa : 0 ≤ st.sync_attempts_to_go := by rcases hat with hh | hh <;> omega
        exact hs hsa v (by rw [hsrcs]; exact List.mem_cons_of_mem v0 hv)
      by_cases hda : 0 ≤ d.attempts
      · rw [if_pos hda]
        rcases newestOuter_keep d.backlog rest 1
          { offset := v0.sizeBytes, offsets := [0], rts := [d.rt],
            newest := max I64_MIN d.rt, oldest := min I64_MAX d.rt,
            any := decide (0 < d.backlog), attempts := d.attempts, rt := d.rt,
            procd := [{ v0 with script := d.script, curProps := d.cur }], log := d.log }
          (fun _ => hrest hda) with ⟨a, ha2, hmem, hat2⟩
        rw [ha2]
        dsimp only []
        by_cases haa : 0 ≤ a.attempts
        · rw [if_pos haa]
          exact ⟨_, _, _, rfl⟩
        · rw [if_neg haa]
          exact ⟨_, _, _, rfl⟩
      · rw [if_neg hda]
        rcases newestOuter_keep d.backlog rest 1
          { offset := v0.sizeBytes, offsets := [0], rts := [],
            newest := I64_MIN, oldest := I64_MAX,
            any := decide (0 < d.backlog), attempts := d.attempts, rt := d.rt,
            procd := [{ v0 with script := d.script, curProps := d.cur }], log := d.log }
          (by intro hh2; exact absurd hh2 (by simpa using hda)) with ⟨a, ha2, hmem, hat2⟩
        rw [ha2]
        dsimp only []
        have haa : ¬ 0 ≤ a.attempts := by
          have hat2a : a.attempts = d.attempts ∨ a.attempts = -1 := hat2
          rcases hat2a with hh | hh <;> omega
        rw [if_neg haa]
        exact ⟨_, _, _, rfl⟩

/-- `Sync` preserves the safety invariant: it only arms the attempt budget after
the capability probe has accepted every source. -/
theorem SyncJ_syncSafe (st : JoinerState) (tol : Int) (cont : Bool)
    (hs : SyncSafe st) : SyncSafe (SyncJ st tol cont).2 := by
  unfold SyncJ
  by_cases hall : st.srcs.all (fun v => v.hasProps) = true
  · rw [if_pos hall]
    intro hp2 u hu
    dsimp only [] at hu
    exact List.all_eq_true.1 hall u hu
  · rw [if_neg hall]
    exact hs

/-- States of a `VideoJoiner` reachable through its public interface: constructed,
then any interleaving of `Sync` requests and completed `GrabNext` / `GrabNewest`
calls. -/
inductive Reachable : JoinerState → Prop
  | init (src : List SrcState) : Reachable (mkVideoJoiner src)
  | sync (st : JoinerState) (tol : Int) (cont : Bool) :
      Reachable st → Reachable (SyncJ st tol cont).2
  | next (st : JoinerState) (w r : Bool) (st2 : JoinerState) (log : List Event) :
      Reachable st → GrabNextJ st w = some (r, st2, log) → Reachable st2
  | newest (st : JoinerState) (w r : Bool) (st2 : JoinerState) (log : List Event) :
      Reachable st → GrabNewestJ st w = some (r, st2, log) → Reachable st2

theorem reachable_syncSafe (st : JoinerState) (h : Reachable st) : SyncSafe st := by
  induction h with
  | init src =>
    intro hp
    simp [mkVideoJoiner] at hp
  | sync st tol cont hr ih => exact SyncJ_syncSafe st tol cont ih
  | next st w r st2 log hr hg ih => exact GrabNextJ_syncSafe st w r st2 log ih hg
  | newest st w r st2 log hr hg ih => exact GrabNewestJ_syncSafe st w r st2 log ih hg

/-- C10: in every reachable joiner state, a non-negative attempt budget implies
that every joined source supports the Timestamped-Properties capability — the
invariant is established by `Sync` (which arms the budget only after probing all
sources) and preserved by every operation — and therefore the unchecked
per-source capability query of `GrabNext` and `GrabNewest` never dereferences a
null handle (modelled: neither call returns `none`). -/
theorem sync_enabled_capability_safe (st : JoinerState) (h : Reachable st) :
    (0 ≤ st.sync_attempts_to_go → ∀ v ∈ st.srcs, v.hasProps = true) ∧
    ∀ w : Bool, GrabNextJ st w ≠ none ∧ GrabNewestJ st w ≠ none := by
  have hs : SyncSafe st := reachable_syncSafe st h
  refine ⟨hs, fun w => ⟨?_, ?_⟩⟩
  · rcases GrabNextJ_some st w hs with ⟨st2, log, hg⟩
    rw [hg]
    simp
  · rcases GrabNewestJ_total st w hs with ⟨r, st2, log, hg⟩
    rw [hg]
    simp

/-- The armed two-source joiner of the C10 witness. -/
def c10St : JoinerState :=
  (SyncJ (mkVideoJoiner [mockSrc 4 true false [⟨true, some 1000⟩],
    mockSrc 2 true false [⟨true, some 1010⟩]]) 30 false).2

/-- Witness for C10 at a joiner armed by `Sync`: the budget is non-negative, both
sources carry the capability, and both grab calls complete. -/
theorem sync_enabled_capability_safe_witness :
    ((0 ≤ c10St.sync_attempts_to_go → ∀ v ∈ c10St.srcs, v.hasProps = true) ∧
      ∀ w : Bool, GrabNextJ c10St w ≠ none ∧ GrabNewestJ c10St w ≠ none) ∧
    0 ≤ c10St.sync_attempts_to_go :=
  ⟨sync_enabled_capability_safe c10St
    (Reachable.sync (mkVideoJoiner [mockSrc 4 true false [⟨true, some 1000⟩],
        mockSrc 2 true false [⟨true, some 1010⟩]]) 30 false
      (Reachable.init [mockSrc 4 true false [⟨true, some 1000⟩],
        mockSrc 2 true false [⟨true, some 1010⟩]])),
   by decide⟩

/-- The collection phase of the fallback path of `VideoJoiner::GrabNewest`
(join.cpp lines 182-236): the drain of source 0 followed by the outer loop over
the remaining sources.  Its result holds the locals (`newest`, `oldest`,
`reception_times`, `offsets`, `grabbed_any`) and the member `sync_attempts_to_go`
exactly as they stand at the warn check of line 237; it is literally the
composition used inside `GrabNewestJ`. -/
def fallbackRun (st : JoinerState) : Option NewestAcc :=
  match st.srcs with
  | [] => none
  | v0 :: rest =>
    match drain0 v0.hasProps v0.script v0.curProps st.sync_attempts_to_go 0 0 [] with
    | none => none
    | some d =>
      let v0' : SrcState := { v0 with script := d.script, curProps := d.cur }
      let acc0 : NewestAcc :=
        if 0 ≤ d.attempts then
          { offset := v0.sizeBytes, offsets := [0], rts := [d.rt],
            newest := max I64_MIN d.rt, oldest := min I64_MAX d.rt,
            any := decide (0 < d.backlog), attempts := d.attempts, rt := d.rt,
            procd := [v0'], log := d.log }
        else
          { offset := v0.sizeBytes, offsets := [0], rts := [],
            newest := I64_MIN, oldest := I64_MAX,
            any := decide (0 < d.backlog), attempts := d.attempts, rt := d.rt,
            procd := [v0'], log := d.log }
      newestOuter d.backlog 1 rest acc0

/-- The finishing step of the fallback path of `VideoJoiner::GrabNewest`
(join.cpp lines 237-251) applied to the collection-phase result: the warn check,
the catch-up pass while sync is enabled, and the conditional decrement. -/
def fallbackFinish (st : JoinerState) (a : NewestAcc) : Bool × JoinerState × List Event :=
  let log2 := if (st.sync_continuously || a.attempts == 0)
                 && decide (st.sync_tolerance_us < a.newest - a.oldest)
              then a.log ++ [Event.warnDesync] else a.log
  if 0 ≤ a.attempts then
    let cu := catchupNewest 0 (a.newest - st.sync_tolerance_us)
                (a.procd.zip (a.offsets.zip a.rts))
    let att1 := if st.sync_continuously then a.attempts else a.attempts - 1
    (a.any, { st with srcs := cu.1, sync_attempts_to_go := att1 }, log2 ++ cu.2)
  else
    (a.any, { st with srcs := a.procd, sync_attempts_to_go := a.attempts }, log2)

/-- On a non-buffer-aware mix, `GrabNewest` is exactly the collection phase
followed by the finishing step. -/
theorem GrabNewestJ_fallback (st : JoinerState) (w : Bool) (a : NewestAcc)
    (hnba : AllInterfacesAreBufferAware st.srcs = false)
    (hfa : fallbackRun st = some a) :
    GrabNewestJ st w = some (fallbackFinish st a) := by
  unfold GrabNewestJ fallbackFinish
  unfold fallbackRun at hfa
  rw [if_neg (by simp [hnba])]
  rcases hsrcs : st.srcs with _ | ⟨v0, rest⟩
  · rw [hsrcs] at hfa
    exact absurd hfa (by simp)
  · rw [hsrcs] at hfa
    dsimp only [] at hfa
    dsimp only []
    rcases hd : drain0 v0.hasProps v0.script v0.curProps st.sync_attempts_to_go 0 0 [] with _ | d
    · rw [hd] at hfa
      exact absurd hfa (by simp)
    · rw [hd] at hfa
      dsimp only [] at hfa
      dsimp only []
      rw [hfa]
      dsimp only []
      by_cases haa : 0 ≤ a.attempts
      · rw [if_pos haa, if_pos haa]
      · rw [if_neg haa, if_neg haa]

/-- With sync already disabled, the inner blocking-grab loop never touches the
attempt counter. -/
theorem drainOther_att_neg (s off : Nat) : ∀ (k : Nat) (v : SrcState) (ga : Bool)
    (att rt : Int) (log : List Event) (d : DrainKOut), att < 0 →
    drainOther s off k v ga att rt log = some d → d.attempts = att := by
  intro k
  induction k with
  | zero =>
    intro v ga att rt log d hneg h
    rw [drainOther] at h
    simp only [Option.some.injEq] at h
    rw [← h]
  | succ k ih =>
    intro v ga att rt log d hneg h
    rw [drainOther] at h
    rw [if_neg (show ¬ (0:Int) ≤ att from by omega)] at h
    exact ih (srcGrab v).2 (ga || (srcGrab v).1) att rt
      (log ++ [Event.grab s off true (srcGrab v).1]) d hneg h

/-- With sync already disabled, the outer fallback loop never touches the attempt
counter. -/
theorem newestOuter_att_neg (bl : Nat) : ∀ (vs : List SrcState) (s : Nat)
    (acc : NewestAcc) (a : NewestAcc), acc.attempts < 0 →
    newestOuter bl s vs acc = some a → a.attempts = acc.attempts := by
  intro vs
  induction vs with
  | nil =>
    intro s acc a hneg h
    rw [newestOuter] at h
    simp only [Option.some.injEq] at h
    rw [← h]
  | cons v rest ih =>
    intro s acc a hneg h
    rw [newestOuter] at h
    rcases hdo : drainOther s acc.offset bl v acc.any acc.attempts acc.rt acc.log with _ | d
    · rw [hdo] at h
      exact absurd h (by simp)
    · rw [hdo] at h
      dsimp only [] at h
      have hda : d.attempts = acc.attempts :=
        drainOther_att_neg s acc.offset bl v acc.any acc.attempts acc.rt acc.log d hneg hdo
      rw [if_neg (show ¬ (0:Int) ≤ d.attempts from by omega)] at h
      have := ih (s + 1)
        { offset := acc.offset + v.sizeBytes, offsets := acc.offsets ++ [acc.offset],
          rts := acc.rts, newest := acc.newest, oldest := acc.oldest,
          any := d.any, attempts := d.attempts, rt := d.rt,
          procd := acc.procd ++ [d.src], log := d.log } a (by dsimp only []; omega) h
      dsimp only [] at this
      omega

/-- The drain of source 0 only appends non-blocking grab events on source 0 at
offset 0 — plus, only while sync is enabled at entry, the missing-key error on
source 0 — and can only keep or disable the attempt counter. -/
theorem drain0_log (hp : Bool) : ∀ (sc : List GrabEntry) (cp : Option Int) (att : Int)
    (bl : Nat) (rt : Int) (log : List Event) (d : Drain0Out),
    drain0 hp sc cp att bl rt log = some d →
    (d.attempts = att ∨ d.attempts = -1) ∧
    ∃ t, d.log = log ++ t ∧ ∀ e ∈ t, (∃ b, e = Event.grab 0 0 false b) ∨
      (0 ≤ att ∧ e = Event.errNoTimestamp 0) := by
  intro sc
  induction sc with
  | nil =>
    intro cp att bl rt log d h
    rw [drain0] at h
    simp only [Option.some.injEq] at h
    rw [← h]
    refine ⟨Or.inl rfl, [Event.grab 0 0 false false], rfl, ?_⟩
    intro e he
    rw [List.mem_singleton.1 he]
    exact Or.inl ⟨false, rfl⟩
  | cons e rest ih =>
    intro cp att bl rt log d h
    rw [drain0] at h
    by_cases he : e.ok = true
    · rw [if_pos he] at h
      by_cases ha : (0:Int) ≤ att
      · rw [if_pos ha] at h
        by_cases hhp : hp = true
        · rw [if_pos hhp] at h
          rcases hep : e.props with _ | t0
          · rw [hep] at h
            dsimp only [] at h
            rcases ih none (-1) (bl + 1) rt
              ((log ++ [Event.grab 0 0 false e.ok]) ++ [Event.errNoTimestamp 0]) d h with
              ⟨hat, t, ht, hsh⟩
            refine ⟨?_, [Event.grab 0 0 false e.ok] ++ ([Event.errNoTimestamp 0] ++ t), ?_, ?_⟩
            · rcases hat with hh | hh
              · exact Or.inr hh
              · exact Or.inr hh
            · rw [ht]
              simp
            · intro ev hev
              rcases List.mem_append.1 hev with hv | hv
              · exact Or.inl ⟨e.ok, List.mem_singleton.1 hv ▸ rfl⟩
              · rcases List.mem_append.1 hv with hv2 | hv2
                · exact Or.inr ⟨ha, List.mem_singleton.1 hv2 ▸ rfl⟩
                · rcases hsh ev hv2 with hg | hg
                  · exact Or.inl hg
                  · exact absurd hg.1 (by omega)
          · rw [hep] at h
            dsimp only [] at h
            rcases ih (some t0) att (bl + 1) t0 (log ++ [Event.grab 0 0 false e.ok]) d h with
              ⟨hat, t, ht, hsh⟩
            refine ⟨hat, [Event.grab 0 0 false e.ok] ++ t, ?_, ?_⟩
            · rw [ht]
              simp
            · intro ev hev
              rcases List.mem_append.1 hev with hv | hv
              · exact Or.inl ⟨e.ok, List.mem_singleton.1 hv ▸ rfl⟩
              · exact hsh ev hv
        · rw [if_neg hhp] at h
          exact absurd h (by simp)
      · rw [if_neg ha] at h
        rcases ih e.props att (bl + 1) rt (log ++ [Event.grab 0 0 false e.ok]) d h with
          ⟨hat, t, ht, hsh⟩
        refine ⟨hat, [Event.grab 0 0 false e.ok] ++ t, ?_, ?_⟩
        · rw [ht]
          simp
        · intro ev hev
          rcases List.mem_append.1 hev with hv | hv
          · exact Or.inl ⟨e.ok, List.mem_singleton.1 hv ▸ rfl⟩
          · exact hsh ev hv
    · rw [if_neg he] at h
      simp only [Option.some.injEq] at h
      rw [← h]
      refine ⟨Or.inl rfl, [Event.grab 0 0 false e.ok], rfl, ?_⟩
      intro ev hev
      rw [List.mem_singleton.1 hev]
      exact Or.inl ⟨e.ok, rfl⟩

/-- The inner blocking-grab loop on a later source only appends blocking grab
events on that source at its offset — plus, only while sync is enabled at entry,
missing-key errors on it — and can only keep or disable the attempt counter. -/
theorem drainOther_log (s off : Nat) : ∀ (k : Nat) (v : SrcState) (ga : Bool)
    (att rt : Int) (log : List Event) (d : DrainKOut),
    drainOther s off k v ga att rt log = some d →
    (d.attempts = att ∨ d.attempts = -1) ∧
    ∃ t, d.log = log ++ t ∧ ∀ e ∈ t, (∃ b, e = Event.grab s off true b) ∨
      (0 ≤ att ∧ e = Event.errNoTimestamp s) := by
  intro k
  induction k with
  | zero =>
    intro v ga att rt log d h
    rw [drainOther] at h
    simp only [Option.some.injEq] at h
    rw [← h]
    exact ⟨Or.inl rfl, [], by simp, by simp⟩
  | succ k ih =>
    intro v ga att rt log d h
    rw [drainOther] at h
    by_cases ha : (0:Int) ≤ att
    · rw [if_pos ha] at h
      by_cases hv : v.hasProps = true
      · rw [if_pos hv] at h
        rcases hcp : (srcGrab v).2.curProps with _ | t0
        · rw [hcp] at h
          rcases ih (srcGrab v).2 (ga || (srcGrab v).1) (-1) rt
            ((log ++ [Event.grab s off true (srcGrab v).1]) ++ [Event.errNoTimestamp s]) d h with
            ⟨hat, t, ht, hsh⟩
          refine ⟨?_, [Event.grab s off true (srcGrab v).1] ++ ([Event.errNoTimestamp s] ++ t),
            ?_, ?_⟩
          · rcases hat with hh | hh
            · exact Or.inr hh
            · exact Or.inr hh
          · rw [ht]
            simp
          · intro ev hev
            rcases List.mem_append.1 hev with hm | hm
            · exact Or.inl ⟨(srcGrab v).1, List.mem_singleton.1 hm ▸ rfl⟩
            · rcases List.mem_append.1 hm with hm2 | hm2
              · exact Or.inr ⟨ha, List.mem_singleton.1 hm2 ▸ rfl⟩
              · rcases hsh ev hm2 with hg | hg
                · exact Or.inl hg
                · exact absurd hg.1 (by omega)
        · rw [hcp] at h
          rcases ih (srcGrab v).2 (ga || (srcGrab v).1) att t0
            (log ++ [Event.grab s off true (srcGrab v).1]) d h with ⟨hat, t, ht, hsh⟩
          refine ⟨hat, [Event.grab s off true (srcGrab v).1] ++ t, ?_, ?_⟩
          · rw [ht]
            simp
          · intro ev hev
            rcases List.mem_append.1 hev with hm | hm
            · exact Or.inl ⟨(srcGrab v).1, List.mem_singleton.1 hm ▸ rfl⟩
            · exact hsh ev hm
      · rw [if_neg hv] at h
        exact absurd h (by simp)
    · rw [if_neg ha] at h
      rcases ih (srcGrab v).2 (ga || (srcGrab v).1) att rt
        (log ++ [Event.grab s off true (srcGrab v).1]) d h with ⟨hat, t, ht, hsh⟩
      refine ⟨hat, [Event.grab s off true (srcGrab v).1] ++ t, ?_, ?_⟩
      · rw [ht]
        simp
      · intro ev hev
        rcases List.mem_append.1 hev with hm | hm
        · exact Or.inl ⟨(srcGrab v).1, List.mem_singleton.1 hm ▸ rfl⟩
        · exact hsh ev hm

/-- The outer fallback loop only appends blocking grab events — plus, only while
sync is enabled at entry, missing-key errors — and can only keep or disable the
attempt counter: it never emits warnings, drops or child `GrabNewest` calls. -/
theorem newestOuter_log (bl : Nat) : ∀ (vs : List SrcState) (s : Nat)
    (acc : NewestAcc) (a : NewestAcc), newestOuter bl s vs acc = some a →
    (a.attempts = acc.attempts ∨ a.attempts = -1) ∧
    ∃ t, a.log = acc.log ++ t ∧ ∀ e ∈ t, (∃ i off1 b, e = Event.grab i off1 true b) ∨
      (0 ≤ acc.attempts ∧ ∃ i, e = Event.errNoTimestamp i) := by
  intro vs
  induction vs with
  | nil =>
    intro s acc a h
    rw [newestOuter] at h
    simp only [Option.some.injEq] at h
    rw [← h]
    exact ⟨Or.inl rfl, [], by simp, by simp⟩
  | cons v rest ih =>
    intro s acc a h
    rw [newestOuter] at h
    rcases hdo : drainOther s acc.offset bl v acc.any acc.attempts acc.rt acc.log with _ | d
    · rw [hdo] at h
      exact absurd h (by simp)
    · rw [hdo] at h
      dsimp only [] at h
      rcases drainOther_log s acc.offset bl v acc.any acc.attempts acc.rt acc.log d hdo with
        ⟨hat1, t1, ht1, hsh1⟩
      by_cases hda : (0:Int) ≤ d.attempts
      · rw [if_pos hda] at h
        have hacc : 0 ≤ acc.attempts := by rcases hat1 with hh | hh <;> omega
        rcases ih (s + 1)
          { offset := acc.offset + v.sizeBytes, offsets := acc.offsets ++ [acc.offset],
            rts := acc.rts ++ [d.rt], newest := max acc.newest d.rt,
            oldest := min acc.oldest d.rt, any := d.any, attempts := d.attempts,
            rt := d.rt, procd := acc.procd ++ [d.src], log := d.log } a h with
          ⟨hat2, t2, ht2, hsh2⟩
        dsimp only [] at hat2 ht2 hsh2
        refine ⟨?_, t1 ++ t2, ?_, ?_⟩
        · rcases hat2 with hh | hh
          · rw [hh]
            exact hat1
          · exact Or.inr hh
        · rw [ht2, ht1]
          simp
        · intro ev hev
          rcases List.mem_append.1 hev with hm | hm
          · rcases hsh1 ev hm with hg | hg
            · rcases hg with ⟨b, hb⟩
              exact Or.inl ⟨s, acc.offset, b, hb⟩
            · exact Or.inr ⟨hg.1, s, hg.2⟩
          · rcases hsh2 ev hm with hg | hg
            · exact Or.inl hg
            · exact Or.inr ⟨hacc, hg.2⟩
      · rw [if_neg hda] at h
        rcases ih (s + 1)
          { offset := acc.offset + v.sizeBytes, offsets := acc.offsets ++ [acc.offset],
            rts := acc.rts, newest := acc.newest, oldest := acc.oldest,
            any := d.any, attempts := d.attempts, rt := d.rt,
            procd := acc.procd ++ [d.src], log := d.log } a h with ⟨hat2, t2, ht2, hsh2⟩
        dsimp only [] at hat2 ht2 hsh2
        refine ⟨?_, t1 ++ t2, ?_, ?_⟩
        · rcases hat2 with hh | hh
          · rw [hh]
            exact hat1
          · exact Or.inr hh
        · rw [ht2, ht1]
          simp
        · intro ev hev
          rcases List.mem_append.1 hev with hm | hm
          · rcases hsh1 ev hm with hg | hg
            · rcases hg with ⟨b, hb⟩
              exact Or.inl ⟨s, acc.offset, b, hb⟩
            · exact Or.inr ⟨hg.1, s, hg.2⟩
          · rcases hsh2 ev hm with hg | hg
            · exact Or.inl hg
            · exact absurd hg.1 (by omega)

/-- Over the whole collection phase the attempt counter is kept or disabled. -/
theorem fallbackRun_att (st : JoinerState) (a : NewestAcc) (h : fallbackRun st = some a) :
    a.attempts = st.sync_attempts_to_go ∨ a.attempts = -1 := by
  unfold fallbackRun at h
  rcases hsrcs : st.srcs with _ | ⟨v0, rest⟩
  · rw [hsrcs] at h
    exact absurd h (by simp)
  · rw [hsrcs] at h
    dsimp only [] at h
    rcases hd : drain0 v0.hasProps v0.script v0.curProps st.sync_attempts_to_go 0 0 [] with _ | d
    · rw [hd] at h
      exact absurd h (by simp)
    · rw [hd] at h
      dsimp only [] at h
      rcases drain0_log v0.hasProps v0.script v0.curProps st.sync_attempts_to_go 0 0 [] d hd with
        ⟨hat1, _, _, _⟩
      by_cases hda : (0:Int) ≤ d.attempts
      · rw [if_pos hda] at h
        rcases (newestOuter_log d.backlog rest 1 _ a h).1 with hh | hh
        · dsimp only [] at hh
          rw [hh]
          exact hat1
        · exact Or.inr hh
      · rw [if_neg hda] at h
        rcases (newestOuter_log d.backlog rest 1 _ a h).1 with hh | hh
        · dsimp only [] at hh
          rw [hh]
          exact hat1
        · exact Or.inr hh

/-- The collection phase logs only child `GrabNext` calls and missing-key errors:
no warning, no drop and no child `GrabNewest` call is recorded before the warn
check. -/
theorem fallbackRun_log (st : JoinerState) (a : NewestAcc) (h : fallbackRun st = some a) :
    ∀ e ∈ a.log, (∃ i off1 w1 b, e = Event.grab i off1 w1 b) ∨
      (∃ i, e = Event.errNoTimestamp i) := by
  unfold fallbackRun at h
  rcases hsrcs : st.srcs with _ | ⟨v0, rest⟩
  · rw [hsrcs] at h
    exact absurd h (by simp)
  · rw [hsrcs] at h
    dsimp only [] at h
    rcases hd : drain0 v0.hasProps v0.script v0.curProps st.sync_attempts_to_go 0 0 [] with _ | d
    · rw [hd] at h
      exact absurd h (by simp)
    · rw [hd] at h
      dsimp only [] at h
      rcases drain0_log v0.hasProps v0.script v0.curProps st.sync_attempts_to_go 0 0 [] d hd with
        ⟨_, t0, ht0, hsh0⟩
      have hbase : ∀ e ∈ d.log, (∃ i off1 w1 b, e = Event.grab i off1 w1 b) ∨
          (∃ i, e = Event.errNoTimestamp i) := by
        intro e he
        rw [ht0] at he
        rcases hsh0 e (by simpa using he) with hg | hg
        · rcases hg with ⟨b, hb⟩
          exact Or.inl ⟨0, 0, false, b, hb⟩
        · exact Or.inr ⟨0, hg.2⟩
      by_cases hda : (0:Int) ≤ d.attempts
      · rw [if_pos hda] at h
        rcases (newestOuter_log d.backlog rest 1 _ a h).2 with ⟨t, ht, hsh⟩
        dsimp only [] at ht
        intro e he
        rw [ht] at he
        rcases List.mem_append.1 he with hm | hm
        · exact hbase e hm
        · rcases hsh e hm with hg | hg
          · rcases hg with ⟨i, off1, b, hb⟩
            exact Or.inl ⟨i, off1, true, b, hb⟩
          · rcases hg.2 with ⟨i, hb⟩
            exact Or.inr ⟨i, hb⟩
      · rw [if_neg hda] at h
        rcases (newestOuter_log d.backlog rest 1 _ a h).2 with ⟨t, ht, hsh⟩
        dsimp only [] at ht
        intro e he
        rw [ht] at he
        rcases List.mem_append.1 he with hm | hm
        · exact hbase e hm
        · rcases hsh e hm with hg | hg
          · rcases hg with ⟨i, off1, b, hb⟩
            exact Or.inl ⟨i, off1, true, b, hb⟩
          · rcases hg.2 with ⟨i, hb⟩
            exact Or.inr ⟨i, hb⟩

/-- From any safe state with at least one source, the collection phase
completes. -/
theorem fallbackRun_some (st : JoinerState) (v0 : SrcState) (rest : List SrcState)
    (hsp : st.srcs = v0 :: rest) (hs : SyncSafe st) : ∃ a, fallbackRun st = some a := by
  unfold fallbackRun
  rw [hsp]
  dsimp only []
  have hh0 : v0.hasProps = true ∨ st.sync_attempts_to_go < 0 := by
    by_cases ha : 0 ≤ st.sync_attempts_to_go
    · exact Or.inl (hs ha v0 (by rw [hsp]; exact List.mem_cons_self v0 rest))
    · exact Or.inr (by omega)
  rcases drain0_spec v0.hasProps v0.script v0.curProps st.sync_attempts_to_go 0 0 [] hh0 with
    ⟨d, hd, hbl, hat, hcnt⟩
  rw [hd]
  dsimp only []
  have hrest : 0 ≤ d.attempts → ∀ v ∈ rest, v.hasProps = true := by
    intro hda v hv
    have hsa : 0 ≤ st.sync_attempts_to_go := by rcases hat with hh | hh <;> omega
    exact hs hsa v (by rw [hsp]; exact List.mem_cons_of_mem v0 hv)
  by_cases hda : (0:Int) ≤ d.attempts
  · rw [if_pos hda]
    rcases newestOuter_keep d.backlog rest 1
      { offset := v0.sizeBytes, offsets := [0], rts := [d.rt],
        newest := max I64_MIN d.rt, oldest := min I64_MAX d.rt,
        any := decide (0 < d.backlog), attempts := d.attempts, rt := d.rt,
        procd := [{ v0 with script := d.script, curProps := d.cur }], log := d.log }
      (fun _ => hrest hda) with ⟨a, ha2, _, _⟩
    exact ⟨a, ha2⟩
  · rw [if_neg hda]
    rcases newestOuter_keep d.backlog rest 1
      { offset := v0.sizeBytes, offsets := [0], rts := [],
        newest := I64_MIN, oldest := I64_MAX,
        any := decide (0 < d.backlog), attempts := d.attempts, rt := d.rt,
        procd := [{ v0 with script := d.script, curProps := d.cur }], log := d.log }
      (by intro hh2; exact absurd hh2 (by simpa using hda)) with ⟨a, ha2, _, _⟩
    exact ⟨a, ha2⟩

theorem cntNewestC_cons (e : Event) (l : List Event) (s : Nat) :
    cntNewestC (e :: l) s = (if isNewestAt s e then 1 else 0) + cntNewestC l s := by
  by_cases h : isNewestAt s e = true <;> simp [cntNewestC, List.filter_cons, h] <;> omega

theorem cntNewestC_append (a b : List Event) (s : Nat) :
    cntNewestC (a ++ b) s = cntNewestC a s + cntNewestC b s := by
  simp [cntNewestC, List.filter_append]

theorem cntNewestC_zero (l : List Event) (s : Nat) (h : ∀ e ∈ l, isNewestAt s e = false) :
    cntNewestC l s = 0 := by
  induction l with
  | nil => rfl
  | cons e t ih =>
    rw [cntNewestC_cons, h e (List.mem_cons_self e t)]
    simpa using ih (fun e2 he2 => h e2 (List.mem_cons_of_mem e he2))

theorem cntNewestC_catchupNewest_out (limit : Int) (l : List (SrcState × Nat × Int))
    (s0 s : Nat) (h : s < s0 ∨ s0 + l.length ≤ s) :
    cntNewestC (catchupNewest s0 limit l).2 s = 0 := by
  induction l generalizing s0 with
  | nil => simp [catchupNewest, cntNewestC]
  | cons p rest ih =>
    rcases p with ⟨v, off, rt⟩
    rw [catchupNewest]
    have hne : isNewestAt s (Event.grabNewestChild s0 off (srcGrab v).1) = false := by
      simp [isNewestAt]; simp [List.length_cons] at h; omega
    by_cases hlt : rt < limit
    · rw [if_pos hlt]
      dsimp only []
      rw [cntNewestC_cons, hne]
      simp only [Bool.false_eq_true, if_false, Nat.zero_add]
      exact ih (s0 + 1) (by simp [List.length_cons] at h; omega)
    · rw [if_neg hlt]
      dsimp only []
      exact ih (s0 + 1) (by simp [List.length_cons] at h; omega)

/-- The fallback catch-up pass issues exactly one child `GrabNewest` call to each
lagging source and none to the others. -/
theorem cntNewestC_catchupNewest (limit : Int) (l : List (SrcState × Nat × Int))
    (s0 i : Nat) (hi : i < l.length) :
    cntNewestC (catchupNewest s0 limit l).2 (s0 + i) =
      if (l.get ⟨i, hi⟩).2.2 < limit then 1 else 0 := by
  induction l generalizing s0 i with
  | nil => simp at hi
  | cons p rest ih =>
    rcases p with ⟨v, off, rt⟩
    rw [catchupNewest]
    rcases i with _ | j
    · have hgot : ((⟨v, off, rt⟩ : SrcState × Nat × Int) :: rest).get ⟨0, hi⟩ = ⟨v, off, rt⟩ := rfl
      rw [hgot]
      by_cases hlt : rt < limit
      · rw [if_pos hlt]
        dsimp only []
        rw [cntNewestC_cons]
        have h1 : isNewestAt (s0 + 0) (Event.grabNewestChild s0 off (srcGrab v).1) = true := by
          simp [isNewestAt]
        rw [h1, if_pos rfl,
          cntNewestC_catchupNewest_out limit rest (s0 + 1) (s0 + 0) (by omega), if_pos hlt]
      · rw [if_neg hlt]
        dsimp only []
        rw [cntNewestC_catchupNewest_out limit rest (s0 + 1) (s0 + 0) (by omega), if_neg hlt]
    · have hj : j < rest.length := by simpa using Nat.lt_of_succ_lt_succ hi
      have hgot : ((⟨v, off, rt⟩ : SrcState × Nat × Int) :: rest).get ⟨j + 1, hi⟩ =
          rest.get ⟨j, hj⟩ := rfl
      rw [hgot]
      have hrec := ih (s0 + 1) j hj
      rw [show s0 + (j + 1) = (s0 + 1) + j from by omega]
      by_cases hlt : rt < limit
      · rw [if_pos hlt]
        dsimp only []
        rw [cntNewestC_cons]
        have h1 : isNewestAt (s0 + 1 + j) (Event.grabNewestChild s0 off (srcGrab v).1) = false := by
          simp [isNewestAt]; omega
        rw [h1]
        simp only [Bool.false_eq_true, if_false, Nat.zero_add]
        exact hrec
      · rw [if_neg hlt]
        dsimp only []
        exact hrec

/-- Every event of the fallback catch-up pass is the child `GrabNewest` call of a
lagging source in range, at the recorded offset of its zip entry. -/
theorem catchupNewest_mem_shape (limit : Int) (l : List (SrcState × Nat × Int)) :
    ∀ s0 e, e ∈ (catchupNewest s0 limit l).2 →
      ∃ i, i < l.length ∧ (l.getD i default).2.2 < limit ∧
        e = Event.grabNewestChild (s0 + i) (l.getD i default).2.1 (grabOk (l.getD i default).1) := by
  induction l with
  | nil => intro s0 e he; simp [catchupNewest] at he
  | cons p rest ih =>
    rcases p with ⟨v, off, rt⟩
    intro s0 e he
    rw [catchupNewest] at he
    by_cases hlt : rt < limit
    · rw [if_pos hlt] at he
      dsimp only [] at he
      rcases List.mem_cons.1 he with h | h
      · refine ⟨0, by simp, hlt, ?_⟩
        subst h
        rfl
      · rcases ih (s0 + 1) e h with ⟨i, hi, hl, hsh⟩
        refine ⟨i + 1, by simpa using Nat.succ_lt_succ hi, hl, ?_⟩
        rw [hsh]
        have e1 : s0 + 1 + i = s0 + (i + 1) := by omega
        rw [e1]
        rfl
    · rw [if_neg hlt] at he
      dsimp only [] at he
      rcases ih (s0 + 1) e he with ⟨i, hi, hl, hsh⟩
      refine ⟨i + 1, by simpa using Nat.succ_lt_succ hi, hl, ?_⟩
      rw [hsh]
      have e1 : s0 + 1 + i = s0 + (i + 1) := by omega
      rw [e1]
      rfl

/-- The outer fallback loop records one offset per source — the running prefix
sums — and processes one source per step, unconditionally. -/
theorem newestOuter_offsets (bl : Nat) : ∀ (vs : List SrcState) (s : Nat)
    (acc : NewestAcc) (a : NewestAcc), newestOuter bl s vs acc = some a →
    a.offsets = acc.offsets ++ offsetsList acc.offset vs ∧
    a.procd.length = acc.procd.length + vs.length := by
  intro vs
  induction vs with
  | nil =>
    intro s acc a h
    rw [newestOuter] at h
    simp only [Option.some.injEq] at h
    rw [← h]
    exact ⟨by simp [offsetsList], by simp⟩
  | cons v rest ih =>
    intro s acc a h
    rw [newestOuter] at h
    rcases hdo : drainOther s acc.offset bl v acc.any acc.attempts acc.rt acc.log with _ | d
    · rw [hdo] at h
      exact absurd h (by simp)
    · rw [hdo] at h
      dsimp only [] at h
      by_cases hda : (0:Int) ≤ d.attempts
      · rw [if_pos hda] at h
        rcases ih (s + 1)
          { offset := acc.offset + v.sizeBytes, offsets := acc.offsets ++ [acc.offset],
            rts := acc.rts ++ [d.rt], newest := max acc.newest d.rt,
            oldest := min acc.oldest d.rt, any := d.any, attempts := d.attempts,
            rt := d.rt, procd := acc.procd ++ [d.src], log := d.log } a h with ⟨ho, hl⟩
        dsimp only [] at ho hl
        constructor
        · rw [ho, offsetsList]
          simp
        · rw [hl]
          simp only [List.length_append, List.length_cons, List.length_nil]
          omega
      · rw [if_neg hda] at h
        rcases ih (s + 1)
          { offset := acc.offset + v.sizeBytes, offsets := acc.offsets ++ [acc.offset],
            rts := acc.rts, newest := acc.newest, oldest := acc.oldest,
            any := d.any, attempts := d.attempts, rt := d.rt,
            procd := acc.procd ++ [d.src], log := d.log } a h with ⟨ho, hl⟩
        dsimp only [] at ho hl
        constructor
        · rw [ho, offsetsList]
          simp
        · rw [hl]
          simp only [List.length_append, List.length_cons, List.length_nil]
          omega

/-- While the attempt counter is still non-negative at the end of the outer
loop, a reception time was recorded for every traversed source. -/
theorem newestOuter_rts_pos (bl : Nat) : ∀ (vs : List SrcState) (s : Nat)
    (acc : NewestAcc) (a : NewestAcc), newestOuter bl s vs acc = some a →
    0 ≤ a.attempts → a.rts.length = acc.rts.length + vs.length := by
  intro vs
  induction vs with
  | nil =>
    intro s acc a h hpos
    rw [newestOuter] at h
    simp only [Option.some.injEq] at h
    rw [← h]
    simp
  | cons v rest ih =>
    intro s acc a h hpos
    rw [newestOuter] at h
    rcases hdo : drainOther s acc.offset bl v acc.any acc.attempts acc.rt acc.log with _ | d
    · rw [hdo] at h
      exact absurd h (by simp)
    · rw [hdo] at h
      dsimp only [] at h
      by_cases hda : (0:Int) ≤ d.attempts
      · rw [if_pos hda] at h
        have := ih (s + 1)
          { offset := acc.offset + v.sizeBytes, offsets := acc.offsets ++ [acc.offset],
            rts := acc.rts ++ [d.rt], newest := max acc.newest d.rt,
            oldest := min acc.oldest d.rt, any := d.any, attempts := d.attempts,
            rt := d.rt, procd := acc.procd ++ [d.src], log := d.log } a h hpos
        dsimp only [] at this
        rw [this]
        simp only [List.length_append, List.length_cons, List.length_nil]
        omega
      · rw [if_neg hda] at h
        have habs := newestOuter_att_neg bl rest (s + 1)
          { offset := acc.offset + v.sizeBytes, offsets := acc.offsets ++ [acc.offset],
            rts := acc.rts, newest := acc.newest, oldest := acc.oldest,
            any := d.any, attempts := d.attempts, rt := d.rt,
            procd := acc.procd ++ [d.src], log := d.log } a (by dsimp only []; omega) h
        dsimp only [] at habs
        omega

/-- With the counter still non-negative after the collection phase, the recorded
offsets are the prefix sums of the join and one reception time and one processed
source exist per joined source. -/
theorem fallbackRun_aligned (st : JoinerState) (v0 : SrcState) (rest : List SrcState)
    (a : NewestAcc) (hsp : st.srcs = v0 :: rest) (h : fallbackRun st = some a)
    (haa : 0 ≤ a.attempts) :
    a.offsets = offsetsList 0 st.srcs ∧ a.rts.length = st.srcs.length ∧
    a.procd.length = st.srcs.length := by
  unfold fallbackRun at h
  rw [hsp] at h
  dsimp only [] at h
  rcases hd : drain0 v0.hasProps v0.script v0.curProps st.sync_attempts_to_go 0 0 [] with _ | d
  · rw [hd] at h
    exact absurd h (by simp)
  · rw [hd] at h
    dsimp only [] at h
    by_cases hda : (0:Int) ≤ d.attempts
    · rw [if_pos hda] at h
      rcases newestOuter_offsets d.backlog rest 1 _ a h with ⟨ho, hp2⟩
      have hr := newestOuter_rts_pos d.backlog rest 1 _ a h haa
      dsimp only [] at ho hp2 hr
      refine ⟨?_, ?_, ?_⟩
      · rw [ho, hsp, offsetsList]
        simp
      · rw [hr, hsp]
        simp only [List.length_cons, List.length_nil]
        omega
      · rw [hp2, hsp]
        simp only [List.length_cons, List.length_nil]
        omega
    · rw [if_neg hda] at h
      have habs := newestOuter_att_neg d.backlog rest 1 _ a (by dsimp only []; omega) h
      dsimp only [] at habs
      omega

theorem zip3_length (ps : List SrcState) (os : List Nat) (ts : List Int)
    (h1 : os.length = ps.length) (h2 : ts.length = ps.length) :
    (ps.zip (os.zip ts)).length = ps.length := by
  rw [List.length_zip, List.length_zip]
  omega

theorem zip3_getD (ps : List SrcState) (os : List Nat) (ts : List Int)
    (h1 : os.length = ps.length) (h2 : ts.length = ps.length)
    (i : Nat) (hi : i < ps.length) :
    (ps.zip (os.zip ts)).getD i default = (ps.getD i default, os.getD i 0, ts.getD i 0) := by
  have h3 : i < os.length := by omega
  have h4 : i < ts.length := by omega
  have h5 : i < (os.zip ts).length := by rw [List.length_zip]; omega
  have hz : i < (ps.zip (os.zip ts)).length := by rw [zip3_length ps os ts h1 h2]; exact hi
  rw [List.getD_eq_getElem _ default hz]
  have hz1 : (ps.zip (os.zip ts))[i] = (ps[i], (os.zip ts)[i]) := List.getElem_zip
  rw [hz1]
  have hz2 : (os.zip ts)[i] = (os[i], ts[i]) := List.getElem_zip
  rw [hz2]
  rw [show ps[i] = ps.getD i default from (List.getD_eq_getElem ps default hi).symm,
    show os[i] = os.getD i 0 from (List.getD_eq_getElem os 0 h3).symm,
    show ts[i] = ts.getD i 0 from (List.getD_eq_getElem ts 0 h4).symm]

/-- C9: a desynchronization warning is emitted during a composite grab — by
either engine — if and only if the spread `newest - oldest` of the collected
reception times exceeds the tolerance and the mode is continuous or the bounded
counter reads zero at the check; the warning changes neither the return value
nor the sync members, whose post-values are given independently of the warning
condition.  For `GrabNext` the collected times are the per-source times `ts`;
for the fallback `GrabNewest` they are the times of the collection phase
`fallbackRun`. -/
theorem desync_warning_iff (st : JoinerState) (w : Bool) (ts : List Int)
    (v0 : SrcState) (rest : List SrcState)
    (hp : ∀ v ∈ st.srcs, v.hasProps = true) (ha : 0 ≤ st.sync_attempts_to_go)
    (hts : grabTimes st.srcs = some ts) (hne : ts ≠ [])
    (hlo : ∀ t ∈ ts, I64_MIN ≤ t) (hhi : ∀ t ∈ ts, t ≤ I64_MAX)
    (hsp : st.srcs = v0 :: rest)
    (hnba : AllInterfacesAreBufferAware st.srcs = false) :
    (∃ st2 log, GrabNextJ st w = some (allOk st.srcs, st2, log) ∧
      (Event.warnDesync ∈ log ↔
        ((st.sync_continuously = true ∨ st.sync_attempts_to_go = 0) ∧
         st.sync_tolerance_us < newestOf ts - oldestOf ts)) ∧
      (∀ t ∈ ts, t ≤ newestOf ts) ∧ newestOf ts ∈ ts ∧
      (∀ t ∈ ts, oldestOf ts ≤ t) ∧ oldestOf ts ∈ ts ∧
      st2.sync_tolerance_us = st.sync_tolerance_us ∧
      st2.sync_continuously = st.sync_continuously ∧
      st2.sync_attempts_to_go = (if st.sync_continuously = true then st.sync_attempts_to_go
                                 else st.sync_attempts_to_go - 1)) ∧
    (∃ a rn st2n logn, fallbackRun st = some a ∧
      GrabNewestJ st w = some (rn, st2n, logn) ∧
      rn = a.any ∧
      (Event.warnDesync ∈ logn ↔
        ((st.sync_continuously = true ∨ a.attempts = 0) ∧
         st.sync_tolerance_us < a.newest - a.oldest)) ∧
      st2n.sync_tolerance_us = st.sync_tolerance_us ∧
      st2n.sync_continuously = st.sync_continuously ∧
      st2n.sync_attempts_to_go = (if 0 ≤ a.attempts then
          (if st.sync_continuously = true then a.attempts else a.attempts - 1)
        else a.attempts)) := by
  constructor
  · refine ⟨_, _, GrabNextJ_golden st w ts hp ha hts, ?_, (newestOf_spec ts hne hlo).1,
      (newestOf_spec ts hne hlo).2, (oldestOf_spec ts hne hhi).1, (oldestOf_spec ts hne hhi).2,
      rfl, rfl, rfl⟩
    have hA : Event.warnDesync ∉ (if allOk st.srcs = true then mainLog w 0 0 st.srcs
        else mainLog w 0 0 st.srcs ++ [Event.errGrabAll]) := by
      split
      · exact warn_not_mem_mainLog w st.srcs 0 0
      · intro hmm
        rcases List.mem_append.1 hmm with hmm | hmm
        · exact warn_not_mem_mainLog w st.srcs 0 0 hmm
        · simp at hmm
    have hC : Event.warnDesync ∉
        (catchup 0 (newestOf ts - st.sync_tolerance_us) (cuList st.srcs ts)).2 :=
      warn_not_mem_catchup _ _ 0
    constructor
    · intro hmem
      rcases List.mem_append.1 hmem with hmem | hmem
      · rcases List.mem_append.1 hmem with hmem | hmem
        · exact absurd hmem hA
        · by_cases hb : ((st.sync_continuously || (st.sync_attempts_to_go == 0))
              && decide (st.sync_tolerance_us < newestOf ts - oldestOf ts)) = true
          · simpa [Bool.and_eq_true, Bool.or_eq_true, beq_iff_eq, decide_eq_true_eq] using hb
          · rw [if_neg hb] at hmem; simp at hmem
      · exact absurd hmem hC
    · intro hcond
      have hb : ((st.sync_continuously || (st.sync_attempts_to_go == 0))
          && decide (st.sync_tolerance_us < newestOf ts - oldestOf ts)) = true := by
        rcases hcond with ⟨h1, h2⟩
        simp only [Bool.and_eq_true, Bool.or_eq_true, beq_iff_eq, decide_eq_true_eq]
        exact ⟨h1, h2⟩
      refine List.mem_append.2 (Or.inl (List.mem_append.2 (Or.inr ?_)))
      rw [if_pos hb]
      exact List.mem_singleton.2 rfl
  · have hs : SyncSafe st := fun _ => hp
    rcases fallbackRun_some st v0 rest hsp hs with ⟨a, hfa⟩
    have hwa : Event.warnDesync ∉ a.log := by
      intro hmem
      rcases fallbackRun_log st a hfa _ hmem with hg | hg
      · rcases hg with ⟨i, off1, w1, b, hb⟩
        exact Event.noConfusion hb
      · rcases hg with ⟨i, hb⟩
        exact Event.noConfusion hb
    rw [GrabNewestJ_fallback st w a hnba hfa]
    have hiffb : ∀ l2 : List Event, Event.warnDesync ∉ l2 →
        ((Event.warnDesync ∈ ((if (st.sync_continuously || a.attempts == 0)
            && decide (st.sync_tolerance_us < a.newest - a.oldest)
          then a.log ++ [Event.warnDesync] else a.log) ++ l2)) ↔
          ((st.sync_continuously = true ∨ a.attempts = 0) ∧
           st.sync_tolerance_us < a.newest - a.oldest)) := by
      intro l2 hl2
      by_cases hb : ((st.sync_continuously || a.attempts == 0)
          && decide (st.sync_tolerance_us < a.newest - a.oldest)) = true
      · rw [if_pos hb]
        constructor
        · intro _
          simpa [Bool.and_eq_true, Bool.or_eq_true, beq_iff_eq, decide_eq_true_eq] using hb
        · intro _
          exact List.mem_append.2 (Or.inl (List.mem_append.2 (Or.inr (List.mem_singleton.2 rfl))))
      · rw [if_neg hb]
        constructor
        · intro hmem
          rcases List.mem_append.1 hmem with hm | hm
          · exact absurd hm hwa
          · exact absurd hm hl2
        · intro hcond
          refine absurd ?_ hb
          simp only [Bool.and_eq_true, Bool.or_eq_true, beq_iff_eq, decide_eq_true_eq]
          exact hcond
    by_cases haa : 0 ≤ a.attempts
    · have hfin : fallbackFinish st a = (a.any,
          { st with srcs := (catchupNewest 0 (a.newest - st.sync_tolerance_us) (a.procd.zip (a.offsets.zip a.rts))).1, sync_attempts_to_go := if st.sync_continuously then a.attempts else a.attempts - 1 },
          (if (st.sync_continuously || a.attempts == 0)
              && decide (st.sync_tolerance_us < a.newest - a.oldest)
           then a.log ++ [Event.warnDesync] else a.log) ++
          (catchupNewest 0 (a.newest - st.sync_tolerance_us) (a.procd.zip (a.offsets.zip a.rts))).2) := by
        unfold fallbackFinish
        dsimp only []
        rw [if_pos haa]
      rw [hfin]
      have hwc : Event.warnDesync ∉ (catchupNewest 0 (a.newest - st.sync_tolerance_us)
          (a.procd.zip (a.offsets.zip a.rts))).2 := by
        intro hmem
        rcases catchupNewest_mem_shape _ _ 0 _ hmem with ⟨j, hj, hlt, hsh⟩
        exact Event.noConfusion hsh
      refine ⟨a, a.any, _, _, hfa, rfl, rfl, hiffb _ hwc, rfl, rfl, ?_⟩
      rw [if_pos haa]
    · have hfin : fallbackFinish st a = (a.any,
          { st with srcs := a.procd, sync_attempts_to_go := a.attempts },
          (if (st.sync_continuously || a.attempts == 0)
              && decide (st.sync_tolerance_us < a.newest - a.oldest)
           then a.log ++ [Event.warnDesync] else a.log)) := by
        unfold fallbackFinish
        dsimp only []
        rw [if_neg haa]
      rw [hfin]
      have hiff2 := hiffb [] (by simp)
      rw [List.append_nil] at hiff2
      refine ⟨a, a.any, _, _, hfa, rfl, rfl, hiff2, rfl, rfl, ?_⟩
      rw [if_neg haa]

/-- Witness for C9 at timestamps 1000 and 2000 with tolerance 30, on a
non-buffer-aware two-source joiner exercising both grab engines. -/
theorem desync_warning_iff_witness :
    (∀ v ∈ c9St.srcs, v.hasProps = true) ∧ 0 ≤ c9St.sync_attempts_to_go ∧
    grabTimes c9St.srcs = some [1000, 2000] ∧ ([1000, 2000] : List Int) ≠ [] ∧
    (∀ t ∈ ([1000, 2000] : List Int), I64_MIN ≤ t) ∧
    (∀ t ∈ ([1000, 2000] : List Int), t ≤ I64_MAX) ∧
    c9St.srcs = mockSrc 4 true false [⟨true, some 1000⟩] ::
      [mockSrc 2 true false [⟨true, some 2000⟩]] ∧
    AllInterfacesAreBufferAware c9St.srcs = false ∧
    ((∃ st2 log, GrabNextJ c9St true = some (allOk c9St.srcs, st2, log) ∧
      (Event.warnDesync ∈ log ↔
        ((c9St.sync_continuously = true ∨ c9St.sync_attempts_to_go = 0) ∧
         c9St.sync_tolerance_us < newestOf [1000, 2000] - oldestOf [1000, 2000])) ∧
      (∀ t ∈ ([1000, 2000] : List Int), t ≤ newestOf [1000, 2000]) ∧
      newestOf [1000, 2000] ∈ ([1000, 2000] : List Int) ∧
      (∀ t ∈ ([1000, 2000] : List Int), oldestOf [1000, 2000] ≤ t) ∧
      oldestOf [1000, 2000] ∈ ([1000, 2000] : List Int) ∧
      st2.sync_tolerance_us = c9St.sync_tolerance_us ∧
      st2.sync_continuously = c9St.sync_continuously ∧
      st2.sync_attempts_to_go = (if c9St.sync_continuously = true then c9St.sync_attempts_to_go
                                 else c9St.sync_attempts_to_go - 1)) ∧
    (∃ a rn st2n logn, fallbackRun c9St = some a ∧
      GrabNewestJ c9St true = some (rn, st2n, logn) ∧
      rn = a.any ∧
      (Event.warnDesync ∈ logn ↔
        ((c9St.sync_continuously = true ∨ a.attempts = 0) ∧
         c9St.sync_tolerance_us < a.newest - a.oldest)) ∧
      st2n.sync_tolerance_us = c9St.sync_tolerance_us ∧
      st2n.sync_continuously = c9St.sync_continuously ∧
      st2n.sync_attempts_to_go = (if 0 ≤ a.attempts then
          (if c9St.sync_continuously = true then a.attempts else a.attempts - 1)
        else a.attempts))) :=
  ⟨by decide, by decide, by decide, by decide, by decide, by decide, by decide, by decide,
   desync_warning_iff c9St true [1000, 2000] (mockSrc 4 true false [⟨true, some 1000⟩])
     [mockSrc 2 true false [⟨true, some 2000⟩]] (by decide) (by decide) (by decide)
     (by decide) (by decide) (by decide) (by decide) (by decide)⟩

/-- C4: when sync is enabled and a composite grab collects one reception time
per source, each source whose time is strictly below `newest - tolerance`
receives exactly one additional non-blocking grab at its reserved offset and
every other source none.  For `GrabNext` the additional grab is a child
`GrabNext` (each source: two grab calls when lagging, one otherwise); for the
fallback `GrabNewest` it is a child `GrabNewest` call, counted by
`cntNewestC`, with the collected times those of the collection phase. -/
theorem catchup_regrabs_lagging_only (st : JoinerState) (w : Bool) (ts : List Int)
    (v0 : SrcState) (rest : List SrcState)
    (hp : ∀ v ∈ st.srcs, v.hasProps = true) (ha : 0 ≤ st.sync_attempts_to_go)
    (hts : grabTimes st.srcs = some ts)
    (hsp : st.srcs = v0 :: rest)
    (hnba : AllInterfacesAreBufferAware st.srcs = false) :
    (∃ st2 log, GrabNextJ st w = some (allOk st.srcs, st2, log) ∧
      (∀ i, i < st.srcs.length →
        cntGrab log i =
          (if ts.getD i 0 < newestOf ts - st.sync_tolerance_us then 2 else 1)) ∧
      (∀ i off1 w1 b, Event.grab i off1 w1 b ∈ log → off1 = prefixSize st.srcs i)) ∧
    (∃ a, fallbackRun st = some a ∧
      (0 ≤ a.attempts →
        ∃ rn st2n logn, GrabNewestJ st w = some (rn, st2n, logn) ∧
          (∀ i, i < st.srcs.length →
            cntNewestC logn i =
              (if a.rts.getD i 0 < a.newest - st.sync_tolerance_us then 1 else 0)) ∧
          (∀ i off1 b, Event.grabNewestChild i off1 b ∈ logn →
            off1 = prefixSize st.srcs i))) := by
  constructor
  · have hlen : ts.length = st.srcs.length := grabTimes_length st.srcs ts hts
    refine ⟨_, _, GrabNextJ_golden st w ts hp ha hts, ?_, ?_⟩
    · intro i hi
      rw [cntGrab_append, cntGrab_append]
      have hA : cntGrab (if allOk st.srcs = true then mainLog w 0 0 st.srcs
          else mainLog w 0 0 st.srcs ++ [Event.errGrabAll]) i = 1 := by
        split
        · rw [cntGrab_mainLog]; rw [if_pos (by omega)]
        · rw [cntGrab_append, cntGrab_mainLog, cntGrab_single_err, if_pos (by omega)]
      have hB : cntGrab (if ((st.sync_continuously || (st.sync_attempts_to_go == 0))
          && decide (st.sync_tolerance_us < newestOf ts - oldestOf ts)) = true
          then [Event.warnDesync] else []) i = 0 := by
        split
        · exact cntGrab_single_warn i
        · rfl
      have hiC : i < (cuList st.srcs ts).length := by
        rw [cuList_length st.srcs ts hlen]; exact hi
      have hC := cntGrab_catchup (newestOf ts - st.sync_tolerance_us) (cuList st.srcs ts) 0 i hiC
      rw [cuList_get st.srcs ts hlen i hiC] at hC
      rw [show (0 : Nat) + i = i from by omega] at hC
      rw [hA, hB, hC]
      split <;> omega
    · intro i off1 w1 b hmem
      rcases List.mem_append.1 hmem with hmem | hmem
      · rcases List.mem_append.1 hmem with hmem | hmem
        · have hmain : Event.grab i off1 w1 b ∈ mainLog w 0 0 st.srcs := by
            revert hmem
            split
            · exact fun hmem => hmem
            · intro hmem
              rcases List.mem_append.1 hmem with hmem | hmem
              · exact hmem
              · simp at hmem
          rcases mainLog_mem_shape w st.srcs 0 0 _ hmain with ⟨j, hj, hsh⟩
          simp only [Event.grab.injEq] at hsh
          rcases hsh with ⟨h1, h2, h3, h4⟩
          rw [h2]
          rw [show i = j from by omega]
          omega
        · revert hmem
          split <;> intro hmem <;> simp at hmem
      · rcases catchup_mem_shape (newestOf ts - st.sync_tolerance_us) (cuList st.srcs ts) 0 _
          hmem with ⟨j, hj, hlt, hsh⟩
        simp only [Event.grab.injEq] at hsh
        rcases hsh with ⟨h1, h2, h3, h4⟩
        have hgd : (cuList st.srcs ts).getD j default = (cuList st.srcs ts).get ⟨j, hj⟩ := by
          rw [List.getD_eq_getElem _ _ hj, List.get_eq_getElem]
        rw [hgd, cuList_get st.srcs ts hlen j hj] at h2
        rw [h2]
        rw [show i = j from by omega]
  · have hs : SyncSafe st := fun _ => hp
    rcases fallbackRun_some st v0 rest hsp hs with ⟨a, hfa⟩
    refine ⟨a, hfa, ?_⟩
    intro haa
    rcases fallbackRun_aligned st v0 rest a hsp hfa haa with ⟨hoff, hrts, hprd⟩
    have hofflen : a.offsets.length = st.srcs.length := by
      rw [hoff, offsetsList_length]
    have hzlen : (a.procd.zip (a.offsets.zip a.rts)).length = st.srcs.length := by
      rw [zip3_length a.procd a.offsets a.rts (by omega) (by omega)]
      exact hprd
    rw [GrabNewestJ_fallback st w a hnba hfa]
    have hfin : fallbackFinish st a = (a.any,
        { st with srcs := (catchupNewest 0 (a.newest - st.sync_tolerance_us) (a.procd.zip (a.offsets.zip a.rts))).1, sync_attempts_to_go := if st.sync_continuously then a.attempts else a.attempts - 1 },
        (if (st.sync_continuously || a.attempts == 0)
            && decide (st.sync_tolerance_us < a.newest - a.oldest)
         then a.log ++ [Event.warnDesync] else a.log) ++
        (catchupNewest 0 (a.newest - st.sync_tolerance_us) (a.procd.zip (a.offsets.zip a.rts))).2) := by
      unfold fallbackFinish
      dsimp only []
      rw [if_pos haa]
    rw [hfin]
    have hshape := fallbackRun_log st a hfa
    have hlogz : ∀ i, cntNewestC a.log i = 0 := by
      intro i
      refine cntNewestC_zero _ _ ?_
      intro e he
      rcases hshape e he with hg | hg
      · rcases hg with ⟨j, off2, w1, b, hb⟩
        rw [hb]
        rfl
      · rcases hg with ⟨j, hb⟩
        rw [hb]
        rfl
    have hwz : ∀ i, cntNewestC (if (st.sync_continuously || a.attempts == 0)
        && decide (st.sync_tolerance_us < a.newest - a.oldest)
        then a.log ++ [Event.warnDesync] else a.log) i = 0 := by
      intro i
      split
      · rw [cntNewestC_append, hlogz]
        rfl
      · exact hlogz i
    refine ⟨_, _, _, rfl, ?_, ?_⟩
    · intro i hi
      rw [cntNewestC_append, hwz]
      have hiz : i < (a.procd.zip (a.offsets.zip a.rts)).length := by omega
      have hC := cntNewestC_catchupNewest (a.newest - st.sync_tolerance_us)
        (a.procd.zip (a.offsets.zip a.rts)) 0 i hiz
      rw [show (0 : Nat) + i = i from by omega] at hC
      have hgd : (a.procd.zip (a.offsets.zip a.rts)).get ⟨i, hiz⟩ =
          (a.procd.zip (a.offsets.zip a.rts)).getD i default := by
        rw [List.getD_eq_getElem _ _ hiz, List.get_eq_getElem]
      rw [hgd, zip3_getD a.procd a.offsets a.rts (by omega) (by omega) i (by omega)] at hC
      dsimp only [] at hC
      rw [hC, Nat.zero_add]
    · intro i off1 b hmem
      rcases List.mem_append.1 hmem with hm | hm
      · revert hm
        split
        · intro hm
          rcases List.mem_append.1 hm with hm2 | hm2
          · rcases hshape _ hm2 with hg | hg
            · rcases hg with ⟨j, off2, w1, b2, hb⟩
              exact Event.noConfusion hb
            · rcases hg with ⟨j, hb⟩
              exact Event.noConfusion hb
          · exact Event.noConfusion (List.mem_singleton.1 hm2)
        · intro hm
          rcases hshape _ hm with hg | hg
          · rcases hg with ⟨j, off2, w1, b2, hb⟩
            exact Event.noConfusion hb
          · rcases hg with ⟨j, hb⟩
            exact Event.noConfusion hb
      · rcases catchupNewest_mem_shape (a.newest - st.sync_tolerance_us)
          (a.procd.zip (a.offsets.zip a.rts)) 0 _ hm with ⟨j, hj, hlt, hsh⟩
        have hjs : j < st.srcs.length := by omega
        rw [zip3_getD a.procd a.offsets a.rts (by omega) (by omega) j (by omega)] at hsh
        dsimp only [] at hsh
        simp only [Event.grabNewestChild.injEq] at hsh
        rcases hsh with ⟨h1, h2, h3⟩
        rw [h2, hoff, offsetsList_getD 0 st.srcs j hjs]
        rw [show i = j from by omega]
        omega

/-- Witness for C4 on a non-buffer-aware joiner: over `GrabNext` the source at
1000 gets exactly one re-grab and the one at 1050 none; over the fallback
`GrabNewest` the lagging source gets exactly one child `GrabNewest` call. -/
theorem catchup_regrabs_lagging_only_witness :
    (∀ v ∈ c4St.srcs, v.hasProps = true) ∧ 0 ≤ c4St.sync_attempts_to_go ∧
    grabTimes c4St.srcs = some [1000, 1050] ∧
    c4St.srcs = mockSrc 4 true false [⟨true, some 1000⟩, ⟨true, some 1000⟩] ::
      [mockSrc 2 true false [⟨true, some 1050⟩]] ∧
    AllInterfacesAreBufferAware c4St.srcs = false ∧
    (fallbackRun c4St).map (fun a => a.attempts) = some 10 ∧
    (GrabNewestJ c4St true).map (fun r => cntNewestC r.2.2 0) = some 1 ∧
    (GrabNewestJ c4St true).map (fun r => cntNewestC r.2.2 1) = some 0 ∧
    ((∃ st2 log, GrabNextJ c4St true = some (allOk c4St.srcs, st2, log) ∧
      (∀ i, i < c4St.srcs.length →
        cntGrab log i =
          (if ([1000, 1050] : List Int).getD i 0 <
              newestOf [1000, 1050] - c4St.sync_tolerance_us then 2 else 1)) ∧
      (∀ i off1 w1 b, Event.grab i off1 w1 b ∈ log → off1 = prefixSize c4St.srcs i)) ∧
    (∃ a, fallbackRun c4St = some a ∧
      (0 ≤ a.attempts →
        ∃ rn st2n logn, GrabNewestJ c4St true = some (rn, st2n, logn) ∧
          (∀ i, i < c4St.srcs.length →
            cntNewestC logn i =
              (if a.rts.getD i 0 < a.newest - c4St.sync_tolerance_us then 1 else 0)) ∧
          (∀ i off1 b, Event.grabNewestChild i off1 b ∈ logn →
            off1 = prefixSize c4St.srcs i)))) :=
  ⟨by decide, by decide, by decide, by decide, by decide, by decide, by decide, by decide,
   catchup_regrabs_lagging_only c4St true [1000, 1050]
     (mockSrc 4 true false [⟨true, some 1000⟩, ⟨true, some 1000⟩])
     [mockSrc 2 true false [⟨true, some 1050⟩]]
     (by decide) (by decide) (by decide) (by decide) (by decide)⟩

